import Mathlib

/-!
Shallow embedding of the HTTP/1.x static-file server `server.c`.

Bytes are natural numbers (the value of an `unsigned char`). A pointer into an
array is rendered as the list of bytes from that position on, or as an offset
into the array. C strings are read up to their first zero byte. Diagnostics
written with `printf` to standard output are not part of the model.
-/

namespace HttpServer

/-! ## Bytes and the C library routines the server calls -/

/-- The bytes of an ASCII text. -/
def bytes (s : String) : List Nat := s.toList.map Char.toNat

/-- The C string stored at a pointer: the bytes before the first zero byte. -/
def cstr (mem : List Nat) : List Nat := mem.takeWhile (fun b => b != 0)

/-- `strlen`. -/
def strlen (mem : List Nat) : Nat := (cstr mem).length

/-- `tolower` in the "C" locale. -/
def tolower (c : Nat) : Nat := if 65 ≤ c ∧ c ≤ 90 then c + 32 else c

/-- `isspace` in the "C" locale: space, `\t`, `\n`, `\v`, `\f`, `\r`. -/
def isspace (c : Nat) : Bool := c == 32 || (9 ≤ c && c ≤ 13)

/-- `isdigit`. -/
def isdigit (c : Nat) : Bool := 48 ≤ c && c ≤ 57

/-- `strcmp(a, b) == 0`. -/
def strcmp_eq (a b : List Nat) : Bool := cstr a == cstr b

/-- `strcasecmp(a, b) == 0`. -/
def strcasecmp_eq (a b : List Nat) : Bool := (cstr a).map tolower == (cstr b).map tolower

/-- `strrchr(s, c)` for `c ≠ 0`, on the string contents: the suffix starting at
the last occurrence of `c`, or `none` (NULL). -/
def strrchr_str : List Nat → Nat → Option (List Nat)
  | [], _ => none
  | b :: rest, c =>
    match strrchr_str rest c with
    | some r => some r
    | none => if b = c then some (b :: rest) else none

/-- `strrchr(s, c)` for `c ≠ 0`. -/
def strrchr (s : List Nat) (c : Nat) : Option (List Nat) := strrchr_str (cstr s) c

/-- `strchr(s, c)` for `c ≠ 0`: the offset of the first `c` before the
terminating zero, or `none` (NULL). -/
def strchr : List Nat → Nat → Option Nat
  | [], _ => none
  | b :: rest, c =>
    if b = c then some 0
    else if b = 0 then none
    else (strchr rest c).map (fun i => i + 1)

/-- `memchr(s, c, n)`: the offset of the first `c` among the first `n` bytes. -/
def memchr : List Nat → Nat → Nat → Option Nat
  | _, _, 0 => none
  | [], _, _ + 1 => none
  | b :: rest, c, n + 1 =>
    if b = c then some 0 else (memchr rest c n).map (fun i => i + 1)

/-! ## `server.c` -/

def BUFFER_SIZE : Nat := 8192
def DOCUMENT_ROOT : List Nat := bytes "./www"
def PATH_MAX_LEN : Nat := 1024
def LONG_MAX : Int := 2 ^ 63 - 1
def LONG_MIN : Int := -(2 ^ 63)

/-- Conversion of a `long` to `int` (two's complement, 32 bits). -/
def long_to_int (v : Int) : Int := (v + 2 ^ 31) % 2 ^ 32 - 2 ^ 31

/-- The value of a run of decimal digits. -/
def digits_value (ds : List Nat) : Nat := ds.foldl (fun acc d => 10 * acc + (d - 48)) 0

/-- `try_conv_long(str, &result)`: `some value` for `APP_OK`, `none` for
`APP_ERR`. `strtol` skips white space, reads an optional sign and the decimal
digits; the conversion is refused when the value is out of range, when there is
no digit, and when the digits are not followed by the end of the string. -/
def try_conv_long (str : List Nat) : Option Int :=
  let s := (cstr str).dropWhile isspace
  let neg := s.head? == some 45
  let s1 := if s.head? == some 45 || s.head? == some 43 then s.drop 1 else s
  let ds := s1.takeWhile isdigit
  let end_ptr := s1.dropWhile isdigit
  let value : Int := if neg then -(digits_value ds : Int) else (digits_value ds : Int)
  if value > LONG_MAX ∨ value < LONG_MIN then none
  else if ds = [] then none
  else if end_ptr ≠ [] then none
  else some value

/-- The loop of `find_substr`: `n` positions remain to be tried, the next one
is offset `i`, at which the memory reads `mem`. -/
def find_substr_loop (substr : List Nat) : List Nat → Nat → Nat → Option Nat
  | _, 0, _ => none
  | mem, n + 1, i =>
    if mem.take substr.length = substr then some i
    else find_substr_loop substr (mem.drop 1) n (i + 1)

/-- `find_substr(str, str_len, substr, substr_len)`: the offset of the first
position `i ≤ str_len - substr_len` at which `memcmp` finds `substr`. -/
def find_substr (str : List Nat) (str_len : Nat) (substr : List Nat) : Option Nat :=
  if substr.length = 0 ∨ str_len < substr.length then none
  else find_substr_loop substr str (str_len - substr.length + 1) 0

/-- `get_mime_type(path)`; `none` is NULL. -/
def get_mime_type (path : List Nat) : Option (List Nat) :=
  match strrchr path 46 with
  | none => none
  | some ext =>
    if strcasecmp_eq ext (bytes ".html") || strcmp_eq ext (bytes ".htm") then
      some (bytes "text/html")
    else if strcasecmp_eq ext (bytes ".css") then some (bytes "text/css")
    else if strcasecmp_eq ext (bytes ".js") then some (bytes "application/javascript")
    else if strcasecmp_eq ext (bytes ".png") then some (bytes "image/png")
    else if strcasecmp_eq ext (bytes ".jpg") || strcasecmp_eq ext (bytes ".jpeg") then
      some (bytes "image/jpeg")
    else if strcasecmp_eq ext (bytes ".gif") then some (bytes "image/gif")
    else if strcasecmp_eq ext (bytes ".txt") then some (bytes "text/plain")
    else if strcasecmp_eq ext (bytes ".ico") then some (bytes "image/x-icon")
    else none

/-- `printf("%d")` of a non-negative number: the loop producing the decimal
digits, most significant first. -/
def dec_digits : Nat → Nat → List Nat → List Nat
  | 0, _, acc => acc
  | fuel + 1, n, acc =>
    if n / 10 = 0 then (48 + n % 10) :: acc
    else dec_digits fuel (n / 10) ((48 + n % 10) :: acc)

/-- `printf("%d")` / `printf("%jd")`. -/
def fmt_int (v : Int) : List Nat :=
  if v < 0 then 45 :: dec_digits (v.natAbs + 1) v.natAbs []
  else dec_digits (v.natAbs + 1) v.natAbs []

/-- `connection_t`. -/
structure connection_t where
  keep_alive : Bool
  last_activity : Int
  deriving DecidableEq, Repr

/-- `http_request_t`: four zero-terminated character arrays. -/
structure http_request_t where
  path : List Nat
  connection : List Nat
  method : List Nat
  version : List Nat
  deriving DecidableEq, Repr

/-- `result_t`. -/
inductive result_t
  | APP_OK
  | APP_ERR
  deriving DecidableEq, Repr

/-- What `stat` reports for a path: a failure with its `errno`, or the type of
the entry. -/
inductive stat_result
  | enoent
  | eacces
  | failure
  | directory
  | regular (st_size : Nat)
  | other_type
  deriving DecidableEq, Repr

/-- What `open(path, O_RDONLY)` reports. -/
inductive open_result
  | ok
  | eacces
  | failure
  deriving DecidableEq, Repr

/-- The operating system as the worker sees it during one pass: what `stat` and
`open` report for a path (the filesystem does not change in between), and
whether `dprintf` of the header of a file response returns a negative value. -/
structure Env where
  stat : List Nat → stat_result
  open_file : List Nat → open_result
  dprintf_fails : List Nat → Bool

/-- The system calls of one worker, in program order. -/
inductive Event
  | stat (path : List Nat)
  | open_file (path : List Nat)
  | send (data : List Nat)
  | send_failed (data : List Nat)
  | sendfile (path : List Nat) (count : Nat)
  deriving DecidableEq, Repr

/-- The reason phrase chosen by the `switch` of `send_error`. -/
def status_name (code : Int) : List Nat :=
  if code = 400 then bytes "Bad Request"
  else if code = 403 then bytes "Forbidden"
  else if code = 404 then bytes "Not Found"
  else if code = 405 then bytes "Method Not Allowed"
  else if code = 505 then bytes "HTTP Version Not Supported"
  else bytes "Internal Server Error"

/-- The text `snprintf` formats for the body of an error page. -/
def error_page (code : Int) : List Nat :=
  bytes "<html><head><title>" ++ fmt_int code ++ [32] ++ status_name code ++
    bytes "</title></head><body><h1>" ++ fmt_int code ++ [32] ++ status_name code ++
    bytes "</h1></body></html>"

/-- `send_error(client_fd, code, version, conn)`: the bytes handed to `dprintf`.
`snprintf` stores at most `sizeof(body) - 1` bytes of the page and returns the
length of the whole page. -/
def send_error (code : Int) (version : List Nat) (conn : connection_t) : List Nat :=
  let body := (error_page code).take (1024 - 1)
  let content_length : Int := (error_page code).length
  cstr version ++ [32] ++ fmt_int code ++ [32] ++ status_name code ++ [13, 10] ++
    bytes "Content-Length: " ++ fmt_int content_length ++ [13, 10] ++
    bytes "Connection: " ++ (if conn.keep_alive then bytes "keep-alive" else bytes "close") ++
    [13, 10] ++ [13, 10] ++ body

/-- The status line and headers of a file response. -/
def file_header (version : List Nat) (st_size : Nat) (mime_type : List Nat)
    (conn : connection_t) : List Nat :=
  cstr version ++ bytes " 200 OK\r\n" ++
    bytes "Content-Length: " ++ fmt_int st_size ++ [13, 10] ++
    bytes "Content-Type: " ++ mime_type ++ [13, 10] ++
    bytes "Connection: " ++ (if conn.keep_alive then bytes "keep-alive" else bytes "close") ++
    [13, 10] ++ [13, 10]

/-- The loop `while (send_offset < st.st_size)` of `serve_file`: for an empty
file it is not entered and no call is made; otherwise its `sendfile` calls are
one event. -/
def sendfile_loop (full_path : List Nat) (st_size : Nat) : List Event :=
  if 0 < st_size then [.sendfile full_path st_size] else []

/-- `serve_file(client_fd, full_path, request, conn)`: the system calls made and
the result. -/
def serve_file (env : Env) (full_path : List Nat) (request : http_request_t)
    (conn : connection_t) : List Event × result_t :=
  match env.stat full_path with
  | .regular st_size =>
    match get_mime_type full_path with
    | none =>
      ([.stat full_path, .send (send_error 400 request.version conn)], .APP_ERR)
    | some mime_type =>
      match env.open_file full_path with
      | .eacces =>
        ([.stat full_path, .open_file full_path,
          .send (send_error 403 request.version conn)], .APP_ERR)
      | .failure =>
        ([.stat full_path, .open_file full_path,
          .send (send_error 400 request.version conn)], .APP_ERR)
      | .ok =>
        if env.dprintf_fails (file_header request.version st_size mime_type conn) then
          ([.stat full_path, .open_file full_path,
            .send_failed (file_header request.version st_size mime_type conn)], .APP_ERR)
        else
          ([.stat full_path, .open_file full_path,
            .send (file_header request.version st_size mime_type conn)] ++
            sendfile_loop full_path st_size, .APP_OK)
  | _ => ([.stat full_path], .APP_ERR)

/-- The loop `do field_start++; while (isspace(*field_start) && field_start <
header_end)` after the first increment: `mem` is the memory at `field_start`. -/
def skip_space : List Nat → Nat → Nat → Nat
  | [], field_start, _ => field_start
  | b :: rest, field_start, header_end =>
    if isspace b && decide (field_start < header_end) then
      skip_space rest (field_start + 1) header_end
    else field_start

/-- `memcpy(dest, src, n); dest[n] = '\0';`. -/
def store_str (dest src : List Nat) (n : Nat) : List Nat :=
  src.take n ++ [0] ++ dest.drop (n + 1)

/-- `if (len >= sizeof(field)) len = sizeof(field) - 1;`. -/
def clamp_len (len size : Nat) : Nat := if len ≥ size then size - 1 else len

/-- `find_header_value(buffer, header_end, header_name, dest, dest_len)`: the
contents of `dest` afterwards. -/
def find_header_value (buffer : List Nat) (header_end : Nat) (header_name : List Nat)
    (dest : List Nat) (dest_len : Nat) : List Nat :=
  match find_substr buffer header_end header_name with
  | none => dest
  | some header =>
    if header < header_end then
      match strchr (buffer.drop header) 58 with
      | none => dest
      | some k =>
        let colon := header + k
        if colon < header_end then
          let field_start := skip_space (buffer.drop (colon + 1)) (colon + 1) header_end
          if field_start < header_end then
            match find_substr (buffer.drop field_start) (header_end - field_start) [13, 10] with
            | none => dest
            | some j =>
              if field_start + j < header_end then
                store_str dest (buffer.drop field_start) (clamp_len j dest_len)
              else dest
          else dest
        else dest
    else dest

/-- The per-connection state of `client_func`: the receive buffer (all
`BUFFER_SIZE` bytes of it), its live length, and the connection record. -/
structure worker_state where
  buffer : List Nat
  buffer_len : Nat
  conn : connection_t
  deriving DecidableEq, Repr

/-- Result of the end-of-headers scan. -/
inductive scan_result
  | found (eoh : Nat)
  | not_found
  | out_of_bounds
  deriving DecidableEq, Repr

/-- The scan `for (size_t i = 0; i < buffer_len - 3; i++)` from position `i`
on, `mem` being the rest of the array from `buffer[i]`. The four comparisons
short-cut; a read past the end of the array is `out_of_bounds`. -/
def find_eoh_loop (bound : Nat) : List Nat → Nat → scan_result
  | [], i => if i < bound then .out_of_bounds else .not_found
  | b0 :: rest, i =>
    if i < bound then
      if b0 = 13 then
        match rest with
        | [] => .out_of_bounds
        | b1 :: rest1 =>
          if b1 = 10 then
            match rest1 with
            | [] => .out_of_bounds
            | b2 :: rest2 =>
              if b2 = 13 then
                match rest2 with
                | [] => .out_of_bounds
                | b3 :: _ =>
                  if b3 = 10 then .found (i + 4) else find_eoh_loop bound rest (i + 1)
              else find_eoh_loop bound rest (i + 1)
          else find_eoh_loop bound rest (i + 1)
      else find_eoh_loop bound rest (i + 1)
    else .not_found

/-- The end-of-headers scan; `buffer_len - 3` is computed in `size_t`. -/
def find_eoh (buffer : List Nat) (buffer_len : Nat) : scan_result :=
  find_eoh_loop ((buffer_len + 2 ^ 64 - 3) % 2 ^ 64) buffer 0

/-- The extent of the end-of-headers scan from position `i` on: one more than
the greatest index of the array it reads, `mem` being the rest of the array from
`buffer[i]` and `extent` the extent of the reads made before. The four
comparisons short-cut; the scan stops at the first read behind the array. -/
def eoh_extent (bound : Nat) : List Nat → Nat → Nat → Nat
  | [], i, extent => if i < bound then max extent (i + 1) else extent
  | b0 :: rest, i, extent =>
    if i < bound then
      if b0 = 13 then
        match rest with
        | [] => max extent (i + 2)
        | b1 :: rest1 =>
          if b1 = 10 then
            match rest1 with
            | [] => max extent (i + 3)
            | b2 :: rest2 =>
              if b2 = 13 then
                match rest2 with
                | [] => max extent (i + 4)
                | b3 :: _ =>
                  if b3 = 10 then max extent (i + 4)
                  else eoh_extent bound rest (i + 1) (max extent (i + 4))
              else eoh_extent bound rest (i + 1) (max extent (i + 3))
          else eoh_extent bound rest (i + 1) (max extent (i + 2))
      else eoh_extent bound rest (i + 1) (max extent (i + 1))
    else extent

/-- The extent of the end-of-headers scan of a pass: the scan reads the indices
below it, and none from it on. -/
def find_eoh_extent (buffer : List Nat) (buffer_len : Nat) : Nat :=
  eoh_extent ((buffer_len + 2 ^ 64 - 3) % 2 ^ 64) buffer 0 0

/-- The `content_length` that `client_func` extracts for a header region ending
at `eoh`. -/
def content_length (buffer : List Nat) (eoh : Nat) : Int :=
  match find_substr buffer eoh (bytes "Content-Length") with
  | none => 0
  | some cl_header =>
    if cl_header < eoh then
      match strchr (buffer.drop cl_header) 58 with
      | none => 0
      | some k =>
        if cl_header + k < eoh then
          match try_conv_long (buffer.drop (cl_header + k + 1)) with
          | some value =>
            if long_to_int value < 0 then 0 else long_to_int value
          | none => 0
        else 0
    else 0

/-- `size_t total_size = eoh + content_length;`. -/
def total_size (buffer : List Nat) (eoh : Nat) : Nat :=
  ((eoh : Int) + content_length buffer eoh).toNat

/-- `memset(&request, 0, sizeof(request))`. -/
def request_zero : http_request_t :=
  { path := List.replicate 512 0, connection := List.replicate 32 0,
    method := List.replicate 16 0, version := List.replicate 16 0 }

/-- The extraction of method, path and version; `none` is a jump to `cleanup`
because a separator is missing. -/
def parse_request_line (buffer : List Nat) (eoh : Nat) : Option http_request_t :=
  match memchr buffer 32 eoh with
  | none => none
  | some first_space =>
    match memchr (buffer.drop (first_space + 1)) 32 (eoh - (first_space + 1)) with
    | none => none
    | some k =>
      match find_substr (buffer.drop (first_space + 1 + k + 1))
          (eoh - (first_space + 1 + k + 1)) [13, 10] with
      | none => none
      | some j =>
        if first_space + 1 + k + 1 + j ≥ eoh then none
        else
          some { request_zero with
            method := store_str request_zero.method buffer (clamp_len first_space 16)
            path := store_str request_zero.path (buffer.drop (first_space + 1)) (clamp_len k 512)
            version := store_str request_zero.version (buffer.drop (first_space + 1 + k + 1))
              (clamp_len j 16) }

/-- `strlcpy(dst, src, size)` on string contents. -/
def strlcpy (src : List Nat) (size : Nat) : List Nat := src.take (size - 1)

/-- `strlcat(dst, src, size)` on string contents. -/
def strlcat (dst src : List Nat) (size : Nat) : List Nat := (dst ++ src).take (size - 1)

/-- The directory branch of `client_func`: `full_path` is a directory. -/
def serve_directory (env : Env) (full_path0 : List Nat) (request : http_request_t)
    (conn : connection_t) : List Event :=
  let full_path :=
    if full_path0.getLast? ≠ some 47 then strlcat full_path0 (bytes "/") PATH_MAX_LEN
    else full_path0
  let try_html := strlcat (strlcpy full_path PATH_MAX_LEN) (bytes "index.html") PATH_MAX_LEN
  match serve_file env try_html request conn with
  | (ev1, .APP_OK) => ev1
  | (ev1, .APP_ERR) =>
    let try_htm := strlcat (strlcpy full_path PATH_MAX_LEN) (bytes "index.htm") PATH_MAX_LEN
    match serve_file env try_htm request conn with
    | (ev2, .APP_OK) => ev1 ++ ev2
    | (ev2, .APP_ERR) => ev1 ++ ev2 ++ [.send (send_error 404 request.version conn)]

/-- The block `HANDLE REQUEST` of `client_func`, up to the label `cleanup`. -/
def handle_request (env : Env) (request : http_request_t) (conn : connection_t) :
    List Event :=
  if !strcmp_eq request.method (bytes "GET") then
    [.send (send_error 405 request.version conn)]
  else if !strcmp_eq request.version (bytes "HTTP/1.0") &&
      !strcmp_eq request.version (bytes "HTTP/1.1") then
    [.send (send_error 505 request.version conn)]
  else if strlen request.path ≥ PATH_MAX_LEN - strlen DOCUMENT_ROOT - 1 then
    [.send (send_error 400 request.version conn)]
  else if (find_substr request.path (strlen request.path) (bytes "..")).isSome then
    [.send (send_error 403 request.version conn)]
  else if (DOCUMENT_ROOT ++ cstr request.path).length ≥ PATH_MAX_LEN then
    [.send (send_error 400 request.version conn)]
  else
    let full_path := DOCUMENT_ROOT ++ cstr request.path
    match env.stat full_path with
    | .enoent => [.stat full_path, .send (send_error 404 request.version conn)]
    | .eacces => [.stat full_path, .send (send_error 403 request.version conn)]
    | .failure => [.stat full_path, .send (send_error 400 request.version conn)]
    | .directory => .stat full_path :: serve_directory env full_path request conn
    | .regular _ => .stat full_path :: (serve_file env full_path request conn).1
    | .other_type => [.stat full_path]

/-- The code at the label `cleanup`: the frame is removed from the buffer. -/
def cleanup (st : worker_state) (total : Nat) (conn : connection_t) : worker_state :=
  let remaining := st.buffer_len - total
  let moved :=
    if remaining > 0 then (st.buffer.drop total).take remaining ++ st.buffer.drop remaining
    else st.buffer
  { buffer := moved.set remaining 0, buffer_len := remaining, conn := conn }

/-- Result of one pass through the body of `while (buffer_len > 0)`. -/
inductive step_result
  | need_more
  | out_of_bounds
  | handled (events : List Event) (st : worker_state)
  deriving DecidableEq, Repr

/-- The request as it stands when parsing is over: the request line, then the
value of the `Connection` header copied into `request.connection`. `none` is a
jump to `cleanup` from the request line. -/
def parse_request (buffer : List Nat) (eoh : Nat) : Option http_request_t :=
  match parse_request_line buffer eoh with
  | none => none
  | some request =>
    some { request with
      connection := find_header_value buffer eoh (bytes "Connection") request.connection 32 }

/-- The connection record after a request has been parsed; `now` is the value of
`time(NULL)`. -/
def conn_after (request : http_request_t) (now : Int) : connection_t :=
  { keep_alive := strcasecmp_eq request.connection (bytes "keep-alive"),
    last_activity := now }

/-- One pass through the body of the loop `while (buffer_len > 0)` of
`client_func`. `now` is the value of `time(NULL)`. After `handled`, the loop
goes on when `keep_alive` is set and leaves with `break` otherwise. -/
def drain_iter (env : Env) (now : Int) (st : worker_state) : step_result :=
  match find_eoh st.buffer st.buffer_len with
  | .out_of_bounds => .out_of_bounds
  | .not_found => .need_more
  | .found eoh =>
    if st.buffer_len < total_size st.buffer eoh then .need_more
    else
      match parse_request st.buffer eoh with
      | none => .handled [] (cleanup st (total_size st.buffer eoh) st.conn)
      | some request =>
        .handled (handle_request env request (conn_after request now))
          (cleanup st (total_size st.buffer eoh) (conn_after request now))

/-! ### The loops of `client_func` -/

/-- Result of the loop `while (buffer_len > 0)`: the loop was left with the
given state, or the scan read outside the buffer, or the model ran out of
fuel. The system calls made are recorded in each case. -/
inductive drain_result
  | done (events : List Event) (st : worker_state)
  | undefined (events : List Event)
  | out_of_fuel (events : List Event) (st : worker_state)
  deriving DecidableEq, Repr

/-- The loop `while (buffer_len > 0)` of `client_func`, with at most `fuel`
passes; `clock k` is the value of `time(NULL)` in pass `k`. The loop is left
when the buffer is empty, when a pass finds no complete frame, and after a
handled frame that leaves `keep_alive` clear. -/
def drain_loop (env : Env) (clock : Nat → Int) : Nat → Nat → worker_state → drain_result
  | 0, _, st => if st.buffer_len > 0 then .out_of_fuel [] st else .done [] st
  | fuel + 1, k, st =>
    if st.buffer_len > 0 then
      match drain_iter env (clock k) st with
      | .need_more => .done [] st
      | .out_of_bounds => .undefined []
      | .handled events st1 =>
        if st1.conn.keep_alive then
          match drain_loop env clock fuel (k + 1) st1 with
          | .done more st2 => .done (events ++ more) st2
          | .undefined more => .undefined (events ++ more)
          | .out_of_fuel more st2 => .out_of_fuel (events ++ more) st2
        else .done events st1
    else .done [] st

/-- The loop `while (buffer_len > 0)` with fuel for one pass more than the
buffer has live bytes; every handled frame removes at least four of them. -/
def drain (env : Env) (clock : Nat → Int) (st : worker_state) : drain_result :=
  drain_loop env clock (st.buffer_len + 1) 0 st

/-- What `select` returns: the socket is readable, the wait timed out, the call
was interrupted (`EINTR`), or it failed otherwise. -/
inductive select_result
  | ready
  | timeout
  | eintr
  | failure
  deriving DecidableEq, Repr

/-- What the socket holds for `recv`: bytes sent by the peer (of which `recv`
returns as many as it was asked for at most), nothing yet on a non-blocking
socket (`EAGAIN`), another error, or the end of the stream. -/
inductive recv_result
  | data (bytes : List Nat)
  | eagain
  | failure
  | closed
  deriving DecidableEq, Repr

/-- What the surroundings supply to one iteration of the loop
`while (!gShouldStop)`: the stop flag at the head of the loop, `time(NULL)` in
the timeout block, the outcome of `select` and of `recv`, `time(NULL)` in each
pass of the inner loop, and the filesystem. -/
structure iter_input where
  should_stop : Bool
  now : Int
  select : select_result
  recv : recv_result
  clock : Nat → Int
  env : Env

/-- The calls of one iteration of the outer loop that touch the socket, the
clock aside: `select` with its timeout in seconds, `recv` with the length asked
for, the system calls of the inner loop, and `close`. -/
inductive Action
  | select (tv_sec : Int)
  | recv (len : Nat)
  | sys (e : Event)
  | close
  deriving DecidableEq, Repr

/-- `int elapsed = now - conn.last_activity; int remaining = 10 - elapsed;`
with the conversions to `int` (32 bits, two's complement). -/
def remaining_budget (now last_activity : Int) : Int :=
  long_to_int (10 - long_to_int (now - last_activity))

/-- Outcome of the timeout block at the head of an iteration. -/
inductive wait_result
  | proceed (trace : List Action)
  | again (trace : List Action)
  | leave (trace : List Action)
  deriving DecidableEq, Repr

/-- The block `if (conn.keep_alive) ...` at the head of an iteration: go on to
`recv`, `continue`, or `break`. -/
def wait_input (inp : iter_input) (st : worker_state) : wait_result :=
  if st.conn.keep_alive then
    if remaining_budget inp.now st.conn.last_activity ≤ 0 then .leave []
    else
      match inp.select with
      | .timeout => .leave [.select (remaining_budget inp.now st.conn.last_activity)]
      | .eintr => .again [.select (remaining_budget inp.now st.conn.last_activity)]
      | .failure => .leave [.select (remaining_budget inp.now st.conn.last_activity)]
      | .ready => .proceed [.select (remaining_budget inp.now st.conn.last_activity)]
  else .proceed []

/-- The length handed to `recv`: `sizeof(buffer) - buffer_len - 1` in `size_t`. -/
def recv_len (st : worker_state) : Nat :=
  (BUFFER_SIZE + 2 ^ 64 - st.buffer_len % 2 ^ 64 - 1) % 2 ^ 64

/-- The state after `recv` has stored the bytes `got` behind the live bytes:
`buffer_len += bytes_recv; buffer[buffer_len] = '\0';`. -/
def store_recv (st : worker_state) (got : List Nat) : worker_state :=
  { st with
    buffer := (st.buffer.take st.buffer_len ++ got ++
      st.buffer.drop (st.buffer_len + got.length)).set (st.buffer_len + got.length) 0
    buffer_len := st.buffer_len + got.length }

/-- `if (buffer_len > sizeof(buffer) - 1) buffer_len = 0;`. -/
def discard_large (st : worker_state) : worker_state :=
  if st.buffer_len > BUFFER_SIZE - 1 then { st with buffer_len := 0 } else st

/-- Result of one iteration of the loop `while (!gShouldStop)`: the loop is
left and the socket closed, or the next iteration starts in the given state,
or the behaviour is undefined. -/
inductive iter_result
  | exit (trace : List Action)
  | next (trace : List Action) (st : worker_state)
  | undefined (trace : List Action)
  deriving DecidableEq, Repr

/-- One iteration of the loop `while (!gShouldStop)` of `client_func`,
including the test of the stop flag and, when the loop is left, `close`. -/
def worker_iter (inp : iter_input) (st : worker_state) : iter_result :=
  if inp.should_stop then .exit [.close]
  else
    match wait_input inp st with
    | .leave trace => .exit (trace ++ [.close])
    | .again trace => .next trace st
    | .proceed trace =>
      match inp.recv with
      | .eagain => .next (trace ++ [.recv (recv_len st)]) st
      | .failure => .exit (trace ++ [.recv (recv_len st), .close])
      | .closed => .exit (trace ++ [.recv (recv_len st), .close])
      | .data bytes =>
        if bytes.take (recv_len st) = [] then
          .exit (trace ++ [.recv (recv_len st), .close])
        else
          match drain inp.env inp.clock (store_recv st (bytes.take (recv_len st))) with
          | .done events st2 =>
            .next (trace ++ .recv (recv_len st) :: events.map .sys) (discard_large st2)
          | .undefined events =>
            .undefined (trace ++ .recv (recv_len st) :: events.map .sys)
          | .out_of_fuel events _ =>
            .undefined (trace ++ .recv (recv_len st) :: events.map .sys)

/-- The state in which `client_func` enters its loop: the buffer zeroed, no
live bytes, `keep_alive` clear, `last_activity` the time of the start. -/
def initial_state (start : Int) : worker_state :=
  { buffer := List.replicate BUFFER_SIZE 0, buffer_len := 0,
    conn := { keep_alive := false, last_activity := start } }

/-- How a run of the outer loop ends: the socket is closed, the behaviour is
undefined, or the inputs supplied are used up and the worker is about to start
another iteration with the given live length and `keep_alive` flag. -/
inductive run_end
  | closed
  | undefined
  | waiting (buffer_len : Nat) (keep_alive : Bool)
  deriving DecidableEq, Repr

/-- The loop `while (!gShouldStop)` of `client_func` run on a list of inputs, one
for each iteration: the calls made, in order, and how the run ends. -/
def run_worker : List iter_input → worker_state → List Action × run_end
  | [], st => ([], .waiting st.buffer_len st.conn.keep_alive)
  | inp :: rest, st =>
    match worker_iter inp st with
    | .exit trace => (trace, .closed)
    | .undefined trace => (trace, .undefined)
    | .next trace st1 => (trace ++ (run_worker rest st1).1, (run_worker rest st1).2)

/-- The input of an iteration in which the stop flag is clear, the time is 0,
`select` reports the socket readable, and `recv` finds `recv`. -/
def input_of (recv : recv_result) (env : Env) : iter_input :=
  { should_stop := false, now := 0, select := .ready, recv := recv,
    clock := fun _ => 0, env := env }

/-- The calls of an iteration. -/
def trace_of : iter_result → List Action
  | .exit trace => trace
  | .next trace _ => trace
  | .undefined trace => trace

/-- A receive buffer: the given bytes followed by zeros up to `BUFFER_SIZE`. -/
def buffer_of (data : List Nat) : List Nat :=
  data ++ List.replicate (BUFFER_SIZE - data.length) 0

/-- The worker state in which `data` has just been received on a fresh buffer. -/
def state_of (data : List Nat) (keep_alive : Bool) : worker_state :=
  { buffer := buffer_of data, buffer_len := data.length,
    conn := { keep_alive := keep_alive, last_activity := 0 } }

/-- A filesystem without entries. -/
def env_empty : Env :=
  { stat := fun _ => .enoent, open_file := fun _ => .failure, dprintf_fails := fun _ => false }

/-- A file system in which every path names an entry that is neither a
directory nor a regular file (a fifo, say). -/
def env_fifo : Env :=
  { stat := fun _ => .other_type, open_file := fun _ => .failure,
    dprintf_fails := fun _ => false }

/-- What can be seen of a handled frame: the system calls, the live bytes left
in the buffer, and the `keep_alive` flag. -/
def observe : step_result → Option (List Event × List Nat × Bool)
  | .handled events st => some (events, st.buffer.take st.buffer_len, st.conn.keep_alive)
  | _ => none

/-- The system calls of a pass; none when no frame was handled. -/
def events_of : step_result → List Event
  | .handled events _ => events
  | _ => []

/-- The response to a frame: the system calls of a pass over a fresh buffer that
holds the frame and nothing else. -/
def response_to (env : Env) (now : Int) (frame : List Nat) : List Event :=
  events_of (drain_iter env now (state_of frame false))

/-- What can be seen of a run of the loop `while (buffer_len > 0)` that ends: the
system calls, the live bytes left in the buffer, and the `keep_alive` flag. -/
def outcome_of : drain_result → Option (List Event × List Nat × Bool)
  | .done events st => some (events, st.buffer.take st.buffer_len, st.conn.keep_alive)
  | _ => none

/-- The paths handed to the filesystem by a list of system calls. -/
def fs_paths : List Event → List (List Nat)
  | [] => []
  | .stat path :: rest => path :: fs_paths rest
  | .open_file path :: rest => path :: fs_paths rest
  | .sendfile path _ :: rest => path :: fs_paths rest
  | _ :: rest => fs_paths rest

/-- A filesystem in which `./www/` is a directory holding the regular file
`index.html` of 12 bytes. -/
def env_index : Env :=
  { stat := fun path =>
      if path = bytes "./www/" then .directory
      else if path = bytes "./www/index.html" then .regular 12
      else .enoent,
    open_file := fun _ => .ok,
    dprintf_fails := fun _ => false }

/-- A file system in which `./www/` is a directory holding the empty regular
file `index.html`. -/
def env_index_empty : Env :=
  { stat := fun path =>
      if path = bytes "./www/" then .directory
      else if path = bytes "./www/index.html" then .regular 0
      else .enoent,
    open_file := fun _ => .ok,
    dprintf_fails := fun _ => false }

/-- A file system in which `./www/` is a directory holding the regular file
`index.html`, which the server is not allowed to open. -/
def env_locked : Env :=
  { stat := fun path =>
      if path = bytes "./www/" then .directory
      else if path = bytes "./www/index.html" then .regular 12
      else .enoent,
    open_file := fun _ => .eacces,
    dprintf_fails := fun _ => false }

/-- A file system in which `./www/` is a directory holding the regular files
`index.html` and `index.htm`; the server is not allowed to open `index.html`,
and opening `index.htm` gives `open_htm`. -/
def env_two_index (open_htm : open_result) : Env :=
  { stat := fun path =>
      if path = bytes "./www/" then .directory
      else if path = bytes "./www/index.html" then .regular 12
      else if path = bytes "./www/index.htm" then .regular 9
      else .enoent,
    open_file := fun path => if path = bytes "./www/index.html" then .eacces else open_htm,
    dprintf_fails := fun _ => false }

/-! ## Vocabulary of the statements -/

/-- `sub` occurs in `l` at offset `i` and at no smaller offset. -/
def first_at (sub l : List Nat) (i : Nat) : Prop :=
  (l.drop i).take sub.length = sub ∧ ∀ j, j < i → (l.drop j).take sub.length ≠ sub

instance (sub l : List Nat) (i : Nat) : Decidable (first_at sub l i) := by
  unfold first_at
  infer_instance

/-- The buffer of `st` starts with a complete frame whose header region has
`eoh` bytes: the first CR LF CR LF of the buffer ends at offset `eoh`, and the
frame size the worker computes for it does not exceed the live length. -/
structure complete_frame (st : worker_state) (eoh : Nat) : Prop where
  len_lt : st.buffer_len < BUFFER_SIZE
  eoh_ge : 4 ≤ eoh
  eoh_first : first_at [13, 10, 13, 10] st.buffer (eoh - 4)
  complete : total_size st.buffer eoh ≤ st.buffer_len

/-- The header region of `eoh` bytes at the front of `buffer` begins with
`method SP target SP`: `method` is the bytes before the first space, `target`
the bytes between the first and the second space, and both spaces lie in the
header region. -/
structure two_separators (buffer : List Nat) (eoh : Nat) (method target : List Nat) :
    Prop where
  starts : (method ++ 32 :: target ++ [32]) <+: buffer
  method_sp : 32 ∉ method
  target_sp : 32 ∉ target
  inside : method.length + target.length + 2 ≤ eoh

/-- The request line at the front of `buffer` is `method SP target SP version
CR LF`, `version` being the bytes between the second space and the next CR LF. -/
structure request_line (buffer : List Nat) (eoh : Nat) (method target version : List Nat) :
    Prop where
  starts : (method ++ 32 :: target ++ 32 :: version ++ [13, 10]) <+: buffer
  method_sp : 32 ∉ method
  target_sp : 32 ∉ target
  version_crlf : ¬ [13, 10] <:+: version
  inside : method.length + target.length + 2 ≤ eoh

/-- The invariant of the receive buffer: the array has `BUFFER_SIZE` bytes, the
live length is at most `BUFFER_SIZE - 1`, and the byte behind the live bytes is
the terminating zero. -/
def buffer_ok (st : worker_state) : Prop :=
  st.buffer.length = BUFFER_SIZE ∧ st.buffer_len ≤ BUFFER_SIZE - 1 ∧
    st.buffer[st.buffer_len]? = some 0

/-- The states `client_func` goes through: the state at the start, and from a
state it has reached the state after a `recv` that returned bytes (at least
one, at most as many as asked for), the state after a pass of the inner loop
that handled a frame, and the state after the test for an overlong request. -/
inductive reachable : worker_state → Prop
  | start (t : Int) : reachable (initial_state t)
  | read (st : worker_state) (got : List Nat) :
      reachable st → got ≠ [] → got.length ≤ recv_len st → reachable (store_recv st got)
  | pass (env : Env) (now : Int) (st : worker_state) (events : List Event)
      (st1 : worker_state) :
      reachable st → 0 < st.buffer_len → drain_iter env now st = .handled events st1 →
      reachable st1
  | discard (st : worker_state) : reachable st → reachable (discard_large st)

/-- The byte strings handed to `dprintf` by a list of system calls. -/
def sent : List Event → List (List Nat)
  | [] => []
  | .send data :: rest => data :: sent rest
  | .send_failed data :: rest => data :: sent rest
  | _ :: rest => sent rest

/-- The status codes of the server with their reason phrases. -/
def status_lines : List (List Nat) :=
  [bytes "200 OK", bytes "400 Bad Request", bytes "403 Forbidden", bytes "404 Not Found",
   bytes "405 Method Not Allowed", bytes "505 HTTP Version Not Supported"]

/-- The byte string `data` begins with a status line for the version text
`version`: the text up to its first zero byte, a space, a status code of
three digits, a space, the reason phrase, CR LF. -/
def status_head (version data : List Nat) : Prop :=
  ∃ line ∈ status_lines, (cstr version ++ 32 :: line ++ [13, 10]) <+: data

/-- Whether two consecutive dots occur in a list of bytes. -/
def has_dotdot : List Nat → Bool
  | [] => false
  | [_] => false
  | a :: b :: rest => (a == 46 && b == 46) || has_dotdot (b :: rest)

/-- The separator put between a directory path and the name of an index file:
a slash, unless the path ends with one. -/
def index_sep (full_path : List Nat) : List Nat :=
  if full_path.getLast? = some 47 then [] else [47]

/-- The `keep_alive` flag after a pass that handled a frame. -/
def flag_of : step_result → Option Bool
  | .handled _ st => some st.conn.keep_alive
  | _ => none

/-- What the first occurrence of the byte string `Connection` in the header
region of `eoh` bytes calls for. Either the string does not occur, and the flag
is clear. Or it occurs first at offset `k`, followed by bytes `junk` without
colon or zero, a colon, white space `ws`, and a `value` that starts with a byte
other than white space and runs up to the next CR LF inside the header region;
then the flag tells whether `value` is `keep-alive` up to letter case. -/
inductive connection_decides (buffer : List Nat) (eoh : Nat) : Bool → Prop
  | absent : ¬ bytes "Connection" <:+: buffer.take eoh → connection_decides buffer eoh false
  | present (k : Nat) (junk ws value : List Nat) (x : Nat) (tail : List Nat) :
      first_at (bytes "Connection") buffer k →
      (bytes "Connection" ++ junk ++ 58 :: ws ++ value ++ [13, 10]) <+: buffer.drop k →
      58 ∉ junk → 0 ∉ junk →
      (∀ b ∈ ws, isspace b = true) →
      value = x :: tail → isspace x = false →
      ¬ [13, 10] <:+: value →
      k + 10 + junk.length + 1 + ws.length + value.length + 2 ≤ eoh →
      connection_decides buffer eoh (strcasecmp_eq value (bytes "keep-alive"))

/-- The byte string `frame` is a `GET` request that ends with its header
region: it ends with its first CR LF CR LF, and its request line is
`GET SP target SP version CR LF`. -/
structure get_frame (frame target version : List Nat) : Prop where
  len_ge : 4 ≤ frame.length
  ends : first_at [13, 10, 13, 10] frame (frame.length - 4)
  line : request_line frame frame.length (bytes "GET") target version

/-- The offset of the first occurrence of the byte string `sub` in `l`. -/
def first_occurrence (sub : List Nat) : List Nat → Option Nat
  | [] => none
  | b :: rest =>
    if (b :: rest).take sub.length = sub then some 0
    else (first_occurrence sub rest).map (fun i => i + 1)

/-- The value that the first occurrence of `Connection` in a header region
leads to, stated on the bytes of the region: from that occurrence on a colon
is reached before any zero byte and before the end of the region; the white
space after the colon is passed over; a CR LF follows in the rest of the
region; the value is the bytes before the first such CR LF. There is no value
when `Connection` does not occur or one of these steps fails. -/
def connection_value (region : List Nat) : Option (List Nat) :=
  match first_occurrence (bytes "Connection") region with
  | none => none
  | some k =>
    match (region.drop k).dropWhile (fun b => b != 58 && b != 0) with
    | [] => none
    | b :: rest =>
      if b = 58 then
        match first_occurrence [13, 10] (rest.dropWhile isspace) with
        | none => none
        | some j => some ((rest.dropWhile isspace).take j)
      else none

/-- The rule for the `keep_alive` flag on the bytes of a header region: set
when the first occurrence of `Connection` leads to a value that, read up to its
first zero byte, is `keep-alive` in any letter case; clear otherwise. -/
def connection_flag (region : List Nat) : Bool :=
  match connection_value region with
  | none => false
  | some value => strcasecmp_eq value (bytes "keep-alive")

/-- The lines of a header region: the pieces between CR LF pairs. `cur` holds
the bytes of the current line, last byte first. -/
def split_crlf : List Nat → List Nat → List (List Nat)
  | cur, [] => [cur.reverse]
  | cur, 13 :: 10 :: rest => cur.reverse :: split_crlf [] rest
  | cur, b :: rest => split_crlf (b :: cur) rest

/-- The keep-alive flag as the specification words it: the first header line
(a line after the request line) whose name, the bytes before its colon, is
`Connection` in any letter case decides; the flag is set when the value after
the colon and leading white space equals `keep-alive` ignoring letter case, and
it is clear when there is no such line. -/
def spec_keep_alive (header_region : List Nat) : Bool :=
  match ((split_crlf [] header_region).drop 1).find?
      (fun line => (line.takeWhile (fun b => b != 58)).map tolower == bytes "connection"
        && line.any (fun b => b == 58)) with
  | none => false
  | some line =>
    (((line.dropWhile (fun b => b != 58)).drop 1).dropWhile isspace).map tolower
      == bytes "keep-alive"

/-! ## Auxiliary lemmas -/

/-! ### Strings -/

theorem cstr_append_zero (a b : List Nat) : cstr (a ++ 0 :: b) = cstr a := by
  induction a with
  | nil => simp [cstr]
  | cons x xs ih =>
    by_cases hx : x = 0
    · simp [cstr, hx]
    · simp only [cstr] at ih
      simp [cstr, List.takeWhile_cons, hx, ih]

theorem cstr_store_str (dest src : List Nat) (n : Nat) :
    cstr (store_str dest src n) = cstr (src.take n) := by
  unfold store_str
  rw [List.append_assoc]
  exact cstr_append_zero _ _

theorem cstr_take (l : List Nat) (n : Nat) : cstr (l.take n) = (cstr l).take n := by
  induction l generalizing n with
  | nil => simp [cstr]
  | cons x xs ih =>
    cases n with
    | zero => simp [cstr]
    | succ n =>
      simp only [cstr] at ih
      by_cases hx : x = 0
      · simp [cstr, hx]
      · simp [cstr, List.takeWhile_cons, hx, ih]

theorem cstr_length_le (l : List Nat) : (cstr l).length ≤ l.length := by
  unfold cstr
  exact (List.takeWhile_sublist _).length_le

theorem take_strlen (l : List Nat) : l.take (strlen l) = cstr l := by
  unfold strlen cstr
  induction l with
  | nil => simp
  | cons x xs ih =>
    by_cases hx : x = 0
    · simp [hx]
    · simp [List.takeWhile_cons, hx, ih]

theorem take_clamp_len (m rest : List Nat) (size : Nat) (hsize : 0 < size) :
    (m ++ rest).take (clamp_len m.length size) = m.take (size - 1) := by
  unfold clamp_len
  split
  · rw [List.take_append_of_le_length (by omega)]
  · rw [List.take_append_of_le_length (by omega)]
    rw [List.take_of_length_le (by omega), List.take_of_length_le (by omega)]

/-! ### First occurrences -/

theorem first_at_drop_one (sub mem : List Nat) (k : Nat) (h : first_at sub mem (k + 1)) :
    first_at sub (mem.drop 1) k := by
  obtain ⟨h1, h2⟩ := h
  refine ⟨?_, ?_⟩
  · rw [List.drop_drop]
    simpa [Nat.add_comm] using h1
  · intro j hj
    rw [List.drop_drop]
    have := h2 (j + 1) (by omega)
    simpa [Nat.add_comm] using this

theorem find_substr_loop_first (sub : List Nat) :
    ∀ (k : Nat) (mem : List Nat) (n i : Nat), first_at sub mem k → k < n →
      find_substr_loop sub mem n i = some (i + k) := by
  intro k
  induction k with
  | zero =>
    intro mem n i h hn
    obtain ⟨n, rfl⟩ : ∃ n', n = n' + 1 := ⟨n - 1, by omega⟩
    have h1 := h.1
    simp only [List.drop_zero] at h1
    simp [find_substr_loop, h1]
  | succ k ih =>
    intro mem n i h hn
    obtain ⟨n, rfl⟩ : ∃ n', n = n' + 1 := ⟨n - 1, by omega⟩
    have h0 := h.2 0 (by omega)
    simp only [List.drop_zero] at h0
    rw [find_substr_loop, if_neg h0, ih _ _ _ (first_at_drop_one _ _ _ h) (by omega)]
    congr 1
    omega

theorem find_substr_loop_some (sub : List Nat) :
    ∀ (n : Nat) (mem : List Nat) (i r : Nat), find_substr_loop sub mem n i = some r →
      ∃ j, j < n ∧ r = i + j ∧ first_at sub mem j := by
  intro n
  induction n with
  | zero => intro mem i r h; simp [find_substr_loop] at h
  | succ n ih =>
    intro mem i r h
    rw [find_substr_loop] at h
    split at h
    · rename_i h0
      refine ⟨0, by omega, by simpa using (Option.some.inj h).symm, ?_, ?_⟩
      · simpa using h0
      · intro j hj; omega
    · rename_i h0
      obtain ⟨j, hj, hr, hf⟩ := ih _ _ _ h
      refine ⟨j + 1, by omega, by omega, ?_, ?_⟩
      · have := hf.1
        rw [List.drop_drop] at this
        simpa [Nat.add_comm] using this
      · intro j' hj'
        cases j' with
        | zero => simpa using h0
        | succ j' =>
          have := hf.2 j' (by omega)
          rw [List.drop_drop] at this
          simpa [Nat.add_comm] using this

theorem find_substr_loop_none (sub : List Nat) :
    ∀ (n : Nat) (mem : List Nat) (i : Nat),
      (∀ j, j < n → (mem.drop j).take sub.length ≠ sub) →
      find_substr_loop sub mem n i = none := by
  intro n mem i h
  cases hr : find_substr_loop sub mem n i with
  | none => rfl
  | some r =>
    obtain ⟨j, hj, _, hf⟩ := find_substr_loop_some sub n mem i r hr
    exact absurd hf.1 (h j hj)

theorem infix_take_iff (sub mem : List Nat) (len : Nat) :
    sub <:+: mem.take len ↔
      ∃ j, j + sub.length ≤ len ∧ (mem.drop j).take sub.length = sub := by
  constructor
  · rintro ⟨s, t, hst⟩
    refine ⟨s.length, ?_, ?_⟩
    · have := congrArg List.length hst
      simp at this
      omega
    · have hmem : mem = s ++ sub ++ t ++ mem.drop len := by
        rw [hst, List.take_append_drop]
      rw [hmem]
      simp
  · rintro ⟨j, hj, hm⟩
    have h1 := (List.take_append_drop j mem).symm
    have h2 := (List.take_append_drop sub.length (mem.drop j)).symm
    rw [hm] at h2
    have hmem : mem = mem.take j ++ (sub ++ (mem.drop j).drop sub.length) := by
      rw [← h2]
      exact h1
    have hj' : (mem.take j).length ≤ j := by
      rw [List.length_take]
      omega
    refine ⟨mem.take j,
      ((mem.drop j).drop sub.length).take (len - (mem.take j).length - sub.length), ?_⟩
    rw [congrArg (List.take len) hmem]
    rw [List.take_append_eq_append_take, List.take_append_eq_append_take]
    rw [List.take_of_length_le (by omega : (mem.take j).length ≤ len)]
    rw [List.take_of_length_le (by omega : sub.length ≤ len - (mem.take j).length)]
    simp [List.append_assoc]

theorem find_substr_eq_none_iff (sub mem : List Nat) (len : Nat) (hsub : sub ≠ []) :
    find_substr mem len sub = none ↔ ¬ sub <:+: mem.take len := by
  have hpos : 0 < sub.length := List.length_pos.mpr hsub
  rw [infix_take_iff]
  unfold find_substr
  split
  · rename_i h
    simp only [true_iff]
    rintro ⟨j, hj, _⟩
    omega
  · rename_i h
    constructor
    · intro hn
      rintro ⟨j, hj, hm⟩
      cases hk : find_substr_loop sub mem (len - sub.length + 1) 0 with
      | some r => rw [hk] at hn; cases hn
      | none =>
        clear hn
        -- the loop tries offset `j`
        have : ∀ (n : Nat) (mem : List Nat) (i j : Nat), j < n →
            (mem.drop j).take sub.length = sub → find_substr_loop sub mem n i ≠ none := by
          intro n
          induction n with
          | zero => intro mem i j hj; omega
          | succ n ih =>
            intro mem i j hj hm
            rw [find_substr_loop]
            split
            · simp
            · cases j with
              | zero => simp_all
              | succ j =>
                apply ih _ _ j (by omega)
                rw [List.drop_drop]
                simpa [Nat.add_comm] using hm
        exact this _ _ _ j (by omega) hm hk
    · intro hn
      apply find_substr_loop_none
      intro j hj hm
      exact hn ⟨j, by omega, hm⟩

theorem find_substr_first (sub mem : List Nat) (k len : Nat) (hsub : sub ≠ [])
    (h : first_at sub mem k) (hk : k + sub.length ≤ len) :
    find_substr mem len sub = some k := by
  have hpos : 0 < sub.length := List.length_pos.mpr hsub
  unfold find_substr
  rw [if_neg (by omega), find_substr_loop_first sub k mem _ 0 h (by omega)]
  simp

theorem find_substr_some (sub mem : List Nat) (len r : Nat)
    (h : find_substr mem len sub = some r) :
    r + sub.length ≤ len ∧ first_at sub mem r := by
  unfold find_substr at h
  split at h
  · cases h
  · rename_i hc
    obtain ⟨j, hj, hr, hf⟩ := find_substr_loop_some sub _ mem 0 r h
    have : r = j := by omega
    subst this
    exact ⟨by omega, hf⟩

theorem memchr_first (c : Nat) :
    ∀ (m rest : List Nat) (n : Nat), c ∉ m → m.length < n →
      memchr (m ++ c :: rest) c n = some m.length := by
  intro m
  induction m with
  | nil =>
    intro rest n _ hn
    obtain ⟨n, rfl⟩ : ∃ n', n = n' + 1 := ⟨n - 1, by simp at hn; omega⟩
    simp [memchr]
  | cons x xs ih =>
    intro rest n hc hn
    obtain ⟨n, rfl⟩ : ∃ n', n = n' + 1 := ⟨n - 1, by simp at hn; omega⟩
    have hx : x ≠ c := fun h => hc (by simp [h])
    have hxs : c ∉ xs := fun h => hc (by simp [h])
    rw [List.cons_append, memchr, if_neg hx, ih rest n hxs (by simpa using hn)]
    rfl

theorem memchr_none (c : Nat) :
    ∀ (mem : List Nat) (n : Nat), c ∉ mem.take n → memchr mem c n = none := by
  intro mem
  induction mem with
  | nil => intro n _; cases n <;> simp [memchr]
  | cons x xs ih =>
    intro n hc
    cases n with
    | zero => simp [memchr]
    | succ n =>
      have hx : x ≠ c := fun h => hc (by simp [h])
      have hxs : c ∉ xs.take n := fun h => hc (by simp [h])
      simp [memchr, if_neg hx, ih n hxs]

theorem getElem?_of_take_drop (l s : List Nat) (a n i : Nat) (h : (l.drop a).take n = s)
    (hi : i < n) : l[a + i]? = s[i]? := by
  rw [← h, List.getElem?_take_of_lt hi, List.getElem?_drop]

theorem getElem?_of_append_prefix (pre l : List Nat) (i : Nat) (h : pre <+: l)
    (hi : i < pre.length) : l[i]? = pre[i]? := by
  obtain ⟨t, rfl⟩ := h
  rw [List.getElem?_append_left hi]

theorem find_eoh_loop_first (bound : Nat) :
    ∀ (k : Nat) (mem : List Nat) (i : Nat), first_at [13, 10, 13, 10] mem k →
      i + k < bound → find_eoh_loop bound mem i = .found (i + k + 4) := by
  intro k
  induction k with
  | zero =>
    intro mem i h hb
    have h1 := h.1
    simp only [List.drop_zero, List.length_cons, List.length_nil] at h1
    match mem, h1 with
    | b0 :: b1 :: b2 :: b3 :: rest, h1 =>
      simp only [List.take, List.cons.injEq, and_true] at h1
      obtain ⟨rfl, rfl, rfl, rfl⟩ := h1
      simp [find_eoh_loop, hb]
      omega
  | succ k ih =>
    intro mem i h hb
    have hrest := first_at_drop_one _ _ _ h
    have h0 := h.2 0 (by omega)
    have hlen : k + 1 + 4 ≤ mem.length := by
      have := congrArg List.length h.1
      simp only [List.length_take, List.length_drop, List.length_cons, List.length_nil] at this
      omega
    match mem, hlen, h0, hrest with
    | b0 :: b1 :: b2 :: b3 :: rest, _, h0, hrest =>
      simp only [List.drop_zero, List.length_cons, List.length_nil, List.take, ne_eq,
        List.cons.injEq, and_true, not_and] at h0
      simp only [List.drop_succ_cons, List.drop_zero] at hrest
      have hnext := ih (b1 :: b2 :: b3 :: rest) (i + 1) hrest (by omega)
      have hi : i < bound := by omega
      rw [show i + (k + 1) + 4 = i + 1 + k + 4 by omega, ← hnext]
      rw [find_eoh_loop]
      simp only [hi, if_true]
      by_cases e0 : b0 = 13
      · by_cases e1 : b1 = 10
        · by_cases e2 : b2 = 13
          · have e3 : ¬ b3 = 10 := h0 e0 e1 e2
            simp [e0, e1, e2, e3]
          · simp [e0, e1, e2]
        · simp [e0, e1]
      · simp [e0]

theorem find_eoh_first (buffer : List Nat) (buffer_len eoh : Nat) (h4 : 4 ≤ eoh)
    (h : first_at [13, 10, 13, 10] buffer (eoh - 4)) (hle : eoh ≤ buffer_len)
    (hlen : buffer_len < BUFFER_SIZE) :
    find_eoh buffer buffer_len = .found eoh := by
  unfold find_eoh
  have hb : (buffer_len + 2 ^ 64 - 3) % 2 ^ 64 = buffer_len - 3 := by
    have e : (2 : Nat) ^ 64 = 18446744073709551616 := by norm_num
    unfold BUFFER_SIZE at hlen
    rw [e]
    omega
  rw [hb, find_eoh_loop_first _ (eoh - 4) buffer 0 h (by omega)]
  rw [show 0 + (eoh - 4) + 4 = eoh by omega]

/-! ### Frames and request lines -/

theorem content_length_nonneg (buffer : List Nat) (eoh : Nat) :
    0 ≤ content_length buffer eoh := by
  unfold content_length
  split
  · exact le_refl _
  · split
    · split
      · exact le_refl _
      · split
        · split
          · split
            · exact le_refl _
            · omega
          · exact le_refl _
        · exact le_refl _
    · exact le_refl _

theorem le_total_size (buffer : List Nat) (eoh : Nat) : eoh ≤ total_size buffer eoh := by
  unfold total_size
  have := content_length_nonneg buffer eoh
  omega

theorem drain_iter_of_frame (env : Env) (now : Int) (st : worker_state) (eoh : Nat)
    (h : complete_frame st eoh) :
    drain_iter env now st =
      match parse_request st.buffer eoh with
      | none => .handled [] (cleanup st (total_size st.buffer eoh) st.conn)
      | some request =>
        .handled (handle_request env request (conn_after request now))
          (cleanup st (total_size st.buffer eoh) (conn_after request now)) := by
  have hle : eoh ≤ st.buffer_len := le_trans (le_total_size _ _) h.complete
  unfold drain_iter
  rw [find_eoh_first st.buffer st.buffer_len eoh h.eoh_ge h.eoh_first hle h.len_lt]
  simp only [if_neg (not_lt.mpr h.complete)]

theorem take_two_of_take_four (l : List Nat) (h : l.take 4 = [13, 10, 13, 10]) :
    l.take 2 = [13, 10] := by
  have : l.take 2 = (l.take 4).take 2 := by rw [List.take_take]; rfl
  rw [this, h]
  rfl

/-- With both separators in the header region the request line is parsed, and
the fields hold the tokens cut to the capacity of the arrays. -/
theorem parse_request_line_of_separators (buffer : List Nat) (eoh : Nat)
    (method target : List Nat) (h4 : 4 ≤ eoh)
    (hend : (buffer.drop (eoh - 4)).take 4 = [13, 10, 13, 10])
    (hsep : two_separators buffer eoh method target) :
    ∃ j, method.length + 1 + target.length + 1 + j + 2 ≤ eoh ∧
      first_at [13, 10] (buffer.drop (method.length + 1 + target.length + 1)) j ∧
      parse_request_line buffer eoh = some { request_zero with
        method := store_str request_zero.method buffer (clamp_len method.length 16)
        path := store_str request_zero.path (buffer.drop (method.length + 1))
          (clamp_len target.length 512)
        version := store_str request_zero.version
          (buffer.drop (method.length + 1 + target.length + 1)) (clamp_len j 16) } := by
  obtain ⟨⟨rest, hbuf⟩, hm, ht, hin⟩ := hsep
  have hbuf1 : buffer = method ++ 32 :: (target ++ 32 :: rest) := by
    rw [← hbuf]; simp
  have hfirst : memchr buffer 32 eoh = some method.length := by
    rw [hbuf1]
    exact memchr_first 32 method _ eoh hm (by omega)
  have hdrop1 : buffer.drop (method.length + 1) = target ++ 32 :: rest := by
    rw [hbuf1, List.drop_append_eq_append_drop]
    simp
  have hsecond : memchr (buffer.drop (method.length + 1)) 32 (eoh - (method.length + 1)) =
      some target.length := by
    rw [hdrop1]
    exact memchr_first 32 target _ _ ht (by omega)
  -- the second space is not one of the last four bytes of the header region
  have hss : buffer[method.length + 1 + target.length]? = some 32 := by
    rw [hbuf1]
    rw [List.getElem?_append_right (by omega)]
    rw [show method.length + 1 + target.length - method.length = target.length + 1 by omega]
    rw [List.getElem?_cons_succ, List.getElem?_append_right (by omega)]
    simp
  have hlt : method.length + 1 + target.length + 1 ≤ eoh - 4 := by
    by_contra hcon
    have hi : method.length + 1 + target.length - (eoh - 4) < 4 := by omega
    have := getElem?_of_take_drop buffer _ (eoh - 4) 4 _ hend hi
    rw [show eoh - 4 + (method.length + 1 + target.length - (eoh - 4)) =
      method.length + 1 + target.length by omega, hss] at this
    generalize method.length + 1 + target.length - (eoh - 4) = d at hi this
    interval_cases d <;> simp at this
  -- hence CR LF occurs after it inside the header region
  have hocc : [13, 10] <:+: (buffer.drop (method.length + 1 + target.length + 1)).take
      (eoh - (method.length + 1 + target.length + 1)) := by
    rw [infix_take_iff]
    refine ⟨eoh - 4 - (method.length + 1 + target.length + 1), ?_, ?_⟩
    · simp only [List.length_cons, List.length_nil]; omega
    · rw [List.drop_drop]
      rw [show method.length + 1 + target.length + 1 +
        (eoh - 4 - (method.length + 1 + target.length + 1)) = eoh - 4 by omega]
      exact take_two_of_take_four _ hend
  cases hfs : find_substr (buffer.drop (method.length + 1 + target.length + 1))
      (eoh - (method.length + 1 + target.length + 1)) [13, 10] with
  | none =>
    exact absurd hocc ((find_substr_eq_none_iff _ _ _ (by simp)).mp hfs)
  | some j =>
    obtain ⟨hj, hfa⟩ := find_substr_some _ _ _ _ hfs
    simp only [List.length_cons, List.length_nil] at hj
    refine ⟨j, by omega, hfa, ?_⟩
    unfold parse_request_line
    simp only [hfirst, hsecond, hfs]
    rw [if_neg (by omega)]

theorem eq_of_take_eq_short (l s : List Nat) (n : Nat) (h : l.take n = s)
    (hs : s.length < n) : l = s := by
  have hl := congrArg List.length h
  rw [List.length_take] at hl
  rw [← h, List.take_of_length_le (by omega)]

theorem cstr_take_eq_iff (l s : List Nat) (n : Nat) (hs : s.length < n) :
    cstr (l.take n) = s ↔ cstr l = s := by
  rw [cstr_take]
  constructor
  · intro h
    exact eq_of_take_eq_short _ _ _ h hs
  · intro h
    rw [h, List.take_of_length_le (by omega)]

theorem cstr_idem (l : List Nat) : cstr (cstr l) = cstr l := by
  unfold cstr
  induction l with
  | nil => rfl
  | cons x xs ih =>
    by_cases hx : x = 0
    · simp [hx]
    · simp [List.takeWhile_cons, hx, ih]

theorem send_error_cstr (code : Int) (version : List Nat) (conn : connection_t) :
    send_error code (cstr version) conn = send_error code version conn := by
  unfold send_error
  rw [cstr_idem]

theorem send_error_congr (code : Int) (v w : List Nat) (conn : connection_t)
    (h : cstr v = cstr w) : send_error code v conn = send_error code w conn := by
  rw [← send_error_cstr code v, ← send_error_cstr code w, h]

/-- The method field read as a string is the method token cut to 15 bytes. -/
theorem cstr_method_field (dest method rest : List Nat) :
    cstr (store_str dest (method ++ rest) (clamp_len method.length 16)) =
      cstr (method.take 15) := by
  rw [cstr_store_str, take_clamp_len _ _ 16 (by omega)]

theorem strcmp_eq_iff (a b : List Nat) : strcmp_eq a b = true ↔ cstr a = cstr b := by
  unfold strcmp_eq
  simp

theorem cstr_bytes_GET : cstr (bytes "GET") = bytes "GET" := by decide

theorem cstr_bytes_HTTP10 : cstr (bytes "HTTP/1.0") = bytes "HTTP/1.0" := by decide

theorem cstr_bytes_HTTP11 : cstr (bytes "HTTP/1.1") = bytes "HTTP/1.1" := by decide

theorem handle_request_not_get (env : Env) (request : http_request_t) (conn : connection_t)
    (h : cstr request.method ≠ bytes "GET") :
    handle_request env request conn = [.send (send_error 405 request.version conn)] := by
  have : strcmp_eq request.method (bytes "GET") = false := by
    rw [Bool.eq_false_iff, ne_eq, strcmp_eq_iff, cstr_bytes_GET]
    exact h
  simp [handle_request, this]

theorem handle_request_bad_version (env : Env) (request : http_request_t)
    (conn : connection_t) (hget : cstr request.method = bytes "GET")
    (h0 : cstr request.version ≠ bytes "HTTP/1.0")
    (h1 : cstr request.version ≠ bytes "HTTP/1.1") :
    handle_request env request conn = [.send (send_error 505 request.version conn)] := by
  have hm : strcmp_eq request.method (bytes "GET") = true := by
    rw [strcmp_eq_iff, cstr_bytes_GET]
    exact hget
  have hv0 : strcmp_eq request.version (bytes "HTTP/1.0") = false := by
    rw [Bool.eq_false_iff, ne_eq, strcmp_eq_iff, cstr_bytes_HTTP10]
    exact h0
  have hv1 : strcmp_eq request.version (bytes "HTTP/1.1") = false := by
    rw [Bool.eq_false_iff, ne_eq, strcmp_eq_iff, cstr_bytes_HTTP11]
    exact h1
  simp [handle_request, hm, hv0, hv1]

theorem strlen_DOCUMENT_ROOT : strlen DOCUMENT_ROOT = 5 := by decide

theorem handle_request_dotdot (env : Env) (request : http_request_t)
    (conn : connection_t) (hget : cstr request.method = bytes "GET")
    (hver : cstr request.version = bytes "HTTP/1.0" ∨ cstr request.version = bytes "HTTP/1.1")
    (hlen : strlen request.path ≤ 511)
    (hdd : bytes ".." <:+: cstr request.path) :
    handle_request env request conn = [.send (send_error 403 request.version conn)] := by
  have hm : strcmp_eq request.method (bytes "GET") = true := by
    rw [strcmp_eq_iff, cstr_bytes_GET]
    exact hget
  have hv : (!strcmp_eq request.version (bytes "HTTP/1.0") &&
      !strcmp_eq request.version (bytes "HTTP/1.1")) = false := by
    rcases hver with h | h
    · have : strcmp_eq request.version (bytes "HTTP/1.0") = true := by
        rw [strcmp_eq_iff, cstr_bytes_HTTP10]; exact h
      simp [this]
    · have : strcmp_eq request.version (bytes "HTTP/1.1") = true := by
        rw [strcmp_eq_iff, cstr_bytes_HTTP11]; exact h
      simp [this]
  have hfind : (find_substr request.path (strlen request.path) (bytes "..")).isSome = true := by
    cases hf : find_substr request.path (strlen request.path) (bytes "..") with
    | some r => rfl
    | none =>
      rw [find_substr_eq_none_iff _ _ _ (by decide), take_strlen] at hf
      exact absurd hdd hf
  have hshort : ¬ (strlen request.path ≥ PATH_MAX_LEN - strlen DOCUMENT_ROOT - 1) := by
    rw [strlen_DOCUMENT_ROOT]
    unfold PATH_MAX_LEN
    omega
  unfold handle_request
  rw [hm, hv]
  simp only [Bool.not_true, Bool.false_eq_true, if_false, if_neg hshort, hfind, if_true]

theorem first_at_unique (sub l : List Nat) (i j : Nat) (hi : first_at sub l i)
    (hj : first_at sub l j) : i = j := by
  rcases Nat.lt_trichotomy i j with h | h | h
  · exact absurd hi.1 (hj.2 i h)
  · exact h
  · exact absurd hj.1 (hi.2 j h)

theorem first_at_crlf_after (version rest : List Nat) (h : ¬ [13, 10] <:+: version) :
    first_at [13, 10] (version ++ 13 :: 10 :: rest) version.length := by
  refine ⟨by simp, ?_⟩
  intro j hj heq
  rw [List.drop_append_of_le_length (by omega)] at heq
  by_cases hj2 : j + 2 ≤ version.length
  · apply h
    have := (infix_take_iff [13, 10] version version.length).mpr
      ⟨j, hj2, by
        rw [List.take_append_of_le_length (by simp; omega)] at heq
        exact heq⟩
    rwa [List.take_of_length_le (le_refl _)] at this
  · have hlen : (version.drop j).length = 1 := by
      rw [List.length_drop]; omega
    match hd : version.drop j, hlen with
    | [x], _ =>
      rw [hd] at heq
      simp at heq

theorem two_separators_of_request_line (buffer : List Nat) (eoh : Nat)
    (method target version : List Nat) (h : request_line buffer eoh method target version) :
    two_separators buffer eoh method target := by
  obtain ⟨⟨rest, hbuf⟩, hm, ht, _, hin⟩ := h
  exact ⟨⟨version ++ [13, 10] ++ rest, by rw [← hbuf]; simp⟩, hm, ht, hin⟩

/-- With both separators in the header region the request is parsed; method and
path read as strings are the tokens cut to 15 and 511 bytes. -/
theorem parse_request_of_separators (buffer : List Nat) (eoh : Nat)
    (method target : List Nat) (h4 : 4 ≤ eoh)
    (hend : (buffer.drop (eoh - 4)).take 4 = [13, 10, 13, 10])
    (hsep : two_separators buffer eoh method target) :
    ∃ request, parse_request buffer eoh = some request ∧
      cstr request.method = cstr (method.take 15) ∧
      cstr request.path = cstr (target.take 511) := by
  obtain ⟨j, _, _, hparse⟩ := parse_request_line_of_separators buffer eoh method target h4 hend hsep
  obtain ⟨⟨rest, hbuf⟩, hm, ht, hin⟩ := hsep
  refine ⟨_, by unfold parse_request; rw [hparse], ?_, ?_⟩
  · show cstr (store_str request_zero.method buffer (clamp_len method.length 16)) = _
    rw [← hbuf, List.append_assoc, List.append_assoc]
    exact cstr_method_field _ _ _
  · show cstr (store_str request_zero.path (buffer.drop (method.length + 1))
      (clamp_len target.length 512)) = _
    have hdrop : buffer.drop (method.length + 1) = target ++ (32 :: rest) := by
      rw [← hbuf]
      simp [List.drop_append_eq_append_drop]
    rw [hdrop, cstr_store_str, take_clamp_len _ _ 512 (by omega)]

/-- With the whole request line in the header region, the version field read as
a string is the version token cut to 15 bytes. -/
theorem parse_request_of_line (buffer : List Nat) (eoh : Nat)
    (method target version : List Nat) (h4 : 4 ≤ eoh)
    (hend : (buffer.drop (eoh - 4)).take 4 = [13, 10, 13, 10])
    (hline : request_line buffer eoh method target version) :
    ∃ request, parse_request buffer eoh = some request ∧
      cstr request.method = cstr (method.take 15) ∧
      cstr request.path = cstr (target.take 511) ∧
      cstr request.version = cstr (version.take 15) := by
  have hsep := two_separators_of_request_line _ _ _ _ _ hline
  obtain ⟨request, hreq, hmeth, hpath⟩ :=
    parse_request_of_separators buffer eoh method target h4 hend hsep
  obtain ⟨j, _, hfirst, hparse⟩ :=
    parse_request_line_of_separators buffer eoh method target h4 hend hsep
  obtain ⟨⟨rest, hbuf⟩, hm, ht, hv, hin⟩ := hline
  refine ⟨request, hreq, hmeth, hpath, ?_⟩
  have hdrop : buffer.drop (method.length + 1 + target.length + 1) =
      version ++ 13 :: 10 :: rest := by
    have hbuf2 : buffer = (method ++ 32 :: target ++ [32]) ++ (version ++ 13 :: 10 :: rest) := by
      rw [← hbuf]; simp
    rw [hbuf2]
    exact List.drop_left' (by simp; omega)
  have hj : j = version.length := by
    rw [hdrop] at hfirst
    exact first_at_unique _ _ _ _ hfirst (first_at_crlf_after version rest hv)
  unfold parse_request at hreq
  rw [hparse] at hreq
  simp only [Option.some.injEq] at hreq
  rw [← hreq]
  show cstr (store_str request_zero.version
    (buffer.drop (method.length + 1 + target.length + 1)) (clamp_len j 16)) = _
  rw [hdrop, hj, cstr_store_str, take_clamp_len _ _ 16 (by omega)]

theorem cstr_take_ne (l s : List Nat) (n : Nat) (hs : s.length < n) (h : cstr l ≠ s) :
    cstr (l.take n) ≠ s := fun hc => h ((cstr_take_eq_iff l s n hs).mp hc)

/-! ### Paths -/

theorem has_dotdot_of_sub (l : List Nat) (h : bytes ".." <:+: l) : has_dotdot l = true := by
  obtain ⟨s, t, rfl⟩ := h
  induction s with
  | nil => simp [bytes, has_dotdot]
  | cons x s ih =>
    match hs : s ++ bytes ".." ++ t, ih with
    | [], ih => simp [has_dotdot] at ih
    | y :: r, ih =>
      have : x :: s ++ bytes ".." ++ t = x :: y :: r := by
        rw [← hs]; simp
      rw [this, has_dotdot, ih]
      simp

theorem infix_of_has_dotdot : ∀ (l : List Nat), has_dotdot l = true → bytes ".." <:+: l
  | [], h => by simp [has_dotdot] at h
  | [_], h => by simp [has_dotdot] at h
  | a :: b :: rest, h => by
    rw [has_dotdot, Bool.or_eq_true] at h
    rcases h with h | h
    · simp only [Bool.and_eq_true, beq_iff_eq] at h
      obtain ⟨rfl, rfl⟩ := h
      exact ⟨[], rest, by simp [bytes]⟩
    · exact List.infix_cons (infix_of_has_dotdot (b :: rest) h)

theorem has_dotdot_iff (l : List Nat) : has_dotdot l = true ↔ bytes ".." <:+: l :=
  ⟨infix_of_has_dotdot l, has_dotdot_of_sub l⟩

theorem has_dotdot_append (b : List Nat) (hb : b.head? ≠ some 46) :
    ∀ (a : List Nat), has_dotdot (a ++ b) = (has_dotdot a || has_dotdot b)
  | [] => by simp [has_dotdot]
  | [x] => by
    match b, hb with
    | [], _ => simp [has_dotdot]
    | y :: r, hb =>
      have hy : y ≠ 46 := by simpa using hb
      simp [has_dotdot, hy]
  | x :: y :: r => by
    have ih := has_dotdot_append b hb (y :: r)
    simp only [List.cons_append] at ih ⊢
    rw [has_dotdot, ih, has_dotdot, Bool.or_assoc]

theorem has_dotdot_root (c : List Nat) : has_dotdot (DOCUMENT_ROOT ++ c) = has_dotdot c := by
  match c with
  | [] => decide
  | x :: r =>
    show has_dotdot (46 :: 47 :: 119 :: 119 :: 119 :: x :: r) = _
    simp [has_dotdot]

theorem fs_paths_append (a b : List Event) : fs_paths (a ++ b) = fs_paths a ++ fs_paths b := by
  induction a with
  | nil => rfl
  | cons e a ih => cases e <;> simp [fs_paths, ih]

theorem fs_paths_serve_file (env : Env) (full_path : List Nat) (request : http_request_t)
    (conn : connection_t) (q : List Nat)
    (hq : q ∈ fs_paths (serve_file env full_path request conn).1) : q = full_path := by
  unfold serve_file at hq
  split at hq
  · split at hq
    · simpa [fs_paths] using hq
    · split at hq
      · simpa [fs_paths] using hq
      · simpa [fs_paths] using hq
      · split at hq
        · simpa [fs_paths] using hq
        · unfold sendfile_loop at hq
          split at hq <;> simpa [fs_paths] using hq
  · simpa [fs_paths] using hq

theorem fs_paths_serve_directory (env : Env) (full_path : List Nat) (request : http_request_t)
    (conn : connection_t) (q : List Nat) (hlen : full_path.length ≤ 516)
    (hq : q ∈ fs_paths (serve_directory env full_path request conn)) :
    q = full_path ++ index_sep full_path ++ bytes "index.html" ∨
      q = full_path ++ index_sep full_path ++ bytes "index.htm" := by
  have hsep : (if full_path.getLast? ≠ some 47 then strlcat full_path (bytes "/") PATH_MAX_LEN
      else full_path) = full_path ++ index_sep full_path := by
    unfold index_sep strlcat PATH_MAX_LEN
    by_cases h : full_path.getLast? = some 47
    · simp [h]
    · simp only [ne_eq, h, not_false_eq_true, if_true, if_false]
      rw [List.take_of_length_le (by simp [bytes]; omega)]
      rfl
  have hseplen : (full_path ++ index_sep full_path).length ≤ 517 := by
    unfold index_sep
    split <;> simp <;> omega
  have hhtml : strlcat (strlcpy (full_path ++ index_sep full_path) PATH_MAX_LEN)
      (bytes "index.html") PATH_MAX_LEN =
      full_path ++ index_sep full_path ++ bytes "index.html" := by
    unfold strlcat strlcpy PATH_MAX_LEN
    have e1 : (full_path ++ index_sep full_path).take (1024 - 1) =
        full_path ++ index_sep full_path := List.take_of_length_le (by omega)
    have e2 : (bytes "index.html").length = 10 := by decide
    rw [e1]
    exact List.take_of_length_le (by rw [List.length_append, e2]; omega)
  have hhtm : strlcat (strlcpy (full_path ++ index_sep full_path) PATH_MAX_LEN)
      (bytes "index.htm") PATH_MAX_LEN =
      full_path ++ index_sep full_path ++ bytes "index.htm" := by
    unfold strlcat strlcpy PATH_MAX_LEN
    have e1 : (full_path ++ index_sep full_path).take (1024 - 1) =
        full_path ++ index_sep full_path := List.take_of_length_le (by omega)
    have e2 : (bytes "index.htm").length = 9 := by decide
    rw [e1]
    exact List.take_of_length_le (by rw [List.length_append, e2]; omega)
  unfold serve_directory at hq
  simp only [hsep, hhtml, hhtm] at hq
  split at hq
  · exact Or.inl (fs_paths_serve_file _ _ _ _ _ (by rename_i h; rw [h]; exact hq))
  · rename_i ev1 h1
    split at hq
    · rename_i ev2 h2
      rw [fs_paths_append, List.mem_append] at hq
      rcases hq with hq | hq
      · exact Or.inl (fs_paths_serve_file _ _ _ _ _ (by rw [h1]; exact hq))
      · exact Or.inr (fs_paths_serve_file _ _ _ _ _ (by rw [h2]; exact hq))
    · rename_i ev2 h2
      rw [fs_paths_append, fs_paths_append, List.mem_append, List.mem_append] at hq
      rcases hq with (hq | hq) | hq
      · exact Or.inl (fs_paths_serve_file _ _ _ _ _ (by rw [h1]; exact hq))
      · exact Or.inr (fs_paths_serve_file _ _ _ _ _ (by rw [h2]; exact hq))
      · simp [fs_paths] at hq

theorem clamp_len_le (len size : Nat) : clamp_len len size ≤ size - 1 := by
  unfold clamp_len
  split <;> omega

theorem strlen_store_str_le (dest src : List Nat) (n : Nat) :
    strlen (store_str dest src n) ≤ n := by
  unfold strlen
  rw [cstr_store_str]
  exact le_trans (cstr_length_le _) (by rw [List.length_take]; omega)

theorem parse_request_path_len (buffer : List Nat) (eoh : Nat) (request : http_request_t)
    (h : parse_request buffer eoh = some request) : strlen request.path ≤ 511 := by
  unfold parse_request at h
  split at h
  · cases h
  · rename_i r hline
    simp only [Option.some.injEq] at h
    rw [← h]
    show strlen r.path ≤ 511
    unfold parse_request_line at hline
    split at hline
    · cases hline
    · split at hline
      · cases hline
      · split at hline
        · cases hline
        · split at hline
          · cases hline
          · simp only [Option.some.injEq] at hline
            rw [← hline]
            exact le_trans (strlen_store_str_le _ _ _) (clamp_len_le _ 512)

theorem dotdot_free_suffix (full_path name : List Nat)
    (hname : name = bytes "index.html" ∨ name = bytes "index.htm") :
    (index_sep full_path ++ name).head? ≠ some 46 ∧
      has_dotdot (index_sep full_path ++ name) = false := by
  unfold index_sep
  rcases hname with rfl | rfl <;> split <;> decide

theorem handle_request_paths (env : Env) (request : http_request_t) (conn : connection_t)
    (p : List Nat) (hlen : strlen request.path ≤ 511)
    (hp : p ∈ fs_paths (handle_request env request conn)) :
    ¬ bytes ".." <:+: cstr request.path ∧
      (p = DOCUMENT_ROOT ++ cstr request.path ∨
        p = DOCUMENT_ROOT ++ cstr request.path ++
          index_sep (DOCUMENT_ROOT ++ cstr request.path) ++ bytes "index.html" ∨
        p = DOCUMENT_ROOT ++ cstr request.path ++
          index_sep (DOCUMENT_ROOT ++ cstr request.path) ++ bytes "index.htm") := by
  have hroot : DOCUMENT_ROOT.length = 5 := by decide
  have hfull : (DOCUMENT_ROOT ++ cstr request.path).length ≤ 516 := by
    rw [List.length_append, hroot]
    unfold strlen at hlen
    omega
  unfold handle_request at hp
  split at hp
  · simp [fs_paths] at hp
  · split at hp
    · simp [fs_paths] at hp
    · split at hp
      · simp [fs_paths] at hp
      · split at hp
        · simp [fs_paths] at hp
        · rename_i hfind
          have hnodd : ¬ bytes ".." <:+: cstr request.path := by
            have : find_substr request.path (strlen request.path) (bytes "..") = none := by
              cases hf : find_substr request.path (strlen request.path) (bytes "..") with
              | none => rfl
              | some r => rw [hf] at hfind; simp at hfind
            rw [find_substr_eq_none_iff _ _ _ (by decide), take_strlen] at this
            exact this
          refine ⟨hnodd, ?_⟩
          split at hp
          · simp [fs_paths] at hp
          · simp only at hp
            split at hp
            · simp [fs_paths] at hp; exact Or.inl hp
            · simp [fs_paths] at hp; exact Or.inl hp
            · simp [fs_paths] at hp; exact Or.inl hp
            · simp only [fs_paths, List.mem_cons] at hp
              rcases hp with hp | hp
              · exact Or.inl hp
              · exact Or.inr (fs_paths_serve_directory _ _ _ _ _ hfull hp)
            · simp only [fs_paths, List.mem_cons] at hp
              rcases hp with hp | hp
              · exact Or.inl hp
              · exact Or.inl (fs_paths_serve_file _ _ _ _ _ hp)
            · simp [fs_paths] at hp; exact Or.inl hp

theorem digitChar_toNat : ∀ d, d < 10 → (Nat.digitChar d).toNat = 48 + d := by decide

theorem dec_digits_eq_toDigitsCore :
    ∀ (fuel n : Nat) (ds : List Char),
      dec_digits fuel n (ds.map Char.toNat) = (Nat.toDigitsCore 10 fuel n ds).map Char.toNat := by
  intro fuel
  induction fuel with
  | zero => intro n ds; rfl
  | succ fuel ih =>
    intro n ds
    rw [dec_digits, Nat.toDigitsCore]
    have hd := digitChar_toNat (n % 10) (Nat.mod_lt _ (by omega))
    by_cases h : n / 10 = 0
    · simp [h, hd]
    · simp only [h, if_false]
      rw [← ih]
      simp [hd]

/-- The digits written for a non-negative number are those of its usual decimal
representation. -/
theorem fmt_int_natCast (n : Nat) : fmt_int (n : Int) = bytes (toString n) := by
  unfold fmt_int
  rw [if_neg (by omega)]
  have := dec_digits_eq_toDigitsCore (n + 1) n []
  simp only [List.map_nil] at this
  simp only [Int.natAbs_ofNat]
  rw [this]
  rfl

/-! ### Decimal output and the size of error pages -/

theorem dec_digits_length_le :
    ∀ (fuel n : Nat) (acc : List Nat) (k : Nat), 1 ≤ k → n < 10 ^ k →
      (dec_digits fuel n acc).length ≤ acc.length + k := by
  intro fuel
  induction fuel with
  | zero => intro n acc k _ _; simp [dec_digits]
  | succ fuel ih =>
    intro n acc k hk hn
    rw [dec_digits]
    split
    · simp; omega
    · rename_i hdiv
      have hk2 : 2 ≤ k := by
        by_contra hcon
        have : k = 1 := by omega
        subst this
        have : n / 10 = 0 := Nat.div_eq_of_lt (by simpa using hn)
        exact hdiv this
      have hlt : n / 10 < 10 ^ (k - 1) := by
        apply Nat.div_lt_of_lt_mul
        rw [← pow_succ']
        rwa [show k - 1 + 1 = k by omega]
      have := ih (n / 10) ((48 + n % 10) :: acc) (k - 1) (by omega) hlt
      simp only [List.length_cons] at this
      omega

theorem fmt_int_length_le (v : Int) (hlo : -2147483648 ≤ v) (hhi : v ≤ 2147483647) :
    (fmt_int v).length ≤ 11 := by
  have habs : v.natAbs < 10 ^ 10 := by
    have : v.natAbs ≤ 2147483648 := by omega
    exact lt_of_le_of_lt this (by norm_num)
  have := dec_digits_length_le (v.natAbs + 1) v.natAbs [] 10 (by omega) habs
  unfold fmt_int
  split
  · simp only [List.length_cons]
    simp only [List.length_nil] at this
    omega
  · simp only [List.length_nil] at this
    omega

theorem status_name_length_le (code : Int) : (status_name code).length ≤ 26 := by
  unfold status_name
  split_ifs <;> decide

theorem error_page_length_le (code : Int) (hlo : -2147483648 ≤ code)
    (hhi : code ≤ 2147483647) : (error_page code).length ≤ 139 := by
  have h1 := fmt_int_length_le code hlo hhi
  have h2 := status_name_length_le code
  have e1 : (bytes "<html><head><title>").length = 19 := by decide
  have e2 : (bytes "</title></head><body><h1>").length = 25 := by decide
  have e3 : (bytes "</h1></body></html>").length = 19 := by decide
  unfold error_page
  simp only [List.length_append, e1, e2, e3, List.length_cons, List.length_nil]
  omega

/-! ### Header lookup -/

theorem find_header_value_absent (buffer : List Nat) (eoh : Nat) (name dest : List Nat)
    (dest_len : Nat) (hname : name ≠ []) (h : ¬ name <:+: buffer.take eoh) :
    find_header_value buffer eoh name dest dest_len = dest := by
  unfold find_header_value
  rw [(find_substr_eq_none_iff name buffer eoh hname).mpr h]

theorem content_length_absent (buffer : List Nat) (eoh : Nat)
    (h : ¬ bytes "Content-Length" <:+: buffer.take eoh) : content_length buffer eoh = 0 := by
  unfold content_length
  rw [(find_substr_eq_none_iff _ buffer eoh (by decide)).mpr h]

theorem strchr_first (c : Nat) (hc : c ≠ 0) :
    ∀ (a rest : List Nat), c ∉ a → 0 ∉ a → strchr (a ++ c :: rest) c = some a.length
  | [], rest, _, _ => by simp [strchr]
  | x :: a, rest, h1, h2 => by
    have hx : x ≠ c := fun h => h1 (by simp [h])
    have hx0 : x ≠ 0 := fun h => h2 (by simp [h])
    have ih := strchr_first c hc a rest (fun h => h1 (by simp [h])) (fun h => h2 (by simp [h]))
    rw [List.cons_append, strchr, if_neg hx, if_neg hx0, ih]
    rfl

theorem skip_space_run (header_end : Nat) :
    ∀ (ws : List Nat) (x : Nat) (rest : List Nat) (field_start : Nat),
      (∀ b ∈ ws, isspace b = true) → isspace x = false →
      field_start + ws.length ≤ header_end →
      skip_space (ws ++ x :: rest) field_start header_end = field_start + ws.length
  | [], x, rest, fs, _, hx, _ => by simp [skip_space, hx]
  | w :: ws, x, rest, fs, hws, hx, hle => by
    have hw : isspace w = true := hws w (by simp)
    have hlt : fs < header_end := by simp at hle; omega
    have ih := skip_space_run header_end ws x rest (fs + 1) (fun b hb => hws b (by simp [hb])) hx
      (by simp at hle; omega)
    rw [List.cons_append, skip_space]
    simp only [hw, hlt, decide_True, Bool.and_self, if_true]
    rw [ih]
    simp
    omega

theorem strcasecmp_eq_take (value s : List Nat) (n : Nat) (hs : (cstr s).length < n) :
    strcasecmp_eq (value.take n) s = strcasecmp_eq value s := by
  unfold strcasecmp_eq
  rw [cstr_take, List.map_take]
  rw [Bool.eq_iff_iff, beq_iff_eq, beq_iff_eq]
  constructor
  · intro h
    exact eq_of_take_eq_short _ _ _ h (by simpa using hs)
  · intro h
    rw [h, List.take_of_length_le (by simp; omega)]

theorem strcasecmp_eq_congr (a b s : List Nat) (h : cstr a = cstr b) :
    strcasecmp_eq a s = strcasecmp_eq b s := by
  unfold strcasecmp_eq
  rw [h]

/-- The value copied into `request.connection` when the first `Connection` of
the header region is followed by a colon and a value. -/
theorem find_header_value_present (buffer : List Nat) (eoh k : Nat)
    (junk ws value : List Nat) (x : Nat) (tail dest : List Nat)
    (hfirst : first_at (bytes "Connection") buffer k)
    (hpre : (bytes "Connection" ++ junk ++ 58 :: ws ++ value ++ [13, 10]) <+: buffer.drop k)
    (hj1 : 58 ∉ junk) (hj0 : 0 ∉ junk) (hws : ∀ b ∈ ws, isspace b = true)
    (hval : value = x :: tail) (hx : isspace x = false) (hcrlf : ¬ [13, 10] <:+: value)
    (hin : k + 10 + junk.length + 1 + ws.length + value.length + 2 ≤ eoh) :
    cstr (find_header_value buffer eoh (bytes "Connection") dest 32) =
      cstr (value.take 31) := by
  obtain ⟨rest, hrest⟩ := hpre
  have hlen10 : (bytes "Connection").length = 10 := by decide
  have hfind : find_substr buffer eoh (bytes "Connection") = some k :=
    find_substr_first _ _ _ _ (by decide) hfirst (by rw [hlen10]; omega)
  have hdropk : buffer.drop k =
      (bytes "Connection" ++ junk) ++ 58 :: (ws ++ value ++ 13 :: 10 :: rest) := by
    rw [← hrest]; simp
  have hcolon : strchr (buffer.drop k) 58 = some (10 + junk.length) := by
    rw [hdropk, strchr_first 58 (by decide) _ _ (by
      intro h
      rcases List.mem_append.mp h with h | h
      · revert h; decide
      · exact hj1 h) (by
      intro h
      rcases List.mem_append.mp h with h | h
      · revert h; decide
      · exact hj0 h)]
    rw [List.length_append, hlen10]
  have hdrop2 : buffer.drop (k + (10 + junk.length) + 1) = ws ++ value ++ 13 :: 10 :: rest := by
    rw [show k + (10 + junk.length) + 1 = k + (10 + junk.length + 1) by omega,
      ← List.drop_drop, hdropk]
    have : (bytes "Connection" ++ junk) ++ 58 :: (ws ++ value ++ 13 :: 10 :: rest) =
        (bytes "Connection" ++ junk ++ [58]) ++ (ws ++ value ++ 13 :: 10 :: rest) := by simp
    rw [this]
    exact List.drop_left' (by simp [hlen10]; omega)
  have hskip : skip_space (buffer.drop (k + (10 + junk.length) + 1))
      (k + (10 + junk.length) + 1) eoh = k + (10 + junk.length) + 1 + ws.length := by
    rw [hdrop2, hval, List.append_assoc, List.cons_append]
    exact skip_space_run eoh ws x _ _ hws hx (by omega)
  have hdrop3 : buffer.drop (k + (10 + junk.length) + 1 + ws.length) =
      value ++ 13 :: 10 :: rest := by
    rw [← List.drop_drop, hdrop2, List.append_assoc]
    exact List.drop_left' rfl
  have hend : find_substr (buffer.drop (k + (10 + junk.length) + 1 + ws.length))
      (eoh - (k + (10 + junk.length) + 1 + ws.length)) [13, 10] = some value.length := by
    rw [hdrop3]
    exact find_substr_first _ _ _ _ (by simp) (first_at_crlf_after value rest hcrlf)
      (by simp only [List.length_cons, List.length_nil]; omega)
  unfold find_header_value
  simp only [hfind, hcolon, hskip, hend]
  rw [if_pos (by omega), if_pos (by omega), if_pos (by omega), if_pos (by omega)]
  rw [hdrop3, cstr_store_str, take_clamp_len _ _ 32 (by omega)]

theorem parse_request_connection (buffer : List Nat) (eoh : Nat) (request : http_request_t)
    (h : parse_request buffer eoh = some request) :
    request.connection =
      find_header_value buffer eoh (bytes "Connection") request_zero.connection 32 := by
  unfold parse_request at h
  split at h
  · cases h
  · rename_i r hline
    simp only [Option.some.injEq] at h
    rw [← h]
    show find_header_value buffer eoh (bytes "Connection") r.connection 32 = _
    unfold parse_request_line at hline
    split at hline
    · cases hline
    · split at hline
      · cases hline
      · split at hline
        · cases hline
        · split at hline
          · cases hline
          · simp only [Option.some.injEq] at hline
            rw [← hline]

theorem flag_of_drain_iter (env : Env) (now : Int) (st : worker_state) (eoh : Nat)
    (request : http_request_t) (hframe : complete_frame st eoh)
    (hparse : parse_request st.buffer eoh = some request) :
    flag_of (drain_iter env now st) =
      some (strcasecmp_eq request.connection (bytes "keep-alive")) := by
  rw [drain_iter_of_frame env now st eoh hframe, hparse]
  rfl

theorem flag_of_connection_decides (env : Env) (now : Int) (st : worker_state) (eoh : Nat)
    (request : http_request_t) (flag : Bool) (hframe : complete_frame st eoh)
    (hparse : parse_request st.buffer eoh = some request)
    (hdec : connection_decides st.buffer eoh flag) :
    flag_of (drain_iter env now st) = some flag := by
  rw [flag_of_drain_iter env now st eoh request hframe hparse,
    parse_request_connection _ _ _ hparse]
  congr 1
  cases hdec with
  | absent h =>
    rw [find_header_value_absent _ _ _ _ _ (by decide) h]
    decide
  | present k junk ws value x tail hfirst hpre hj1 hj0 hws hval hx hcrlf hin =>
    rw [strcasecmp_eq_congr _ _ _ (find_header_value_present st.buffer eoh k junk ws value x
      tail _ hfirst hpre hj1 hj0 hws hval hx hcrlf hin)]
    exact strcasecmp_eq_take value _ 31 (by decide)

/-! ### The defects behind C2 and C7 in general -/

theorem parse_request_none_of_line (buffer : List Nat) (eoh : Nat)
    (h : parse_request_line buffer eoh = none) : parse_request buffer eoh = none := by
  unfold parse_request
  rw [h]

theorem parse_request_line_no_space (buffer : List Nat) (eoh : Nat)
    (h : 32 ∉ buffer.take eoh) : parse_request_line buffer eoh = none := by
  unfold parse_request_line
  rw [memchr_none 32 buffer eoh h]

theorem parse_request_line_one_space (buffer : List Nat) (eoh : Nat) (method : List Nat)
    (hpre : (method ++ [32]) <+: buffer) (hm : 32 ∉ method) (hlt : method.length < eoh)
    (h : 32 ∉ (buffer.take eoh).drop (method.length + 1)) :
    parse_request_line buffer eoh = none := by
  obtain ⟨rest, hbuf⟩ := hpre
  have hfirst : memchr buffer 32 eoh = some method.length := by
    rw [← hbuf, List.append_assoc]
    exact memchr_first 32 method _ eoh hm hlt
  have hsecond : memchr (buffer.drop (method.length + 1)) 32 (eoh - (method.length + 1)) =
      none := by
    apply memchr_none
    rw [List.take_drop]
    rw [show method.length + 1 + (eoh - (method.length + 1)) = eoh by omega]
    exact h
  unfold parse_request_line
  simp only [hfirst, hsecond]

theorem cstr_of_nonzero_prefix (a : List Nat) (c : Nat) (rest : List Nat) (ha : 0 ∉ a)
    (hc : c ≠ 0) : ∃ t, cstr (a ++ c :: rest) = a ++ c :: t := by
  unfold cstr
  induction a with
  | nil => exact ⟨List.takeWhile (fun b => b != 0) rest, by simp [List.takeWhile_cons, hc]⟩
  | cons x xs ih =>
    have hx : x ≠ 0 := fun h => ha (by simp [h])
    obtain ⟨t, ht⟩ := ih (fun h => ha (by simp [h]))
    exact ⟨t, by simp [List.takeWhile_cons, hx, ht]⟩

theorem dropWhile_space_run (ws : List Nat) (d : Nat) (rest : List Nat)
    (hws : ∀ b ∈ ws, isspace b = true) (hd : isspace d = false) :
    (ws ++ d :: rest).dropWhile isspace = d :: rest := by
  induction ws with
  | nil => simp [List.dropWhile_cons, hd]
  | cons w ws ih =>
    have hw : isspace w = true := hws w (by simp)
    simp only [List.cons_append, List.dropWhile_cons, hw, if_true]
    exact ih (fun b hb => hws b (by simp [hb]))

theorem takeWhile_digit_run (ds : List Nat) (c : Nat) (rest : List Nat)
    (hds : ∀ b ∈ ds, isdigit b = true) (hc : isdigit c = false) :
    (ds ++ c :: rest).takeWhile isdigit = ds ∧ (ds ++ c :: rest).dropWhile isdigit = c :: rest := by
  induction ds with
  | nil => simp [List.takeWhile_cons, List.dropWhile_cons, hc]
  | cons w ws ih =>
    have hw : isdigit w = true := hds w (by simp)
    obtain ⟨h1, h2⟩ := ih (fun b hb => hds b (by simp [hb]))
    simp only [List.cons_append, List.takeWhile_cons, List.dropWhile_cons, hw, if_true, h1, h2,
      and_self]

/-- `try_conv_long` refuses white space and digits that are followed by a
carriage return. -/
theorem try_conv_long_before_cr (ws ds rest : List Nat) (d : Nat)
    (hws : ∀ b ∈ ws, isspace b = true) (hd : isdigit d = true)
    (hds : ∀ b ∈ ds, isdigit b = true) :
    try_conv_long (ws ++ d :: ds ++ 13 :: rest) = none := by
  have hd0 : d ≠ 0 := by
    intro h; subst h; simp [isdigit] at hd
  have hdsp : isspace d = false := by
    unfold isdigit at hd
    unfold isspace
    simp only [Bool.and_eq_true, decide_eq_true_eq] at hd
    simp only [Bool.or_eq_false_iff, beq_eq_false_iff_ne, ne_eq, Bool.and_eq_false_imp,
      decide_eq_true_eq, decide_eq_false_iff_not]
    omega
  have hz : 0 ∉ ws ++ d :: ds := by
    intro h
    rcases List.mem_append.mp h with h | h
    · have := hws 0 h
      simp [isspace] at this
    · rcases List.mem_cons.mp h with h | h
      · exact hd0 h.symm
      · have := hds 0 h
        simp [isdigit] at this
  obtain ⟨t, ht⟩ := cstr_of_nonzero_prefix (ws ++ d :: ds) 13 rest hz (by decide)
  have hc : cstr (ws ++ d :: ds ++ 13 :: rest) = ws ++ d :: (ds ++ 13 :: t) := by
    rw [ht]; simp
  have hdrop : (ws ++ d :: (ds ++ 13 :: t)).dropWhile isspace = d :: (ds ++ 13 :: t) :=
    dropWhile_space_run ws d _ hws hdsp
  have hd45 : d ≠ 45 ∧ d ≠ 43 := by
    unfold isdigit at hd
    simp only [Bool.and_eq_true, decide_eq_true_eq] at hd
    omega
  obtain ⟨h1, h2⟩ := takeWhile_digit_run (d :: ds) 13 t (by
    intro b hb
    rcases List.mem_cons.mp hb with h | h
    · rw [h]; exact hd
    · exact hds b h) (by decide)
  have hneg : (some d == some 45) = false := by simp [hd45.1]
  have hpos : (some d == some 43) = false := by simp [hd45.2]
  rw [List.cons_append] at h1 h2
  unfold try_conv_long
  simp only [hc, hdrop, List.head?_cons, hneg, hpos, Bool.or_self, Bool.false_eq_true,
    if_false, h1, h2]
  split
  · rfl
  · simp

/-- A header line `Content-Length:`, white space, digits, CR at the first
occurrence of the name contributes nothing: `content_length` is 0 and the frame
is the header region, whatever the digits say. -/
theorem content_length_line_ignored (buffer : List Nat) (eoh k : Nat) (ws ds : List Nat)
    (d : Nat) (hfirst : first_at (bytes "Content-Length") buffer k)
    (hline : (bytes "Content-Length:" ++ ws ++ d :: ds ++ [13]) <+: buffer.drop k)
    (hws : ∀ b ∈ ws, isspace b = true) (hd : isdigit d = true)
    (hds : ∀ b ∈ ds, isdigit b = true) (hk : k + 15 ≤ eoh) :
    content_length buffer eoh = 0 ∧ total_size buffer eoh = eoh := by
  obtain ⟨rest, hrest⟩ := hline
  have hlen14 : (bytes "Content-Length").length = 14 := by decide
  have hfind : find_substr buffer eoh (bytes "Content-Length") = some k :=
    find_substr_first _ _ _ _ (by decide) hfirst (by rw [hlen14]; omega)
  have hdropk : buffer.drop k =
      bytes "Content-Length" ++ 58 :: (ws ++ d :: ds ++ 13 :: rest) := by
    rw [← hrest]
    have : bytes "Content-Length:" = bytes "Content-Length" ++ [58] := by decide
    rw [this]
    simp
  have hcolon : strchr (buffer.drop k) 58 = some 14 := by
    rw [hdropk, strchr_first 58 (by decide) _ _ (by decide) (by decide), hlen14]
  have hdrop2 : buffer.drop (k + 14 + 1) = ws ++ d :: ds ++ 13 :: rest := by
    rw [show k + 14 + 1 = k + (14 + 1) by omega, ← List.drop_drop, hdropk]
    have : bytes "Content-Length" ++ 58 :: (ws ++ d :: ds ++ 13 :: rest) =
        (bytes "Content-Length" ++ [58]) ++ (ws ++ d :: ds ++ 13 :: rest) := by simp
    rw [this]
    exact List.drop_left' (by decide)
  have h0 : content_length buffer eoh = 0 := by
    unfold content_length
    simp only [hfind, hcolon, hdrop2, try_conv_long_before_cr ws ds rest d hws hd hds]
    rw [if_pos (by omega), if_pos (by omega)]
  refine ⟨h0, ?_⟩
  unfold total_size
  rw [h0]
  simp

/-- A complete frame without a space in its header region, or with one space
only, is removed from the buffer without any system call, and the connection
record is left as it was. -/
theorem malformed_frame_dropped_silently (env : Env) (now : Int) (st : worker_state)
    (eoh : Nat) (hframe : complete_frame st eoh)
    (hmal : 32 ∉ st.buffer.take eoh ∨
      ∃ method, (method ++ [32]) <+: st.buffer ∧ 32 ∉ method ∧ method.length < eoh ∧
        32 ∉ (st.buffer.take eoh).drop (method.length + 1)) :
    drain_iter env now st =
      .handled [] (cleanup st (total_size st.buffer eoh) st.conn) := by
  have hnone : parse_request st.buffer eoh = none := by
    apply parse_request_none_of_line
    rcases hmal with h | ⟨method, hpre, hm, hlt, h⟩
    · exact parse_request_line_no_space _ _ h
    · exact parse_request_line_one_space _ _ method hpre hm hlt h
  rw [drain_iter_of_frame env now st eoh hframe, hnone]

/-! ### The buffer across reads and passes -/

theorem find_eoh_loop_found_ge (bound : Nat) :
    ∀ (mem : List Nat) (i eoh : Nat), find_eoh_loop bound mem i = .found eoh → i + 4 ≤ eoh := by
  intro mem
  induction mem with
  | nil =>
    intro i eoh h
    simp only [find_eoh_loop] at h
    split at h <;> cases h
  | cons b0 rest ih =>
    intro i eoh h
    have hrec : ∀ e, find_eoh_loop bound rest (i + 1) = .found e → i + 4 ≤ e := by
      intro e he
      have := ih (i + 1) e he
      omega
    unfold find_eoh_loop at h
    repeat' split at h
    all_goals first
      | exact hrec _ h
      | (simp only [scan_result.found.injEq] at h; omega)
      | cases h

theorem find_eoh_found_ge (buffer : List Nat) (buffer_len eoh : Nat)
    (h : find_eoh buffer buffer_len = .found eoh) : 4 ≤ eoh := by
  have := find_eoh_loop_found_ge _ _ _ _ h
  omega

/-- A pass that handles a frame found the end of the headers, checked that the
frame lies within the live bytes, and ends in the state built at `cleanup`. -/
theorem drain_iter_handled (env : Env) (now : Int) (st : worker_state)
    (events : List Event) (st1 : worker_state)
    (h : drain_iter env now st = .handled events st1) :
    ∃ eoh conn, find_eoh st.buffer st.buffer_len = .found eoh ∧ 4 ≤ eoh ∧
      total_size st.buffer eoh ≤ st.buffer_len ∧
      st1 = cleanup st (total_size st.buffer eoh) conn := by
  unfold drain_iter at h
  split at h
  · cases h
  · cases h
  · rename_i eoh heoh
    split at h
    · cases h
    · rename_i hle
      split at h
      · simp only [step_result.handled.injEq] at h
        exact ⟨eoh, _, heoh, find_eoh_found_ge _ _ _ heoh, by omega, h.2.symm⟩
      · simp only [step_result.handled.injEq] at h
        exact ⟨eoh, _, heoh, find_eoh_found_ge _ _ _ heoh, by omega, h.2.symm⟩

theorem cleanup_buffer_len (st : worker_state) (total : Nat) (conn : connection_t) :
    (cleanup st total conn).buffer_len = st.buffer_len - total := rfl

theorem cleanup_buffer_length (st : worker_state) (total : Nat) (conn : connection_t)
    (hlen : st.buffer_len ≤ st.buffer.length) :
    (cleanup st total conn).buffer.length = st.buffer.length := by
  unfold cleanup
  simp only [List.length_set]
  split
  · simp only [List.length_append, List.length_take, List.length_drop]
    omega
  · rfl

theorem cleanup_terminator (st : worker_state) (total : Nat) (conn : connection_t)
    (hlen : st.buffer_len < st.buffer.length) :
    (cleanup st total conn).buffer[(cleanup st total conn).buffer_len]? = some 0 := by
  have hl := cleanup_buffer_length st total conn (by omega)
  rw [cleanup_buffer_len]
  unfold cleanup at hl ⊢
  simp only at hl ⊢
  rw [List.getElem?_set_self (by rw [List.length_set] at hl; omega)]

theorem take_set_self (l : List Nat) (n a : Nat) : (l.set n a).take n = l.take n := by
  rw [List.set_take, List.set_eq_of_length_le (by rw [List.length_take]; omega)]

/-- The live bytes after `cleanup` are the old bytes behind the frame. -/
theorem cleanup_live (st : worker_state) (total : Nat) (conn : connection_t)
    (hlen : st.buffer_len ≤ st.buffer.length) :
    (cleanup st total conn).buffer.take (cleanup st total conn).buffer_len =
      (st.buffer.drop total).take (st.buffer_len - total) := by
  rw [cleanup_buffer_len]
  unfold cleanup
  simp only
  rw [take_set_self]
  split
  · rw [List.take_append_of_le_length (by
      simp only [List.length_take, List.length_drop]; omega)]
    rw [List.take_take, Nat.min_self]
  · rename_i h
    have : st.buffer_len - total = 0 := by omega
    rw [this]
    simp

theorem cleanup_ok (st : worker_state) (total : Nat) (conn : connection_t)
    (h : buffer_ok st) : buffer_ok (cleanup st total conn) := by
  obtain ⟨h1, h2, _⟩ := h
  unfold BUFFER_SIZE at h1 h2
  refine ⟨?_, ?_, ?_⟩
  · rw [cleanup_buffer_length st total conn (by omega), h1]; rfl
  · rw [cleanup_buffer_len]; unfold BUFFER_SIZE; omega
  · exact cleanup_terminator st total conn (by omega)

theorem recv_len_of_ok (st : worker_state) (h : buffer_ok st) :
    recv_len st = BUFFER_SIZE - 1 - st.buffer_len := by
  obtain ⟨_, h2, _⟩ := h
  unfold recv_len
  unfold BUFFER_SIZE at h2 ⊢
  have e : (2 : Nat) ^ 64 = 18446744073709551616 := by norm_num
  rw [e]
  omega

theorem store_recv_ok (st : worker_state) (got : List Nat) (h : buffer_ok st)
    (hgot : got.length ≤ recv_len st) : buffer_ok (store_recv st got) := by
  rw [recv_len_of_ok st h] at hgot
  obtain ⟨h1, h2, _⟩ := h
  unfold BUFFER_SIZE at h1 h2 hgot
  have hlen : (store_recv st got).buffer.length = 8192 := by
    unfold store_recv
    simp only [List.length_set, List.length_append, List.length_take, List.length_drop]
    omega
  refine ⟨hlen, ?_, ?_⟩
  · show st.buffer_len + got.length ≤ BUFFER_SIZE - 1
    unfold BUFFER_SIZE; omega
  · show (store_recv st got).buffer[st.buffer_len + got.length]? = some 0
    unfold store_recv at hlen ⊢
    simp only at hlen ⊢
    rw [List.getElem?_set_self (by rw [List.length_set] at hlen; omega)]

theorem discard_large_ok (st : worker_state) (h : buffer_ok st) :
    discard_large st = st := by
  unfold discard_large
  rw [if_neg (by have := h.2.1; omega)]

theorem initial_state_ok (t : Int) : buffer_ok (initial_state t) := by
  refine ⟨?_, ?_, ?_⟩
  · simp [initial_state]
  · simp [initial_state]
  · show (List.replicate BUFFER_SIZE 0)[0]? = some 0
    exact List.getElem?_replicate_of_lt (by unfold BUFFER_SIZE; omega)

theorem reachable_ok (st : worker_state) (h : reachable st) : buffer_ok st := by
  induction h with
  | start t => exact initial_state_ok t
  | read st got _ _ hgot ih => exact store_recv_ok st got ih hgot
  | pass env now st events st1 _ _ hpass ih =>
    obtain ⟨eoh, conn, _, _, _, hst1⟩ := drain_iter_handled env now st events st1 hpass
    rw [hst1]
    exact cleanup_ok st _ conn ih
  | discard st _ ih => rw [discard_large_ok st ih]; exact ih

theorem drain_iter_handled_lt (env : Env) (now : Int) (st : worker_state)
    (events : List Event) (st1 : worker_state)
    (h : drain_iter env now st = .handled events st1) : st1.buffer_len + 4 ≤ st.buffer_len := by
  obtain ⟨eoh, conn, _, h4, hle, hst1⟩ := drain_iter_handled env now st events st1 h
  have := le_total_size st.buffer eoh
  rw [hst1, cleanup_buffer_len]
  omega

/-- With more fuel than live bytes the inner loop does not run out of fuel. -/
theorem drain_loop_fuel (env : Env) (clock : Nat → Int) :
    ∀ (fuel k : Nat) (st : worker_state), st.buffer_len < fuel →
      ∀ events st2, drain_loop env clock fuel k st ≠ .out_of_fuel events st2 := by
  intro fuel
  induction fuel with
  | zero => intro k st h; omega
  | succ fuel ih =>
    intro k st hlt events st2 hres
    rw [drain_loop] at hres
    split at hres
    · split at hres
      · cases hres
      · cases hres
      · rename_i ev st1 hpass
        have := drain_iter_handled_lt env _ st ev st1 hpass
        split at hres
        · split at hres
          · cases hres
          · cases hres
          · rename_i more st3 hrec
            exact ih (k + 1) st1 (by omega) more st3 hrec
        · cases hres
    · cases hres

theorem drain_ne_out_of_fuel (env : Env) (clock : Nat → Int) (st : worker_state)
    (events : List Event) (st2 : worker_state) :
    drain env clock st ≠ .out_of_fuel events st2 :=
  drain_loop_fuel env clock _ 0 st (by omega) events st2

theorem drain_loop_reachable (env : Env) (clock : Nat → Int) :
    ∀ (fuel k : Nat) (st : worker_state) (events : List Event) (st2 : worker_state),
      reachable st → drain_loop env clock fuel k st = .done events st2 → reachable st2 := by
  intro fuel
  induction fuel with
  | zero =>
    intro k st events st2 hst hres
    rw [drain_loop] at hres
    split at hres
    · cases hres
    · simp only [drain_result.done.injEq] at hres
      rw [← hres.2]; exact hst
  | succ fuel ih =>
    intro k st events st2 hst hres
    rw [drain_loop] at hres
    split at hres
    · rename_i hpos
      split at hres
      · simp only [drain_result.done.injEq] at hres
        rw [← hres.2]; exact hst
      · cases hres
      · rename_i ev st1 hpass
        have hst1 : reachable st1 := reachable.pass env _ st ev st1 hst hpos hpass
        split at hres
        · split at hres
          · rename_i more st3 hrec
            simp only [drain_result.done.injEq] at hres
            rw [← hres.2]
            exact ih (k + 1) st1 more st3 hst1 hrec
          · cases hres
          · cases hres
        · simp only [drain_result.done.injEq] at hres
          rw [← hres.2]; exact hst1
    · simp only [drain_result.done.injEq] at hres
      rw [← hres.2]; exact hst

/-- The state in which an iteration of the outer loop ends is one of the states
described by `reachable`. -/
theorem worker_iter_reachable (inp : iter_input) (st : worker_state) (trace : List Action)
    (st1 : worker_state) (hst : reachable st) (h : worker_iter inp st = .next trace st1) :
    reachable st1 := by
  unfold worker_iter at h
  split at h
  · cases h
  · split at h
    · cases h
    · simp only [iter_result.next.injEq] at h
      rw [← h.2]; exact hst
    · split at h
      · simp only [iter_result.next.injEq] at h
        rw [← h.2]; exact hst
      · cases h
      · cases h
      · rename_i bytes _
        split at h
        · cases h
        · rename_i hne
          have hread : reachable (store_recv st (bytes.take (recv_len st))) :=
            reachable.read st _ hst hne (by rw [List.length_take]; omega)
          split at h
          · rename_i events st2 hdrain
            simp only [iter_result.next.injEq] at h
            rw [← h.2]
            exact reachable.discard _ (drain_loop_reachable _ _ _ _ _ _ _ hread hdrain)
          · cases h
          · cases h

theorem buffer_of_length (data : List Nat) (h : data.length ≤ BUFFER_SIZE) :
    (buffer_of data).length = BUFFER_SIZE := by
  unfold buffer_of
  rw [List.length_append, List.length_replicate]
  omega

theorem state_of_ok (data : List Nat) (keep_alive : Bool) (h : data.length < BUFFER_SIZE) :
    buffer_ok (state_of data keep_alive) := by
  refine ⟨buffer_of_length data (by omega), ?_, ?_⟩
  · show data.length ≤ BUFFER_SIZE - 1
    omega
  · show (buffer_of data)[data.length]? = some 0
    unfold buffer_of
    rw [List.getElem?_append_right (le_refl _), Nat.sub_self]
    exact List.getElem?_replicate_of_lt (by omega)

theorem drain_iter_of_complete_frame (env : Env) (now : Int) (st : worker_state) (eoh : Nat)
    (h : complete_frame st eoh) :
    ∃ events conn, drain_iter env now st =
      .handled events (cleanup st (total_size st.buffer eoh) conn) := by
  rw [drain_iter_of_frame env now st eoh h]
  cases parse_request st.buffer eoh with
  | none => exact ⟨_, _, rfl⟩
  | some request => exact ⟨_, _, rfl⟩

theorem sent_append (a b : List Event) : sent (a ++ b) = sent a ++ sent b := by
  induction a with
  | nil => rfl
  | cons e a ih => cases e <;> simp [sent, ih]

theorem status_head_congr (v w d : List Nat) (h : cstr v = cstr w) :
    status_head v d ↔ status_head w d := by
  unfold status_head
  rw [h]

theorem status_head_send_error (code : Int) (version : List Nat) (conn : connection_t)
    (hcode : code = 400 ∨ code = 403 ∨ code = 404 ∨ code = 405 ∨ code = 505) :
    status_head version (send_error code version conn) := by
  unfold status_head send_error
  rcases hcode with h | h | h | h | h <;> subst h
  · exact ⟨bytes "400 Bad Request", by decide, ⟨_, by simp only [List.append_assoc]; rfl⟩⟩
  · exact ⟨bytes "403 Forbidden", by decide, ⟨_, by simp only [List.append_assoc]; rfl⟩⟩
  · exact ⟨bytes "404 Not Found", by decide, ⟨_, by simp only [List.append_assoc]; rfl⟩⟩
  · exact ⟨bytes "405 Method Not Allowed", by decide, ⟨_, by simp only [List.append_assoc]; rfl⟩⟩
  · exact ⟨bytes "505 HTTP Version Not Supported", by decide,
      ⟨_, by simp only [List.append_assoc]; rfl⟩⟩

theorem status_head_file_header (version : List Nat) (st_size : Nat) (mime_type : List Nat)
    (conn : connection_t) :
    status_head version (file_header version st_size mime_type conn) := by
  unfold status_head file_header
  exact ⟨bytes "200 OK", by decide, ⟨_, by simp only [List.append_assoc]; rfl⟩⟩

theorem sent_serve_file (env : Env) (full_path : List Nat) (request : http_request_t)
    (conn : connection_t) (d : List Nat)
    (hd : d ∈ sent (serve_file env full_path request conn).1) :
    status_head request.version d := by
  unfold serve_file at hd
  split at hd
  · split at hd
    · simp only [sent, List.mem_singleton] at hd
      subst hd
      exact status_head_send_error _ _ _ (by simp)
    · split at hd
      · simp only [sent, List.mem_singleton] at hd
        subst hd
        exact status_head_send_error _ _ _ (by simp)
      · simp only [sent, List.mem_singleton] at hd
        subst hd
        exact status_head_send_error _ _ _ (by simp)
      · split at hd
        · simp only [sent, List.mem_singleton] at hd
          subst hd
          exact status_head_file_header _ _ _ _
        · unfold sendfile_loop at hd
          split at hd <;>
          · simp only [sent, List.cons_append, List.nil_append, List.append_nil,
              List.mem_singleton] at hd
            subst hd
            exact status_head_file_header _ _ _ _
  · simp [sent] at hd

theorem sent_serve_directory (env : Env) (full_path : List Nat) (request : http_request_t)
    (conn : connection_t) (d : List Nat)
    (hd : d ∈ sent (serve_directory env full_path request conn)) :
    status_head request.version d := by
  unfold serve_directory at hd
  simp only at hd
  split at hd
  · rename_i ev1 h1
    exact sent_serve_file env _ request conn d (by rw [h1]; exact hd)
  · rename_i ev1 h1
    split at hd
    · rename_i ev2 h2
      rw [sent_append, List.mem_append] at hd
      rcases hd with hd | hd
      · exact sent_serve_file env _ request conn d (by rw [h1]; exact hd)
      · exact sent_serve_file env _ request conn d (by rw [h2]; exact hd)
    · rename_i ev2 h2
      rw [sent_append, sent_append, List.mem_append, List.mem_append] at hd
      rcases hd with (hd | hd) | hd
      · exact sent_serve_file env _ request conn d (by rw [h1]; exact hd)
      · exact sent_serve_file env _ request conn d (by rw [h2]; exact hd)
      · simp only [sent, List.mem_singleton] at hd
        subst hd
        exact status_head_send_error _ _ _ (by simp)

theorem sent_handle_request (env : Env) (request : http_request_t) (conn : connection_t)
    (d : List Nat) (hd : d ∈ sent (handle_request env request conn)) :
    status_head request.version d := by
  unfold handle_request at hd
  split at hd
  · simp only [sent, List.mem_singleton] at hd
    subst hd
    exact status_head_send_error _ _ _ (by simp)
  · split at hd
    · simp only [sent, List.mem_singleton] at hd
      subst hd
      exact status_head_send_error _ _ _ (by simp)
    · split at hd
      · simp only [sent, List.mem_singleton] at hd
        subst hd
        exact status_head_send_error _ _ _ (by simp)
      · split at hd
        · simp only [sent, List.mem_singleton] at hd
          subst hd
          exact status_head_send_error _ _ _ (by simp)
        · split at hd
          · simp only [sent, List.mem_singleton] at hd
            subst hd
            exact status_head_send_error _ _ _ (by simp)
          · simp only at hd
            split at hd
            · simp only [sent, List.mem_singleton] at hd
              subst hd
              exact status_head_send_error _ _ _ (by simp)
            · simp only [sent, List.mem_singleton] at hd
              subst hd
              exact status_head_send_error _ _ _ (by simp)
            · simp only [sent, List.mem_singleton] at hd
              subst hd
              exact status_head_send_error _ _ _ (by simp)
            · simp only [sent] at hd
              exact sent_serve_directory env _ request conn d hd
            · simp only [sent] at hd
              exact sent_serve_file env _ request conn d hd
            · simp [sent] at hd

theorem cstr_no_zero (l : List Nat) : 0 ∉ cstr l := by
  unfold cstr
  intro h
  have := List.mem_takeWhile_imp h
  simp at this

theorem cstr_eq_self (l : List Nat) (h : 0 ∉ l) : cstr l = l := by
  unfold cstr
  rw [List.takeWhile_eq_self_iff]
  intro x hx
  have : x ≠ 0 := fun e => h (e ▸ hx)
  simpa using this

theorem strrchr_str_append (a s r : List Nat) (c : Nat) (h : strrchr_str s c = some r) :
    strrchr_str (a ++ s) c = some r := by
  induction a with
  | nil => exact h
  | cons b a ih =>
    show strrchr_str (b :: (a ++ s)) c = some r
    rw [strrchr_str, ih]

theorem get_mime_type_index (dir name ext : List Nat) (hdir : 0 ∉ dir) (hname : 0 ∉ name)
    (hext : strrchr_str name 46 = some ext)
    (hmime : (strcasecmp_eq ext (bytes ".html") || strcmp_eq ext (bytes ".htm")) = true) :
    get_mime_type (dir ++ name) = some (bytes "text/html") := by
  unfold get_mime_type strrchr
  rw [cstr_eq_self _ (by simp [hdir, hname]), strrchr_str_append _ _ _ _ hext]
  simp only [hmime, if_true]

theorem serve_file_ok (env : Env) (full_path : List Nat) (request : http_request_t)
    (conn : connection_t) (n : Nat) (mime_type : List Nat)
    (hstat : env.stat full_path = .regular n)
    (hmime : get_mime_type full_path = some mime_type)
    (hopen : env.open_file full_path = .ok)
    (hsend : env.dprintf_fails (file_header request.version n mime_type conn) = false) :
    serve_file env full_path request conn =
      ([.stat full_path, .open_file full_path,
        .send (file_header request.version n mime_type conn)] ++ sendfile_loop full_path n,
       .APP_OK) := by
  unfold serve_file
  rw [hstat]
  simp only [hmime, hopen, hsend, Bool.false_eq_true, if_false]

theorem serve_file_not_regular (env : Env) (full_path : List Nat) (request : http_request_t)
    (conn : connection_t) (hstat : ∀ n, env.stat full_path ≠ .regular n) :
    serve_file env full_path request conn = ([.stat full_path], .APP_ERR) := by
  unfold serve_file
  split
  · rename_i n h
    exact absurd h (hstat n)
  · rfl

theorem index_paths (full_path : List Nat) (hlen : full_path.length ≤ 516) :
    (if full_path.getLast? ≠ some 47 then strlcat full_path (bytes "/") PATH_MAX_LEN
      else full_path) = full_path ++ index_sep full_path ∧
    strlcat (strlcpy (full_path ++ index_sep full_path) PATH_MAX_LEN)
      (bytes "index.html") PATH_MAX_LEN =
      full_path ++ index_sep full_path ++ bytes "index.html" ∧
    strlcat (strlcpy (full_path ++ index_sep full_path) PATH_MAX_LEN)
      (bytes "index.htm") PATH_MAX_LEN =
      full_path ++ index_sep full_path ++ bytes "index.htm" := by
  have hseplen : (full_path ++ index_sep full_path).length ≤ 517 := by
    unfold index_sep
    split <;> simp <;> omega
  have e1 : (full_path ++ index_sep full_path).take (1024 - 1) =
      full_path ++ index_sep full_path := List.take_of_length_le (by omega)
  refine ⟨?_, ?_, ?_⟩
  · unfold index_sep strlcat PATH_MAX_LEN
    by_cases h : full_path.getLast? = some 47
    · simp [h]
    · simp only [ne_eq, h, not_false_eq_true, if_true, if_false]
      rw [List.take_of_length_le (by simp [bytes]; omega)]
      rfl
  · unfold strlcat strlcpy PATH_MAX_LEN
    have e2 : (bytes "index.html").length = 10 := by decide
    rw [e1, List.take_of_length_le (by rw [List.length_append, e2]; omega)]
  · unfold strlcat strlcpy PATH_MAX_LEN
    have e2 : (bytes "index.htm").length = 9 := by decide
    rw [e1, List.take_of_length_le (by rw [List.length_append, e2]; omega)]

theorem serve_directory_eq (env : Env) (full_path : List Nat) (request : http_request_t)
    (conn : connection_t) (hlen : full_path.length ≤ 516) :
    serve_directory env full_path request conn =
      match serve_file env (full_path ++ index_sep full_path ++ bytes "index.html")
          request conn with
      | (ev1, .APP_OK) => ev1
      | (ev1, .APP_ERR) =>
        match serve_file env (full_path ++ index_sep full_path ++ bytes "index.htm")
            request conn with
        | (ev2, .APP_OK) => ev1 ++ ev2
        | (ev2, .APP_ERR) => ev1 ++ ev2 ++ [.send (send_error 404 request.version conn)] := by
  obtain ⟨h1, h2, h3⟩ := index_paths full_path hlen
  unfold serve_directory
  simp only [h1, h2, h3]

theorem handle_request_resolved (env : Env) (request : http_request_t)
    (conn : connection_t) (hget : cstr request.method = bytes "GET")
    (hver : cstr request.version = bytes "HTTP/1.0" ∨ cstr request.version = bytes "HTTP/1.1")
    (hlen : strlen request.path ≤ 511)
    (hdd : ¬ bytes ".." <:+: cstr request.path) :
    handle_request env request conn =
      match env.stat (DOCUMENT_ROOT ++ cstr request.path) with
      | .enoent => [.stat (DOCUMENT_ROOT ++ cstr request.path),
          .send (send_error 404 request.version conn)]
      | .eacces => [.stat (DOCUMENT_ROOT ++ cstr request.path),
          .send (send_error 403 request.version conn)]
      | .failure => [.stat (DOCUMENT_ROOT ++ cstr request.path),
          .send (send_error 400 request.version conn)]
      | .directory => .stat (DOCUMENT_ROOT ++ cstr request.path) ::
          serve_directory env (DOCUMENT_ROOT ++ cstr request.path) request conn
      | .regular _ => .stat (DOCUMENT_ROOT ++ cstr request.path) ::
          (serve_file env (DOCUMENT_ROOT ++ cstr request.path) request conn).1
      | .other_type => [.stat (DOCUMENT_ROOT ++ cstr request.path)] := by
  have hm : strcmp_eq request.method (bytes "GET") = true := by
    rw [strcmp_eq_iff, cstr_bytes_GET]
    exact hget
  have hv : (!strcmp_eq request.version (bytes "HTTP/1.0") &&
      !strcmp_eq request.version (bytes "HTTP/1.1")) = false := by
    rcases hver with h | h
    · have : strcmp_eq request.version (bytes "HTTP/1.0") = true := by
        rw [strcmp_eq_iff, cstr_bytes_HTTP10]; exact h
      simp [this]
    · have : strcmp_eq request.version (bytes "HTTP/1.1") = true := by
        rw [strcmp_eq_iff, cstr_bytes_HTTP11]; exact h
      simp [this]
  have hfind : (find_substr request.path (strlen request.path) (bytes "..")).isSome = false := by
    cases hf : find_substr request.path (strlen request.path) (bytes "..") with
    | none => rfl
    | some r =>
      exfalso
      apply hdd
      have := find_substr_eq_none_iff (bytes "..") request.path (strlen request.path) (by decide)
      rw [take_strlen] at this
      by_contra hc
      rw [this.mpr hc] at hf
      cases hf
  have hshort : ¬ (strlen request.path ≥ PATH_MAX_LEN - strlen DOCUMENT_ROOT - 1) := by
    rw [strlen_DOCUMENT_ROOT]
    unfold PATH_MAX_LEN
    omega
  have hfit : ¬ ((DOCUMENT_ROOT ++ cstr request.path).length ≥ PATH_MAX_LEN) := by
    have hroot : DOCUMENT_ROOT.length = 5 := by decide
    rw [List.length_append, hroot]
    unfold strlen at hlen
    unfold PATH_MAX_LEN
    omega
  unfold handle_request
  rw [hm, hv]
  simp only [Bool.not_true, Bool.false_eq_true, if_false, if_neg hshort, hfind, if_neg hfit]

/-! ### Frames at the front of a longer buffer -/

theorem take_drop_append (f rest : List Nat) (j m : Nat) (h : j + m ≤ f.length) :
    ((f ++ rest).drop j).take m = (f.drop j).take m := by
  rw [List.drop_append_of_le_length (by omega),
    List.take_append_of_le_length (by rw [List.length_drop]; omega)]

theorem first_at_append (sub f rest : List Nat) (i : Nat) (h : first_at sub f i)
    (hi : i + sub.length ≤ f.length) : first_at sub (f ++ rest) i := by
  refine ⟨?_, fun j hj => ?_⟩
  · rw [take_drop_append _ _ _ _ hi]
    exact h.1
  · rw [take_drop_append _ _ _ _ (by omega)]
    exact h.2 j hj

theorem request_line_append (f rest : List Nat) (eoh : Nat) (method target version : List Nat)
    (h : request_line f eoh method target version) :
    request_line (f ++ rest) eoh method target version :=
  ⟨h.starts.trans (List.prefix_append f rest), h.method_sp, h.target_sp, h.version_crlf,
    h.inside⟩

theorem connection_decides_append (f rest : List Nat) (flag : Bool)
    (h : connection_decides f f.length flag) :
    connection_decides (f ++ rest) f.length flag := by
  cases h with
  | absent h =>
    refine .absent ?_
    rw [List.take_left']
    · rwa [List.take_length] at h
    · rfl
  | present k junk ws value x tail hfirst hpre hj1 hj0 hws hval hx hcrlf hin =>
    have h10 : (bytes "Connection").length = 10 := by decide
    refine .present k junk ws value x tail
      (first_at_append _ _ _ _ hfirst (by rw [h10]; omega)) ?_ hj1 hj0 hws hval hx hcrlf hin
    rw [List.drop_append_of_le_length (by omega)]
    exact hpre.trans (List.prefix_append _ _)

theorem find_substr_isSome_iff (sub mem : List Nat) (len : Nat) (hsub : sub ≠ []) :
    (find_substr mem len sub).isSome = true ↔ sub <:+: mem.take len := by
  rw [← not_iff_not, ← find_substr_eq_none_iff sub mem len hsub]
  cases find_substr mem len sub <;> simp

theorem file_header_congr (v w : List Nat) (n : Nat) (mime_type : List Nat)
    (conn : connection_t) (h : cstr v = cstr w) :
    file_header v n mime_type conn = file_header w n mime_type conn := by
  unfold file_header
  rw [h]

theorem serve_file_congr (env : Env) (full_path : List Nat) (r1 r2 : http_request_t)
    (conn : connection_t) (hv : cstr r1.version = cstr r2.version) :
    serve_file env full_path r1 conn = serve_file env full_path r2 conn := by
  unfold serve_file
  simp only [send_error_congr _ _ _ conn hv, file_header_congr _ _ _ _ conn hv]

theorem serve_directory_congr (env : Env) (full_path : List Nat) (r1 r2 : http_request_t)
    (conn : connection_t) (hv : cstr r1.version = cstr r2.version) :
    serve_directory env full_path r1 conn = serve_directory env full_path r2 conn := by
  unfold serve_directory
  simp only [serve_file_congr env _ r1 r2 conn hv, send_error_congr _ _ _ conn hv]

theorem handle_request_congr (env : Env) (r1 r2 : http_request_t) (conn : connection_t)
    (hm : cstr r1.method = cstr r2.method) (hp : cstr r1.path = cstr r2.path)
    (hv : cstr r1.version = cstr r2.version) :
    handle_request env r1 conn = handle_request env r2 conn := by
  have e1 : ∀ s, strcmp_eq r1.method s = strcmp_eq r2.method s := by
    intro s; unfold strcmp_eq; rw [hm]
  have e2 : ∀ s, strcmp_eq r1.version s = strcmp_eq r2.version s := by
    intro s; unfold strcmp_eq; rw [hv]
  have e3 : strlen r1.path = strlen r2.path := by
    unfold strlen; rw [hp]
  have e4 : (find_substr r1.path (strlen r1.path) (bytes "..")).isSome =
      (find_substr r2.path (strlen r2.path) (bytes "..")).isSome := by
    rw [Bool.eq_iff_iff, find_substr_isSome_iff _ _ _ (by decide),
      find_substr_isSome_iff _ _ _ (by decide), take_strlen, take_strlen, hp]
  rw [e3] at e4
  unfold handle_request
  simp only [e1, e2, e3, e4, hp, send_error_congr _ _ _ conn hv,
    serve_file_congr env _ r1 r2 conn hv, serve_directory_congr env _ r1 r2 conn hv]

theorem buffer_of_starts (f : List Nat) : f <+: (state_of f false).buffer :=
  List.prefix_append _ _

theorem drain_loop_empty (env : Env) (clock : Nat → Int) (fuel k : Nat) (st : worker_state)
    (h : st.buffer_len = 0) : drain_loop env clock fuel k st = .done [] st := by
  cases fuel <;> simp [drain_loop, h]

/-! ### The extent of the end-of-headers scan -/

theorem eoh_extent_le (bound : Nat) :
    ∀ (mem : List Nat) (i extent : Nat), extent ≤ bound + 3 →
      eoh_extent bound mem i extent ≤ bound + 3 := by
  intro mem
  induction mem with
  | nil =>
    intro i extent h
    unfold eoh_extent
    split <;> omega
  | cons b0 rest ih =>
    intro i extent h
    unfold eoh_extent
    repeat' split
    all_goals first
      | omega
      | exact ih _ _ (by omega)

/-- With at least three live bytes the scan reads live bytes only. -/
theorem find_eoh_extent_le (buffer : List Nat) (buffer_len : Nat) (h3 : 3 ≤ buffer_len)
    (hlt : buffer_len < 2 ^ 64) : find_eoh_extent buffer buffer_len ≤ buffer_len := by
  unfold find_eoh_extent
  have e : (2 : Nat) ^ 64 = 18446744073709551616 := by norm_num
  have hb : (buffer_len + 2 ^ 64 - 3) % 2 ^ 64 = buffer_len - 3 := by
    rw [e] at hlt ⊢
    omega
  rw [hb]
  have := eoh_extent_le (buffer_len - 3) buffer 0 0 (by omega)
  omega

/-- A scan that reads behind the array has an extent beyond the array. -/
theorem extent_of_out_of_bounds (bound : Nat) :
    ∀ (mem : List Nat) (i extent : Nat), find_eoh_loop bound mem i = .out_of_bounds →
      i + mem.length < eoh_extent bound mem i extent := by
  intro mem
  induction mem with
  | nil =>
    intro i extent h
    unfold find_eoh_loop at h
    unfold eoh_extent
    split at h
    · rename_i hb
      rw [if_pos hb]
      simp
    · cases h
  | cons b0 rest ih =>
    intro i extent h
    have hstep : ∀ e, find_eoh_loop bound rest (i + 1) = .out_of_bounds →
        i + (b0 :: rest).length < eoh_extent bound rest (i + 1) e := by
      intro e hr
      have := ih (i + 1) e hr
      simp only [List.length_cons]
      omega
    by_cases hb : i < bound
    · by_cases h0 : b0 = 13
      · subst h0
        cases rest with
        | nil =>
          simp [eoh_extent, hb]
        | cons b1 rest1 =>
          by_cases h1 : b1 = 10
          · subst h1
            cases rest1 with
            | nil => simp [eoh_extent, hb]
            | cons b2 rest2 =>
              by_cases h2 : b2 = 13
              · subst h2
                cases rest2 with
                | nil => simp [eoh_extent, hb]
                | cons b3 rest3 =>
                  by_cases h3 : b3 = 10
                  · subst h3
                    unfold find_eoh_loop at h
                    simp [hb] at h
                  · unfold find_eoh_loop at h
                    unfold eoh_extent
                    simp only [hb, h3, if_true, if_false] at h ⊢
                    exact hstep _ h
              · unfold find_eoh_loop at h
                unfold eoh_extent
                simp only [hb, h2, if_true, if_false] at h ⊢
                exact hstep _ h
          · unfold find_eoh_loop at h
            unfold eoh_extent
            simp only [hb, h1, if_true, if_false] at h ⊢
            exact hstep _ h
      · unfold find_eoh_loop at h
        unfold eoh_extent
        simp only [hb, h0, if_true, if_false] at h ⊢
        exact hstep _ h
    · unfold find_eoh_loop at h
      simp only [hb, if_false] at h
      cases h

theorem find_eoh_extent_of_out_of_bounds (buffer : List Nat) (buffer_len : Nat)
    (h : find_eoh buffer buffer_len = .out_of_bounds) :
    buffer.length < find_eoh_extent buffer buffer_len := by
  have := extent_of_out_of_bounds _ buffer 0 0 h
  unfold find_eoh_extent
  omega

/-! ### The rule for `keep_alive` on every header region -/

theorem first_occurrence_some (sub : List Nat) :
    ∀ (l : List Nat) (k : Nat), first_occurrence sub l = some k →
      first_at sub l k ∧ k + sub.length ≤ l.length := by
  intro l
  induction l with
  | nil => intro k h; simp [first_occurrence] at h
  | cons b rest ih =>
    intro k h
    unfold first_occurrence at h
    split at h
    · rename_i heq
      simp only [Option.some.injEq] at h
      subst h
      refine ⟨⟨by simpa using heq, fun j hj => by omega⟩, ?_⟩
      have := congrArg List.length heq
      rw [List.length_take] at this
      omega
    · rename_i hne
      cases hr : first_occurrence sub rest with
      | none => rw [hr] at h; simp at h
      | some i =>
        rw [hr] at h
        simp only [Option.map_some', Option.some.injEq] at h
        subst h
        obtain ⟨hfirst, hlen⟩ := ih i hr
        refine ⟨⟨by simpa using hfirst.1, fun j hj => ?_⟩, by simp; omega⟩
        cases j with
        | zero => simpa using hne
        | succ j => simpa using hfirst.2 j (by omega)

theorem first_occurrence_none (sub : List Nat) (hsub : sub ≠ []) :
    ∀ (l : List Nat), first_occurrence sub l = none → ¬ sub <:+: l := by
  intro l
  induction l with
  | nil =>
    intro _ h
    exact hsub (List.eq_nil_of_infix_nil h)
  | cons b rest ih =>
    intro h hin
    unfold first_occurrence at h
    split at h
    · cases h
    · rename_i hne
      cases hr : first_occurrence sub rest with
      | some i => rw [hr] at h; simp at h
      | none =>
        rcases List.infix_cons_iff.mp hin with hp | hi
        · exact hne (List.prefix_iff_eq_take.mp hp).symm
        · exact ih hr hi

theorem strchr_ge (c : Nat) :
    ∀ (a rest : List Nat) (j : Nat), (∀ b ∈ a, b ≠ c) → strchr (a ++ rest) c = some j →
      a.length ≤ j
  | [], _, j, _, _ => by simp
  | x :: a, rest, j, ha, h => by
    have hx : x ≠ c := ha x (by simp)
    rw [List.cons_append, strchr, if_neg hx] at h
    split at h
    · cases h
    · cases hr : strchr (a ++ rest) c with
      | none => rw [hr] at h; simp at h
      | some i =>
        rw [hr] at h
        simp only [Option.map_some', Option.some.injEq] at h
        have := strchr_ge c a rest i (fun b hb => ha b (by simp [hb])) hr
        simp only [List.length_cons]
        omega

theorem strchr_zero (c : Nat) (hc : c ≠ 0) :
    ∀ (a rest : List Nat), (∀ b ∈ a, b ≠ c) → strchr (a ++ 0 :: rest) c = none
  | [], rest, _ => by
    rw [List.nil_append, strchr, if_neg (Ne.symm hc), if_pos rfl]
  | x :: a, rest, ha => by
    have hx : x ≠ c := ha x (by simp)
    rw [List.cons_append, strchr, if_neg hx]
    split
    · rfl
    · rw [strchr_zero c hc a rest (fun b hb => ha b (by simp [hb]))]
      rfl

theorem strchr_append_lt (c : Nat) :
    ∀ (a x y : List Nat) (k : Nat), strchr (a ++ x) c = some k → k < a.length →
      strchr (a ++ y) c = some k
  | [], _, _, k, _, hk => by simp at hk
  | b :: a, x, y, k, h, hk => by
    rw [List.cons_append, strchr] at h ⊢
    split at h
    · rename_i hb
      rw [if_pos hb]
      exact h
    · rename_i hb
      rw [if_neg hb]
      split at h
      · cases h
      · rename_i hb0
        rw [if_neg hb0]
        cases hr : strchr (a ++ x) c with
        | none => rw [hr] at h; simp at h
        | some i =>
          rw [hr] at h
          simp only [Option.map_some', Option.some.injEq] at h
          subst h
          rw [strchr_append_lt c a x y i hr (by simp at hk; omega)]
          rfl

theorem strchr_behind_zero (c : Nat) (hc : c ≠ 0) :
    ∀ (a x y : List Nat), strchr (a ++ 0 :: x) c = strchr (a ++ 0 :: y) c
  | [], x, y => by
    rw [List.nil_append, List.nil_append, strchr, strchr, if_neg (Ne.symm hc),
      if_neg (Ne.symm hc), if_pos rfl, if_pos rfl]
  | b :: a, x, y => by
    rw [List.cons_append, List.cons_append, strchr, strchr, strchr_behind_zero c hc a x y]

theorem skip_space_all (header_end : Nat) :
    ∀ (ws rest : List Nat) (field_start : Nat), (∀ b ∈ ws, isspace b = true) →
      field_start + ws.length = header_end →
      skip_space (ws ++ rest) field_start header_end = header_end
  | [], [], fs, _, h => by simpa [skip_space] using h
  | [], x :: rest, fs, _, h => by
    have h' : fs = header_end := by simpa using h
    subst h'
    simp [skip_space]
  | w :: ws, rest, fs, hws, h => by
    have hw : isspace w = true := hws w (by simp)
    have hlt : fs < header_end := by simp at h; omega
    rw [List.cons_append, skip_space]
    simp only [hw, hlt, decide_True, Bool.and_self, if_true]
    exact skip_space_all header_end ws rest (fs + 1) (fun b hb => hws b (by simp [hb]))
      (by simp at h; omega)

theorem dropWhile_head (p : Nat → Bool) :
    ∀ (l : List Nat) (x : Nat) (r : List Nat), l.dropWhile p = x :: r → p x = false
  | [], _, _, h => by simp at h
  | b :: l, x, r, h => by
    rw [List.dropWhile_cons] at h
    split at h
    · exact dropWhile_head p l x r h
    · rename_i hb
      simp only [List.cons.injEq] at h
      rw [← h.1]
      simpa using hb

theorem find_header_value_no_colon (buffer : List Nat) (eoh k : Nat) (name dest : List Nat)
    (n : Nat) (hfind : find_substr buffer eoh name = some k) (hk : k < eoh)
    (h : ∀ j, strchr (buffer.drop k) 58 = some j → eoh ≤ k + j) :
    find_header_value buffer eoh name dest n = dest := by
  unfold find_header_value
  rw [hfind]
  simp only [if_pos hk]
  cases hs : strchr (buffer.drop k) 58 with
  | none => rfl
  | some j =>
    have := h j hs
    simp only [if_neg (show ¬ k + j < eoh by omega)]

theorem find_header_value_no_value (buffer : List Nat) (eoh k j : Nat) (name dest : List Nat)
    (n : Nat) (hfind : find_substr buffer eoh name = some k) (hk : k < eoh)
    (hs : strchr (buffer.drop k) 58 = some j) (hj : k + j < eoh)
    (hskip : ¬ skip_space (buffer.drop (k + j + 1)) (k + j + 1) eoh < eoh) :
    find_header_value buffer eoh name dest n = dest := by
  unfold find_header_value
  rw [hfind]
  simp only [if_pos hk, hs, if_pos hj, if_neg hskip]

theorem find_header_value_no_crlf (buffer : List Nat) (eoh k j : Nat) (name dest : List Nat)
    (n : Nat) (hfind : find_substr buffer eoh name = some k) (hk : k < eoh)
    (hs : strchr (buffer.drop k) 58 = some j) (hj : k + j < eoh)
    (hskip : skip_space (buffer.drop (k + j + 1)) (k + j + 1) eoh < eoh)
    (hcrlf : find_substr (buffer.drop (skip_space (buffer.drop (k + j + 1)) (k + j + 1) eoh))
      (eoh - skip_space (buffer.drop (k + j + 1)) (k + j + 1) eoh) [13, 10] = none) :
    find_header_value buffer eoh name dest n = dest := by
  unfold find_header_value
  rw [hfind]
  simp only [if_pos hk, hs, if_pos hj, if_pos hskip, hcrlf]

theorem find_header_value_value (buffer : List Nat) (eoh k j i : Nat) (name dest : List Nat)
    (n : Nat) (hfind : find_substr buffer eoh name = some k) (hk : k < eoh)
    (hs : strchr (buffer.drop k) 58 = some j) (hj : k + j < eoh)
    (hskip : skip_space (buffer.drop (k + j + 1)) (k + j + 1) eoh < eoh)
    (hcrlf : find_substr (buffer.drop (skip_space (buffer.drop (k + j + 1)) (k + j + 1) eoh))
      (eoh - skip_space (buffer.drop (k + j + 1)) (k + j + 1) eoh) [13, 10] = some i)
    (hi : skip_space (buffer.drop (k + j + 1)) (k + j + 1) eoh + i < eoh) :
    find_header_value buffer eoh name dest n =
      store_str dest (buffer.drop (skip_space (buffer.drop (k + j + 1)) (k + j + 1) eoh))
        (clamp_len i n) := by
  unfold find_header_value
  rw [hfind]
  simp only [if_pos hk, hs, if_pos hj, if_pos hskip, hcrlf, if_pos hi]

/-- The lookup of `Connection` for every header region: the destination keeps
its contents when the rule gives no value, and holds the first 31 bytes of the
value otherwise. -/
theorem connection_lookup (region tail dest : List Nat) :
    cstr (find_header_value (region ++ tail) region.length (bytes "Connection") dest 32) =
      match connection_value region with
      | none => cstr dest
      | some value => cstr (value.take 31) := by
  have h10 : (bytes "Connection").length = 10 := by decide
  unfold connection_value
  cases hfo : first_occurrence (bytes "Connection") region with
  | none =>
    simp only
    rw [find_header_value_absent _ _ _ _ _ (by decide)
      (by rw [List.take_left' rfl]; exact first_occurrence_none _ (by decide) _ hfo)]
  | some k =>
    simp only
    obtain ⟨hfirst, hk⟩ := first_occurrence_some _ _ _ hfo
    rw [h10] at hk
    have hfind : find_substr (region ++ tail) region.length (bytes "Connection") = some k :=
      find_substr_first _ _ _ _ (by decide)
        (first_at_append _ _ _ _ hfirst (by rw [h10]; omega)) (by rw [h10]; omega)
    have hklt : k < region.length := by omega
    have hdrop : (region ++ tail).drop k = region.drop k ++ tail :=
      List.drop_append_of_le_length (by omega)
    obtain ⟨pre, post, hsplit, hpre, hpost⟩ : ∃ pre post, region.drop k = pre ++ post ∧
        (∀ b ∈ pre, b ≠ 58 ∧ b ≠ 0) ∧
        (region.drop k).dropWhile (fun b => b != 58 && b != 0) = post := by
      refine ⟨_, _, (List.takeWhile_append_dropWhile _ _).symm, ?_, rfl⟩
      intro b hb
      have := List.mem_takeWhile_imp hb
      simpa using this
    have hlen : pre.length + post.length = region.length - k := by
      rw [← List.length_append, ← hsplit, List.length_drop]
    rw [hpost]
    cases post with
    | nil =>
      simp only
      rw [List.append_nil] at hsplit
      rw [List.length_nil] at hlen
      rw [find_header_value_no_colon _ _ k _ _ _ hfind hklt]
      intro j hj
      rw [hdrop, hsplit] at hj
      have := strchr_ge 58 _ _ j (fun b hb => (hpre b hb).1) hj
      omega
    | cons b rest =>
      simp only [List.length_cons] at hlen
      by_cases hb : b = 58
      · subst hb
        simp only [if_true]
        have hs : strchr ((region ++ tail).drop k) 58 = some pre.length := by
          rw [hdrop, hsplit, List.append_assoc, List.cons_append]
          exact strchr_first 58 (by decide) _ _ (fun h => (hpre 58 h).1 rfl)
            (fun h => (hpre 0 h).2 rfl)
        have hj : k + pre.length < region.length := by omega
        have hdrop1 : (region ++ tail).drop (k + pre.length + 1) = rest ++ tail := by
          have e : region.drop (k + pre.length + 1) = rest := by
            rw [Nat.add_assoc, ← List.drop_drop, hsplit, List.drop_append]
            rfl
          rw [List.drop_append_of_le_length (by omega), e]
        obtain ⟨ws, value_on, hws, hwsp, hvon⟩ : ∃ ws value_on, rest = ws ++ value_on ∧
            (∀ b ∈ ws, isspace b = true) ∧ rest.dropWhile isspace = value_on :=
          ⟨_, _, (List.takeWhile_append_dropWhile _ _).symm,
            fun b hb => List.mem_takeWhile_imp hb, rfl⟩
        have hwl : ws.length + value_on.length = rest.length := by
          rw [← List.length_append, ← hws]
        rw [hvon]
        cases value_on with
        | nil =>
          rw [List.append_nil] at hws
          rw [List.length_nil] at hwl
          have hskip : skip_space ((region ++ tail).drop (k + pre.length + 1))
              (k + pre.length + 1) region.length = region.length := by
            rw [hdrop1, hws]
            exact skip_space_all _ _ _ _ hwsp (by omega)
          rw [find_header_value_no_value _ _ k pre.length _ _ _ hfind hklt hs hj
            (by rw [hskip]; omega)]
          rfl
        | cons x vt =>
          simp only [List.length_cons] at hwl
          have hx : isspace x = false := dropWhile_head isspace rest x vt hvon
          have hskip : skip_space ((region ++ tail).drop (k + pre.length + 1))
              (k + pre.length + 1) region.length = k + pre.length + 1 + ws.length := by
            rw [hdrop1, hws, List.append_assoc, List.cons_append]
            exact skip_space_run _ _ _ _ _ hwsp hx (by omega)
          have hfs : k + pre.length + 1 + ws.length < region.length := by omega
          have hdrop2 : (region ++ tail).drop (k + pre.length + 1 + ws.length) =
              (x :: vt) ++ tail := by
            rw [← List.drop_drop, hdrop1, hws, List.append_assoc, List.drop_left]
          have hvl : (x :: vt).length = region.length - (k + pre.length + 1 + ws.length) := by
            simp only [List.length_cons]
            omega
          cases hc : first_occurrence [13, 10] (x :: vt) with
          | none =>
            have hnone : find_substr ((region ++ tail).drop (k + pre.length + 1 + ws.length))
                (region.length - (k + pre.length + 1 + ws.length)) [13, 10] = none := by
              rw [find_substr_eq_none_iff _ _ _ (by decide), hdrop2, ← hvl,
                List.take_left' rfl]
              exact first_occurrence_none _ (by decide) _ hc
            rw [find_header_value_no_crlf _ _ k pre.length _ _ _ hfind hklt hs hj
              (by rw [hskip]; exact hfs) (by rw [hskip]; exact hnone)]
          | some i =>
            obtain ⟨hcf, hci⟩ := first_occurrence_some _ _ _ hc
            have h2 : ([13, 10] : List Nat).length = 2 := rfl
            rw [h2] at hci
            have hsome : find_substr ((region ++ tail).drop (k + pre.length + 1 + ws.length))
                (region.length - (k + pre.length + 1 + ws.length)) [13, 10] = some i := by
              rw [hdrop2]
              exact find_substr_first _ _ _ _ (by decide)
                (first_at_append _ _ _ _ hcf (by rw [h2]; exact hci))
                (by rw [h2, ← hvl]; exact hci)
            rw [find_header_value_value _ _ k pre.length i _ _ _ hfind hklt hs hj
              (by rw [hskip]; exact hfs) (by rw [hskip]; exact hsome)
              (by rw [hskip]; omega)]
            rw [hskip, hdrop2, cstr_store_str]
            have e : (x :: vt) ++ tail = (x :: vt).take i ++ ((x :: vt).drop i ++ tail) := by
              rw [← List.append_assoc, List.take_append_drop]
            have el : ((x :: vt).take i).length = i := by
              rw [List.length_take]
              omega
            rw [e]
            nth_rewrite 1 [← el]
            rw [take_clamp_len _ _ 32 (by omega)]
      · have hp := dropWhile_head _ _ b rest hpost
        have hb0 : b = 0 := by
          by_contra h0
          simp [hb, h0] at hp
        subst hb0
        simp only [if_neg hb]
        rw [find_header_value_no_colon _ _ k _ _ _ hfind hklt]
        intro j hj
        rw [hdrop, hsplit, List.append_assoc, List.cons_append,
          strchr_zero 58 (by decide) _ _ (fun b hb => (hpre b hb).1)] at hj
        cases hj

/-- The flag computed from the destination of the lookup is the flag of the
rule. -/
theorem connection_flag_lookup (region tail : List Nat) :
    strcasecmp_eq
      (find_header_value (region ++ tail) region.length (bytes "Connection")
        request_zero.connection 32) (bytes "keep-alive") = connection_flag region := by
  have h := connection_lookup region tail request_zero.connection
  unfold connection_flag
  cases hv : connection_value region with
  | none =>
    rw [hv] at h
    simp only at h ⊢
    rw [strcasecmp_eq_congr _ _ _ h]
    decide
  | some value =>
    rw [hv] at h
    simp only at h ⊢
    rw [strcasecmp_eq_congr _ _ _ h, strcasecmp_eq_take _ _ 31 (by decide)]

/-! ### The body length of a frame in different surroundings -/

theorem find_substr_append (f x sub : List Nat) (hsub : sub ≠ []) :
    find_substr (f ++ x) f.length sub = find_substr f f.length sub := by
  cases h : find_substr f f.length sub with
  | none =>
    rw [find_substr_eq_none_iff _ _ _ hsub] at h ⊢
    rw [List.take_left' rfl]
    rwa [List.take_length] at h
  | some r =>
    obtain ⟨hr, hfirst⟩ := find_substr_some _ _ _ _ h
    exact find_substr_first _ _ _ _ hsub (first_at_append _ _ _ _ hfirst hr) hr

theorem try_conv_long_congr (a b : List Nat) (h : cstr a = cstr b) :
    try_conv_long a = try_conv_long b := by
  unfold try_conv_long
  rw [h]

/-- A text that `try_conv_long` accepts ends, before its terminating zero, with
a digit. -/
theorem try_conv_long_last_digit (str : List Nat) (v : Int) (h : try_conv_long str = some v) :
    ∃ d, (cstr str).getLast? = some d ∧ isdigit d = true := by
  unfold try_conv_long at h
  simp only at h
  generalize hs1 : (if (((cstr str).dropWhile isspace).head? == some 45 ||
      ((cstr str).dropWhile isspace).head? == some 43) = true
    then ((cstr str).dropWhile isspace).drop 1
    else (cstr str).dropWhile isspace) = s1 at h
  have hsuf : s1 <:+ cstr str := by
    rw [← hs1]
    split
    · exact (List.drop_suffix _ _).trans (List.dropWhile_suffix _)
    · exact List.dropWhile_suffix _
  by_cases hds : s1.takeWhile isdigit = []
  · rw [if_pos hds] at h
    simp at h
  · by_cases hend : s1.dropWhile isdigit = []
    · have hne : s1 ≠ [] := by
        intro hnil
        apply hds
        rw [hnil]
        rfl
      have hall := List.dropWhile_eq_nil_iff.mp hend
      obtain ⟨t, ht⟩ := hsuf
      cases hl : s1.getLast? with
      | none => exact absurd (List.getLast?_eq_none_iff.mp hl) hne
      | some d =>
        refine ⟨d, ?_, hall d (List.mem_of_getLast?_eq_some hl)⟩
        rw [← ht, List.getLast?_append_of_ne_nil _ hne, hl]
    · rw [if_neg hds, if_pos hend] at h
      simp at h

theorem cstr_append_of_zero_mem : ∀ (a b : List Nat), 0 ∈ a → cstr (a ++ b) = cstr a
  | [], _, h => by simp at h
  | x :: a, b, h => by
    by_cases hx : x = 0
    · subst hx
      simp [cstr]
    · have ha : 0 ∈ a := by
        rcases List.mem_cons.mp h with h0 | h0
        · exact absurd h0.symm hx
        · exact h0
      have ih := cstr_append_of_zero_mem a b ha
      unfold cstr at ih ⊢
      simp [hx, ih]

/-- The body length extracted for a frame does not depend on the bytes behind
a zero byte that follows the frame. -/
theorem content_length_behind_zero (f x y : List Nat) :
    content_length (f ++ 0 :: x) f.length = content_length (f ++ 0 :: y) f.length := by
  unfold content_length
  rw [find_substr_append _ _ _ (by decide), find_substr_append _ _ _ (by decide)]
  cases find_substr f f.length (bytes "Content-Length") with
  | none => rfl
  | some cl =>
    simp only
    by_cases hcl : cl < f.length
    · simp only [if_pos hcl]
      rw [List.drop_append_of_le_length (by omega), List.drop_append_of_le_length (by omega),
        strchr_behind_zero 58 (by decide) _ x y]
      cases strchr (f.drop cl ++ 0 :: y) 58 with
      | none => rfl
      | some k =>
        simp only
        by_cases hk : cl + k < f.length
        · simp only [if_pos hk]
          rw [List.drop_append_of_le_length (by omega),
            List.drop_append_of_le_length (by omega),
            try_conv_long_congr (f.drop (cl + k + 1) ++ 0 :: x) (f.drop (cl + k + 1) ++ 0 :: y)
              (by rw [cstr_append_zero, cstr_append_zero])]
        · simp only [if_neg hk]
    · simp only [if_neg hcl]

/-- A frame that ends with a line feed and has no body length where it stands
has none when it stands alone, followed by a zero byte. -/
theorem content_length_alone (f r z : List Nat) (hlast : f.getLast? = some 10)
    (h : content_length (f ++ r) f.length = 0) :
    content_length (f ++ 0 :: z) f.length = 0 := by
  unfold content_length at h ⊢
  rw [find_substr_append _ _ _ (by decide)] at h ⊢
  cases hf : find_substr f f.length (bytes "Content-Length") with
  | none => rfl
  | some cl =>
    rw [hf] at h
    simp only at h ⊢
    by_cases hcl : cl < f.length
    · simp only [if_pos hcl] at h ⊢
      rw [List.drop_append_of_le_length (by omega)] at h ⊢
      cases hs : strchr (f.drop cl ++ 0 :: z) 58 with
      | none => rfl
      | some k =>
        simp only
        by_cases hk : cl + k < f.length
        · simp only [if_pos hk]
          rw [strchr_append_lt 58 _ _ r k hs (by rw [List.length_drop]; omega)] at h
          simp only [if_pos hk] at h
          rw [List.drop_append_of_le_length (by omega)] at h ⊢
          cases ht : try_conv_long (f.drop (cl + k + 1) ++ 0 :: z) with
          | none => rfl
          | some v =>
            obtain ⟨d, hd, hdig⟩ := try_conv_long_last_digit _ _ ht
            rw [cstr_append_zero] at hd
            by_cases h0 : 0 ∈ f.drop (cl + k + 1)
            · rw [try_conv_long_congr (f.drop (cl + k + 1) ++ r)
                (f.drop (cl + k + 1) ++ 0 :: z)
                (by rw [cstr_append_zero, cstr_append_of_zero_mem _ _ h0]), ht] at h
              exact h
            · exfalso
              rw [cstr_eq_self _ h0, List.getLast?_drop] at hd
              split at hd
              · cases hd
              · rw [hlast] at hd
                simp only [Option.some.injEq] at hd
                subst hd
                simp [isdigit] at hdig
        · simp only [if_neg hk]
    · simp only [if_neg hcl]

theorem flag_of_parsed (env : Env) (now : Int) (st : worker_state) (eoh : Nat)
    (request : http_request_t) (hframe : complete_frame st eoh)
    (hparse : parse_request st.buffer eoh = some request) :
    flag_of (drain_iter env now st) = some (connection_flag (st.buffer.take eoh)) := by
  have hlen : (st.buffer.take eoh).length = eoh := by
    have h4 := congrArg List.length hframe.eoh_first.1
    have hge := hframe.eoh_ge
    simp only [List.length_take, List.length_drop, List.length_cons, List.length_nil] at h4
    rw [List.length_take]
    omega
  rw [flag_of_drain_iter env now st eoh request hframe hparse,
    parse_request_connection _ _ _ hparse]
  have h := connection_flag_lookup (st.buffer.take eoh) (st.buffer.drop eoh)
  rw [List.take_append_drop, hlen] at h
  rw [h]

theorem split_at_zero (l f : List Nat) (htake : l.take f.length = f)
    (hz : l[f.length]? = some 0) : l = f ++ 0 :: l.drop (f.length + 1) := by
  obtain ⟨hlt, hval⟩ := List.getElem?_eq_some.mp hz
  have h := List.take_append_drop f.length l
  rw [htake, List.drop_eq_getElem_cons hlt, hval] at h
  exact h.symm

theorem get_frame_last (f target version : List Nat) (hf : get_frame f target version) :
    f.getLast? = some 10 := by
  have h : (f.drop (f.length - 4)).take 4 = [13, 10, 13, 10] := hf.ends.1
  have hge := hf.len_ge
  have hl : (f.drop (f.length - 4)).length = 4 := by
    rw [List.length_drop]
    omega
  rw [List.take_of_length_le (by omega)] at h
  have e := List.take_append_drop (f.length - 4) f
  rw [h] at e
  rw [← e, List.getLast?_append_of_ne_nil _ (by simp)]
  rfl

/-- A pass over a buffer that begins with a `GET` frame for which no body
length is extracted. -/
theorem pass_of_get_frame (env : Env) (now : Int) (st : worker_state)
    (f target version : List Nat) (hf : get_frame f target version)
    (hcl : content_length st.buffer f.length = 0)
    (hpre : f <+: st.buffer) (hle : f.length ≤ st.buffer_len)
    (hlt : st.buffer_len < BUFFER_SIZE) :
    ∃ request, cstr request.method = cstr ((bytes "GET").take 15) ∧
      cstr request.path = cstr (target.take 511) ∧
      cstr request.version = cstr (version.take 15) ∧
      drain_iter env now st =
        .handled (handle_request env request ⟨connection_flag f, now⟩)
          (cleanup st f.length ⟨connection_flag f, now⟩) := by
  obtain ⟨rest, hrest⟩ := hpre
  have hge := hf.len_ge
  have htake : st.buffer.take f.length = f := by
    rw [← hrest, List.take_left']
    rfl
  have hframe : complete_frame st f.length := by
    refine ⟨hlt, hge, ?_, ?_⟩
    · rw [← hrest]
      exact first_at_append _ _ _ _ hf.ends (by simp; omega)
    · unfold total_size
      rw [hcl]
      simpa using hle
  have hline : request_line st.buffer f.length (bytes "GET") target version := by
    rw [← hrest]
    exact request_line_append _ _ _ _ _ _ hf.line
  obtain ⟨request, hreq, hmeth, hpath, hvers⟩ :=
    parse_request_of_line st.buffer f.length (bytes "GET") target version hframe.eoh_ge
      hframe.eoh_first.1 hline
  refine ⟨request, hmeth, hpath, hvers, ?_⟩
  have hflag := flag_of_parsed env now st f.length request hframe hreq
  rw [flag_of_drain_iter env now st f.length request hframe hreq, htake] at hflag
  have hconn : conn_after request now = ⟨connection_flag f, now⟩ := by
    unfold conn_after
    rw [Option.some.inj hflag]
  have htot : total_size st.buffer f.length = f.length := by
    unfold total_size
    rw [hcl]
    simp
  rw [drain_iter_of_frame env now st f.length hframe, hreq]
  simp only [hconn, htot]

theorem buffer_of_zero (f : List Nat) (h : f.length < BUFFER_SIZE) :
    buffer_of f = f ++ 0 :: List.replicate (BUFFER_SIZE - f.length - 1) 0 := by
  unfold buffer_of
  have e : BUFFER_SIZE - f.length = (BUFFER_SIZE - f.length - 1) + 1 := by omega
  rw [e, List.replicate_succ]
  simp

/-- A pass over a buffer that begins with a `GET` frame makes the calls of the
response to that frame, provided no body length is extracted for the frame
standing alone. -/
theorem pass_of_get_frame_response (env : Env) (now : Int) (st : worker_state)
    (f target version : List Nat) (hf : get_frame f target version)
    (hcl : content_length st.buffer f.length = 0)
    (halone : content_length (state_of f false).buffer f.length = 0)
    (hpre : f <+: st.buffer) (hle : f.length ≤ st.buffer_len)
    (hlt : st.buffer_len < BUFFER_SIZE) :
    drain_iter env now st =
      .handled (response_to env now f) (cleanup st f.length ⟨connection_flag f, now⟩) := by
  obtain ⟨r1, hm1, hp1, hv1, h1⟩ := pass_of_get_frame env now st f target version hf hcl hpre
    hle hlt
  obtain ⟨r2, hm2, hp2, hv2, h2⟩ := pass_of_get_frame env now (state_of f false) f target
    version hf halone (buffer_of_starts f) (le_refl _) (lt_of_le_of_lt hle hlt)
  unfold response_to
  rw [h1, h2]
  simp only [events_of]
  rw [handle_request_congr env r1 r2 _ (hm1.trans hm2.symm) (hp1.trans hp2.symm)
    (hv1.trans hv2.symm)]

/-! ## Properties -/

/-! ### `get_mime_type` -/

/-- C1 (defect): `get_mime_type` compares the extension `.htm` with `strcmp`, so
`a.HTM` has no media type, while `a.htm`, `a.Html` and `a.HTML`, which go through
`strcasecmp`, are `text/html`. -/
theorem get_mime_type_htm_case_sensitive :
    get_mime_type (bytes "a.HTM") = none ∧
    get_mime_type (bytes "a.htm") = some (bytes "text/html") ∧
    get_mime_type (bytes "a.Html") = some (bytes "text/html") ∧
    get_mime_type (bytes "a.HTML") = some (bytes "text/html") := by
  decide

/-! ### Content-Length -/

/-- C2 (defect): on `POST /x HTTP/1.1\r\nContent-Length: 3\r\n\r\nabc` the
conversion of ` 3\r\n...` is refused because of the bytes after the digit,
`content_length` stays 0, and the pass removes the 39 header bytes only: the
405 response is written and the three body bytes `abc` stay in the buffer. -/
theorem content_length_body_not_skipped :
    content_length (buffer_of (bytes "POST /x HTTP/1.1\r\nContent-Length: 3\r\n\r\nabc")) 39 = 0 ∧
    observe (drain_iter env_empty 7
        (state_of (bytes "POST /x HTTP/1.1\r\nContent-Length: 3\r\n\r\nabc") false)) =
      some ([.send (send_error 405 (bytes "HTTP/1.1") ⟨false, 7⟩)], bytes "abc", false) := by
  decide!

/-! ### Path traversal and resolved paths -/

/-- C3 (amended): for a complete request with method `GET` and version
`HTTP/1.0` or `HTTP/1.1` (both read as C strings) whose parsed target - the
first 511 bytes of the target, read up to the first zero byte - contains `..`,
the pass writes one 403 error response and makes no filesystem call. -/
theorem dotdot_in_parsed_target_403 (env : Env) (now : Int) (st : worker_state) (eoh : Nat)
    (method target version : List Nat) (hframe : complete_frame st eoh)
    (hline : request_line st.buffer eoh method target version)
    (hget : cstr method = bytes "GET")
    (hver : cstr version = bytes "HTTP/1.0" ∨ cstr version = bytes "HTTP/1.1")
    (hdd : bytes ".." <:+: cstr (target.take 511)) :
    ∃ request, parse_request st.buffer eoh = some request ∧
      drain_iter env now st =
        .handled [.send (send_error 403 version (conn_after request now))]
          (cleanup st (total_size st.buffer eoh) (conn_after request now)) := by
  obtain ⟨request, hreq, hmeth, hpath, hvers⟩ :=
    parse_request_of_line st.buffer eoh method target version hframe.eoh_ge
      hframe.eoh_first.1 hline
  refine ⟨request, hreq, ?_⟩
  rw [drain_iter_of_frame env now st eoh hframe, hreq]
  have hv15 : cstr request.version = cstr version := by
    rw [hvers]
    rcases hver with h | h
    · rw [h]; exact (cstr_take_eq_iff _ _ 15 (by decide)).mpr h
    · rw [h]; exact (cstr_take_eq_iff _ _ 15 (by decide)).mpr h
  have hlen : strlen request.path ≤ 511 := by
    unfold strlen
    rw [hpath]
    exact le_trans (cstr_length_le _) (by rw [List.length_take]; omega)
  simp only
  rw [handle_request_dotdot env request _
    (by rw [hmeth]; exact (cstr_take_eq_iff _ _ 15 (by decide)).mpr hget)
    (by rw [hv15]; exact hver) hlen (by rw [hpath]; exact hdd)]
  rw [send_error_congr 403 _ _ _ hv15]

/-- Witness for C3 (amended): `GET /../etc/passwd HTTP/1.1`. -/
theorem dotdot_in_parsed_target_403_witness :
    complete_frame (state_of (bytes "GET /../etc/passwd HTTP/1.1\r\n\r\n") false) 31 ∧
    request_line (state_of (bytes "GET /../etc/passwd HTTP/1.1\r\n\r\n") false).buffer 31
      (bytes "GET") (bytes "/../etc/passwd") (bytes "HTTP/1.1") ∧
    ∃ request,
      parse_request (state_of (bytes "GET /../etc/passwd HTTP/1.1\r\n\r\n") false).buffer 31 =
        some request ∧
      drain_iter env_empty 7 (state_of (bytes "GET /../etc/passwd HTTP/1.1\r\n\r\n") false) =
        .handled [.send (send_error 403 (bytes "HTTP/1.1") (conn_after request 7))]
          (cleanup (state_of (bytes "GET /../etc/passwd HTTP/1.1\r\n\r\n") false)
            (total_size (state_of (bytes "GET /../etc/passwd HTTP/1.1\r\n\r\n") false).buffer 31)
            (conn_after request 7)) :=
  ⟨⟨by decide, by decide, by decide, by decide⟩,
   ⟨by decide, by decide, by decide, by decide, by decide⟩,
   dotdot_in_parsed_target_403 env_empty 7 _ 31 (bytes "GET") (bytes "/../etc/passwd")
     (bytes "HTTP/1.1") ⟨by decide, by decide, by decide, by decide⟩
     ⟨by decide, by decide, by decide, by decide, by decide⟩ (by decide)
     (Or.inr (by decide)) (by decide)⟩

/-- Counterexample to C3: a target of 516 bytes whose only `..` lies behind
its first 511 bytes. The request is a complete `GET` with version `HTTP/1.1`
and its target contains `..`, yet the pass calls `stat` on the document root
joined with the first 511 bytes of the target and answers 404. -/
theorem dotdot_behind_truncation_reaches_stat :
    complete_frame (state_of (bytes "GET /" ++ List.replicate 510 97 ++
      bytes "/../x HTTP/1.1\r\n\r\n") false) 533 ∧
    request_line (state_of (bytes "GET /" ++ List.replicate 510 97 ++
      bytes "/../x HTTP/1.1\r\n\r\n") false).buffer 533
      (bytes "GET") (47 :: List.replicate 510 97 ++ bytes "/../x") (bytes "HTTP/1.1") ∧
    bytes ".." <:+: 47 :: List.replicate 510 97 ++ bytes "/../x" ∧
    events_of (drain_iter env_empty 7 (state_of (bytes "GET /" ++ List.replicate 510 97 ++
      bytes "/../x HTTP/1.1\r\n\r\n") false)) =
      [.stat (bytes "./www/" ++ List.replicate 510 97),
       .send (send_error 404 (bytes "HTTP/1.1") ⟨false, 7⟩)] := by
  refine ⟨⟨by decide!, by decide!, by decide!, by decide!⟩,
    ⟨by decide!, by decide!, by decide!, by decide!, by decide!⟩, ?_, by decide!⟩
  exact ⟨47 :: List.replicate 510 97 ++ [47], bytes "/x", by decide!⟩

/-- C4: every path a pass hands to `stat`, `open` or `sendfile` starts with
`./www`, contains no `..`, is shorter than the 1024-byte path buffer, and is the
document root followed by the parsed target (the path field of the request read
as a string), for a directory followed by the separating slash, if the path does
not end with one, and `index.html` or `index.htm`. -/
theorem resolved_paths_under_root (env : Env) (now : Int) (st : worker_state) (p : List Nat)
    (hp : p ∈ fs_paths (events_of (drain_iter env now st))) :
    ∃ eoh request, find_eoh st.buffer st.buffer_len = .found eoh ∧
      parse_request st.buffer eoh = some request ∧
      DOCUMENT_ROOT <+: p ∧ ¬ bytes ".." <:+: p ∧ p.length < PATH_MAX_LEN ∧
      (p = DOCUMENT_ROOT ++ cstr request.path ∨
        p = DOCUMENT_ROOT ++ cstr request.path ++
          index_sep (DOCUMENT_ROOT ++ cstr request.path) ++ bytes "index.html" ∨
        p = DOCUMENT_ROOT ++ cstr request.path ++
          index_sep (DOCUMENT_ROOT ++ cstr request.path) ++ bytes "index.htm") := by
  unfold drain_iter at hp
  split at hp
  · simp [events_of, fs_paths] at hp
  · simp [events_of, fs_paths] at hp
  · rename_i eoh heoh
    split at hp
    · simp [events_of, fs_paths] at hp
    · split at hp
      · simp [events_of, fs_paths] at hp
      · rename_i request hreq
        simp only [events_of] at hp
        have hlen := parse_request_path_len _ _ _ hreq
        obtain ⟨hnodd, hforms⟩ := handle_request_paths env request _ p hlen hp
        refine ⟨eoh, request, heoh, hreq, ?_, ?_, ?_, hforms⟩
        · rcases hforms with h | h | h
          · exact ⟨_, h.symm⟩
          · exact ⟨_, by rw [h, List.append_assoc, List.append_assoc]⟩
          · exact ⟨_, by rw [h, List.append_assoc, List.append_assoc]⟩
        · have hc : has_dotdot (cstr request.path) = false := by
            rw [Bool.eq_false_iff, ne_eq, has_dotdot_iff]
            exact hnodd
          rw [← has_dotdot_iff, Bool.not_eq_true]
          rcases hforms with h | h | h
          · rw [h, has_dotdot_root, hc]
          · obtain ⟨hh, hs⟩ := dotdot_free_suffix (DOCUMENT_ROOT ++ cstr request.path)
              (bytes "index.html") (Or.inl rfl)
            rw [h, List.append_assoc, has_dotdot_append _ hh, has_dotdot_root, hc, hs]
            rfl
          · obtain ⟨hh, hs⟩ := dotdot_free_suffix (DOCUMENT_ROOT ++ cstr request.path)
              (bytes "index.htm") (Or.inr rfl)
            rw [h, List.append_assoc, has_dotdot_append _ hh, has_dotdot_root, hc, hs]
            rfl
        · have hroot : DOCUMENT_ROOT.length = 5 := by decide
          have hsep : (index_sep (DOCUMENT_ROOT ++ cstr request.path)).length ≤ 1 := by
            unfold index_sep
            split <;> simp
          have e1 : (bytes "index.html").length = 10 := by decide
          have e2 : (bytes "index.htm").length = 9 := by decide
          unfold strlen at hlen
          unfold PATH_MAX_LEN
          rcases hforms with h | h | h
          · rw [h, List.length_append, hroot]; omega
          · rw [h, List.length_append, List.length_append, List.length_append, hroot, e1]; omega
          · rw [h, List.length_append, List.length_append, List.length_append, hroot, e2]; omega

/-- Witness for C4: the probe path `./www/index.html` of the request `GET /`. -/
theorem resolved_paths_under_root_witness :
    bytes "./www/index.html" ∈ fs_paths (events_of (drain_iter env_index 7
      (state_of (bytes "GET / HTTP/1.1\r\n\r\n") false))) ∧
    ∃ eoh request,
      find_eoh (state_of (bytes "GET / HTTP/1.1\r\n\r\n") false).buffer
        (state_of (bytes "GET / HTTP/1.1\r\n\r\n") false).buffer_len = .found eoh ∧
      parse_request (state_of (bytes "GET / HTTP/1.1\r\n\r\n") false).buffer eoh =
        some request ∧
      DOCUMENT_ROOT <+: bytes "./www/index.html" ∧
      ¬ bytes ".." <:+: bytes "./www/index.html" ∧
      (bytes "./www/index.html").length < PATH_MAX_LEN ∧
      (bytes "./www/index.html" = DOCUMENT_ROOT ++ cstr request.path ∨
        bytes "./www/index.html" = DOCUMENT_ROOT ++ cstr request.path ++
          index_sep (DOCUMENT_ROOT ++ cstr request.path) ++ bytes "index.html" ∨
        bytes "./www/index.html" = DOCUMENT_ROOT ++ cstr request.path ++
          index_sep (DOCUMENT_ROOT ++ cstr request.path) ++ bytes "index.htm") :=
  ⟨by decide!, resolved_paths_under_root env_index 7 _ _ (by decide!)⟩

/-! ### Method and version -/

/-- C5 (amended): for a complete request whose request line has both space
separators, if the method token read as a C string (up to its first zero byte)
is anything other than `GET`, the pass writes one 405 error response and
nothing else: no path is built and no filesystem call is made. Tokens longer
than 15 bytes and tokens that continue `GET` with a non-zero byte are covered. -/
theorem method_other_than_get_405 (env : Env) (now : Int) (st : worker_state) (eoh : Nat)
    (method target : List Nat) (hframe : complete_frame st eoh)
    (hsep : two_separators st.buffer eoh method target)
    (hmethod : cstr method ≠ bytes "GET") :
    ∃ request, parse_request st.buffer eoh = some request ∧
      drain_iter env now st =
        .handled [.send (send_error 405 request.version (conn_after request now))]
          (cleanup st (total_size st.buffer eoh) (conn_after request now)) := by
  obtain ⟨request, hreq, hmeth, _⟩ :=
    parse_request_of_separators st.buffer eoh method target hframe.eoh_ge
      hframe.eoh_first.1 hsep
  refine ⟨request, hreq, ?_⟩
  rw [drain_iter_of_frame env now st eoh hframe, hreq]
  simp only
  rw [handle_request_not_get env request _
    (by rw [hmeth]; exact cstr_take_ne _ _ 15 (by decide) hmethod)]

/-- Witness for C5 (amended): a method token of 20 bytes that starts with `GET`. -/
theorem method_other_than_get_405_witness :
    complete_frame (state_of (bytes "GETGETGETGETGETGETGE /x HTTP/1.1\r\n\r\n") true) 36 ∧
    two_separators (state_of (bytes "GETGETGETGETGETGETGE /x HTTP/1.1\r\n\r\n") true).buffer 36
      (bytes "GETGETGETGETGETGETGE") (bytes "/x") ∧
    ∃ request,
      parse_request (state_of (bytes "GETGETGETGETGETGETGE /x HTTP/1.1\r\n\r\n") true).buffer 36 =
        some request ∧
      drain_iter env_empty 7 (state_of (bytes "GETGETGETGETGETGETGE /x HTTP/1.1\r\n\r\n") true) =
        .handled [.send (send_error 405 request.version (conn_after request 7))]
          (cleanup (state_of (bytes "GETGETGETGETGETGETGE /x HTTP/1.1\r\n\r\n") true)
            (total_size
              (state_of (bytes "GETGETGETGETGETGETGE /x HTTP/1.1\r\n\r\n") true).buffer 36)
            (conn_after request 7)) :=
  ⟨⟨by decide, by decide, by decide, by decide⟩,
   ⟨by decide, by decide, by decide, by decide⟩,
   method_other_than_get_405 env_empty 7 _ 36 (bytes "GETGETGETGETGETGETGE") (bytes "/x")
     ⟨by decide, by decide, by decide, by decide⟩
     ⟨by decide, by decide, by decide, by decide⟩ (by decide)⟩

/-- Counterexample to C5: the method token is the four bytes `G`, `E`, `T`, 0.
It is not the three bytes `GET`, but `strcmp` reads it as `GET`: the pass goes
on to the filesystem and answers 404, not 405. -/
theorem method_get_nul_is_served :
    complete_frame (state_of ([71, 69, 84, 0] ++ bytes " / HTTP/1.1\r\n\r\n") false) 19 ∧
    two_separators (state_of ([71, 69, 84, 0] ++ bytes " / HTTP/1.1\r\n\r\n") false).buffer 19
      [71, 69, 84, 0] (bytes "/") ∧
    [71, 69, 84, 0] ≠ bytes "GET" ∧
    events_of (drain_iter env_empty 7
        (state_of ([71, 69, 84, 0] ++ bytes " / HTTP/1.1\r\n\r\n") false)) =
      [.stat (bytes "./www/"), .send (send_error 404 (bytes "HTTP/1.1") ⟨false, 7⟩)] := by
  refine ⟨⟨by decide, by decide, by decide, by decide⟩,
    ⟨by decide, by decide, by decide, by decide⟩, by decide, by decide!⟩

/-- C6 (amended): for a complete request whose version token, read as a C string
(up to its first zero byte), is neither `HTTP/1.0` nor `HTTP/1.1`: if the method
is `GET` the pass writes one 505 error response carrying the first 15 bytes of
the version token, and if the method is not `GET` it writes one 405 error
response; in both cases nothing else happens (no path is built, no filesystem
call is made). -/
theorem unsupported_version_505 (env : Env) (now : Int) (st : worker_state) (eoh : Nat)
    (method target version : List Nat) (hframe : complete_frame st eoh)
    (hline : request_line st.buffer eoh method target version)
    (h0 : cstr version ≠ bytes "HTTP/1.0") (h1 : cstr version ≠ bytes "HTTP/1.1") :
    ∃ request, parse_request st.buffer eoh = some request ∧
      drain_iter env now st =
        .handled
          [.send (send_error (if cstr method = bytes "GET" then 505 else 405)
            (version.take 15) (conn_after request now))]
          (cleanup st (total_size st.buffer eoh) (conn_after request now)) := by
  obtain ⟨request, hreq, hmeth, hpath, hvers⟩ :=
    parse_request_of_line st.buffer eoh method target version hframe.eoh_ge
      hframe.eoh_first.1 hline
  refine ⟨request, hreq, ?_⟩
  rw [drain_iter_of_frame env now st eoh hframe, hreq]
  simp only
  by_cases hget : cstr method = bytes "GET"
  · rw [if_pos hget, handle_request_bad_version env request _
      (by rw [hmeth]; exact (cstr_take_eq_iff _ _ 15 (by decide)).mpr hget)
      (by rw [hvers]; exact cstr_take_ne _ _ 15 (by decide) h0)
      (by rw [hvers]; exact cstr_take_ne _ _ 15 (by decide) h1)]
    rw [send_error_congr 505 _ _ _ hvers]
  · rw [if_neg hget, handle_request_not_get env request _
      (by rw [hmeth]; exact cstr_take_ne _ _ 15 (by decide) hget)]
    rw [send_error_congr 405 _ _ _ hvers]

/-- Witness for C6 (amended): `GET / HTTP/2.0`. -/
theorem unsupported_version_505_witness :
    complete_frame (state_of (bytes "GET / HTTP/2.0\r\n\r\n") false) 18 ∧
    request_line (state_of (bytes "GET / HTTP/2.0\r\n\r\n") false).buffer 18
      (bytes "GET") (bytes "/") (bytes "HTTP/2.0") ∧
    ∃ request,
      parse_request (state_of (bytes "GET / HTTP/2.0\r\n\r\n") false).buffer 18 = some request ∧
      drain_iter env_empty 7 (state_of (bytes "GET / HTTP/2.0\r\n\r\n") false) =
        .handled
          [.send (send_error (if cstr (bytes "GET") = bytes "GET" then 505 else 405)
            ((bytes "HTTP/2.0").take 15) (conn_after request 7))]
          (cleanup (state_of (bytes "GET / HTTP/2.0\r\n\r\n") false)
            (total_size (state_of (bytes "GET / HTTP/2.0\r\n\r\n") false).buffer 18)
            (conn_after request 7)) :=
  ⟨⟨by decide, by decide, by decide, by decide⟩,
   ⟨by decide, by decide, by decide, by decide, by decide⟩,
   unsupported_version_505 env_empty 7 _ 18 (bytes "GET") (bytes "/") (bytes "HTTP/2.0")
     ⟨by decide, by decide, by decide, by decide⟩
     ⟨by decide, by decide, by decide, by decide, by decide⟩ (by decide) (by decide)⟩

/-- Counterexample to C6: the version token is `HTTP/1.1` followed by a zero
byte. It is neither `HTTP/1.0` nor `HTTP/1.1`, but `strcmp` reads it as
`HTTP/1.1`: the request is resolved against the filesystem and answered 404,
not 505. -/
theorem version_with_nul_is_served :
    complete_frame (state_of (bytes "GET / HTTP/1.1" ++ [0] ++ bytes "\r\n\r\n") false) 19 ∧
    request_line (state_of (bytes "GET / HTTP/1.1" ++ [0] ++ bytes "\r\n\r\n") false).buffer 19
      (bytes "GET") (bytes "/") (bytes "HTTP/1.1" ++ [0]) ∧
    bytes "HTTP/1.1" ++ [0] ≠ bytes "HTTP/1.0" ∧
    bytes "HTTP/1.1" ++ [0] ≠ bytes "HTTP/1.1" ∧
    events_of (drain_iter env_empty 7
        (state_of (bytes "GET / HTTP/1.1" ++ [0] ++ bytes "\r\n\r\n") false)) =
      [.stat (bytes "./www/"), .send (send_error 404 (bytes "HTTP/1.1") ⟨false, 7⟩)] := by
  refine ⟨⟨by decide, by decide, by decide, by decide⟩,
    ⟨by decide, by decide, by decide, by decide, by decide⟩, by decide, by decide, by decide!⟩

/-! ### Malformed request lines -/

/-- C7 (defect): a complete frame whose request line lacks a separator is dropped
without any response. For `GET` followed by the blank line (no space) and for
`GET /index.html` followed by the blank line (no second space) the pass makes
no system call at all, removes the frame, and leaves `keep_alive` as it was. -/
theorem missing_separator_no_response :
    observe (drain_iter env_empty 7 (state_of (bytes "GET\r\n\r\n") true)) =
      some ([], [], true) ∧
    observe (drain_iter env_empty 7 (state_of (bytes "GET /index.html\r\n\r\n") false)) =
      some ([], [], false) := by
  decide!

/-! ### The `Connection` and `Content-Length` headers -/

/-- C8 (amended): after a successfully parsed request (a complete frame whose
request line has both separators) `keep_alive` follows the rule
`connection_flag` on the bytes of the header region, whatever they are. It is
set exactly when the byte string `Connection` occurs in the header region, a
colon is reached from its first occurrence before any zero byte and before the
end of the region, a CR LF follows in the region after the white space behind
that colon, and the bytes before the first such CR LF, read up to their first
zero byte, are `keep-alive` in any letter case. The first occurrence counts
wherever it stands: header name, request target, or value of another header. -/
theorem keep_alive_follows_first_connection (env : Env) (now : Int) (st : worker_state)
    (eoh : Nat) (method target : List Nat) (hframe : complete_frame st eoh)
    (hsep : two_separators st.buffer eoh method target) :
    flag_of (drain_iter env now st) = some (connection_flag (st.buffer.take eoh)) := by
  obtain ⟨request, hparse, _⟩ := parse_request_of_separators st.buffer eoh method target
    hframe.eoh_ge hframe.eoh_first.1 hsep
  have hlen : (st.buffer.take eoh).length = eoh := by
    have h4 := congrArg List.length hframe.eoh_first.1
    have hge := hframe.eoh_ge
    simp only [List.length_take, List.length_drop, List.length_cons, List.length_nil] at h4
    rw [List.length_take]
    omega
  rw [flag_of_drain_iter env now st eoh request hframe hparse,
    parse_request_connection _ _ _ hparse]
  have h := connection_flag_lookup (st.buffer.take eoh) (st.buffer.drop eoh)
  rw [List.take_append_drop, hlen] at h
  rw [h]

/-- Witness for C8 (amended): a request whose first `Connection` is the name of
a header line with the value `Keep-Alive` (flag set), a request that has
`Connection` in its target only and no colon behind it (flag clear), and a
request with a zero byte between `Connection` and the colon (flag clear). -/
theorem keep_alive_follows_first_connection_witness :
    (connection_flag
        ((state_of (bytes "GET / HTTP/1.1\r\nHost: x\r\nConnection: Keep-Alive\r\n\r\n")
          false).buffer.take 51) = true ∧
      flag_of (drain_iter env_empty 7
        (state_of (bytes "GET / HTTP/1.1\r\nHost: x\r\nConnection: Keep-Alive\r\n\r\n") false)) =
        some (connection_flag
          ((state_of (bytes "GET / HTTP/1.1\r\nHost: x\r\nConnection: Keep-Alive\r\n\r\n")
            false).buffer.take 51))) ∧
    (connection_flag
        ((state_of (bytes "GET /Connection HTTP/1.1\r\n\r\n") true).buffer.take 28) = false ∧
      flag_of (drain_iter env_empty 7
        (state_of (bytes "GET /Connection HTTP/1.1\r\n\r\n") true)) =
        some (connection_flag
          ((state_of (bytes "GET /Connection HTTP/1.1\r\n\r\n") true).buffer.take 28))) ∧
    (connection_flag
        ((state_of (bytes "GET / HTTP/1.1\r\nConnection" ++ [0] ++ bytes ": keep-alive\r\n\r\n")
          true).buffer.take 43) = false ∧
      flag_of (drain_iter env_empty 7
        (state_of (bytes "GET / HTTP/1.1\r\nConnection" ++ [0] ++ bytes ": keep-alive\r\n\r\n")
          true)) =
        some (connection_flag
          ((state_of (bytes "GET / HTTP/1.1\r\nConnection" ++ [0] ++ bytes ": keep-alive\r\n\r\n")
            true).buffer.take 43))) :=
  ⟨⟨by decide,
    keep_alive_follows_first_connection env_empty 7 _ 51 (bytes "GET") (bytes "/")
      ⟨by decide, by decide, by decide, by decide⟩
      ⟨by decide, by decide, by decide, by decide⟩⟩,
   ⟨by decide,
    keep_alive_follows_first_connection env_empty 7 _ 28 (bytes "GET")
      (bytes "/Connection")
      ⟨by decide, by decide, by decide, by decide⟩
      ⟨by decide, by decide, by decide, by decide⟩⟩,
   ⟨by decide,
    keep_alive_follows_first_connection env_empty 7 _ 43 (bytes "GET") (bytes "/")
      ⟨by decide, by decide, by decide, by decide⟩
      ⟨by decide, by decide, by decide, by decide⟩⟩⟩

/-- Counterexample to C8: `GET /Connection HTTP/1.1` with the single header line
`X: keep-alive`. No header line is named `Connection`, so the flag as the
specification words it is clear; the worker finds `Connection` in the target,
takes the value after the next colon, and sets `keep_alive`. -/
theorem keep_alive_without_connection_header :
    split_crlf [] (bytes "GET /Connection HTTP/1.1\r\nX: keep-alive\r\n\r\n") =
      [bytes "GET /Connection HTTP/1.1", bytes "X: keep-alive", [], []] ∧
    spec_keep_alive (bytes "GET /Connection HTTP/1.1\r\nX: keep-alive\r\n\r\n") = false ∧
    flag_of (drain_iter env_empty 7
      (state_of (bytes "GET /Connection HTTP/1.1\r\nX: keep-alive\r\n\r\n") false)) =
      some true := by
  decide!

/-- C9 (amended): header lookup compares the name byte for byte, in exactly the
spelling `Connection` or `Content-Length`. For a successfully parsed request
whose header region does not contain the name in this spelling - whatever
other letter cases of it the region contains - the lookup copies nothing; for
`Connection` the flag `keep_alive` is then clear, and for `Content-Length` the
content length is 0 and the frame is the header region. -/
theorem header_lookup_exact_case (env : Env) (now : Int) (st : worker_state) (eoh : Nat)
    (method target name : List Nat) (hframe : complete_frame st eoh)
    (hsep : two_separators st.buffer eoh method target)
    (hname : name = bytes "Connection" ∨ name = bytes "Content-Length")
    (habsent : ¬ name <:+: st.buffer.take eoh) :
    (∀ dest dest_len, find_header_value st.buffer eoh name dest dest_len = dest) ∧
    (name = bytes "Connection" → flag_of (drain_iter env now st) = some false) ∧
    (name = bytes "Content-Length" →
      content_length st.buffer eoh = 0 ∧ total_size st.buffer eoh = eoh) := by
  have hne : name ≠ [] := by
    rcases hname with rfl | rfl <;> decide
  refine ⟨fun dest dest_len => find_header_value_absent _ _ _ _ _ hne habsent, ?_, ?_⟩
  · intro hn
    subst hn
    obtain ⟨request, hparse, _⟩ := parse_request_of_separators st.buffer eoh method target
      hframe.eoh_ge hframe.eoh_first.1 hsep
    exact flag_of_connection_decides env now st eoh request false hframe hparse
      (connection_decides.absent habsent)
  · intro hn
    subst hn
    have h0 := content_length_absent _ _ habsent
    refine ⟨h0, ?_⟩
    unfold total_size
    rw [h0]
    simp

/-- Witness for C9 (amended): both names written in lower case. -/
theorem header_lookup_exact_case_witness :
    complete_frame (state_of
      (bytes "GET / HTTP/1.1\r\nconnection: keep-alive\r\ncontent-length: 0\r\n\r\n") false) 61 ∧
    two_separators (state_of
      (bytes "GET / HTTP/1.1\r\nconnection: keep-alive\r\ncontent-length: 0\r\n\r\n")
      false).buffer 61 (bytes "GET") (bytes "/") ∧
    ¬ bytes "Connection" <:+: (state_of
      (bytes "GET / HTTP/1.1\r\nconnection: keep-alive\r\ncontent-length: 0\r\n\r\n")
      false).buffer.take 61 ∧
    ((∀ dest dest_len, find_header_value (state_of
        (bytes "GET / HTTP/1.1\r\nconnection: keep-alive\r\ncontent-length: 0\r\n\r\n")
        false).buffer 61 (bytes "Connection") dest dest_len = dest) ∧
      (bytes "Connection" = bytes "Connection" → flag_of (drain_iter env_empty 7 (state_of
        (bytes "GET / HTTP/1.1\r\nconnection: keep-alive\r\ncontent-length: 0\r\n\r\n")
        false)) = some false) ∧
      (bytes "Connection" = bytes "Content-Length" →
        content_length (state_of
          (bytes "GET / HTTP/1.1\r\nconnection: keep-alive\r\ncontent-length: 0\r\n\r\n")
          false).buffer 61 = 0 ∧
        total_size (state_of
          (bytes "GET / HTTP/1.1\r\nconnection: keep-alive\r\ncontent-length: 0\r\n\r\n")
          false).buffer 61 = 61)) :=
  ⟨⟨by decide, by decide, by decide, by decide⟩,
   ⟨by decide, by decide, by decide, by decide⟩,
   by decide,
   header_lookup_exact_case env_empty 7 _ 61 (bytes "GET") (bytes "/") (bytes "Connection")
     ⟨by decide, by decide, by decide, by decide⟩
     ⟨by decide, by decide, by decide, by decide⟩ (Or.inl rfl) (by decide)⟩

/-- Counterexample to C9: the same request with the header name written
`Connection` and `connection`. The first sets `keep_alive`, the second leaves
it clear: rewriting the name in another letter case changes the flag. -/
theorem header_name_case_changes_flag :
    flag_of (drain_iter env_empty 7
      (state_of (bytes "GET / HTTP/1.1\r\nConnection: keep-alive\r\n\r\n") false)) = some true ∧
    flag_of (drain_iter env_empty 7
      (state_of (bytes "GET / HTTP/1.1\r\nconnection: keep-alive\r\n\r\n") false)) = some false := by
  decide!

/-! ### Error responses -/

/-- C10: for every status code in the range of `int`, every version text and
keep-alive flag, `send_error` writes the version, a space, the code in decimal,
a space, the reason phrase, CR LF, `Content-Length: ` with the decimal length of
the page, CR LF, `Connection: ` with `keep-alive` or `close`, CR LF, CR LF and
the page; the reason phrase is the one of the fixed table, the page is the
HTML text with code and reason in title and heading, and the 1024-byte buffer
does not cut it. -/
theorem send_error_bytes (code : Int) (version : List Nat) (conn : connection_t)
    (hlo : -2147483648 ≤ code) (hhi : code ≤ 2147483647) :
    ∃ name body : List Nat,
      name = (if code = 400 then bytes "Bad Request"
        else if code = 403 then bytes "Forbidden"
        else if code = 404 then bytes "Not Found"
        else if code = 405 then bytes "Method Not Allowed"
        else if code = 505 then bytes "HTTP Version Not Supported"
        else bytes "Internal Server Error") ∧
      body = bytes "<html><head><title>" ++ fmt_int code ++ bytes " " ++ name ++
        bytes "</title></head><body><h1>" ++ fmt_int code ++ bytes " " ++ name ++
        bytes "</h1></body></html>" ∧
      body.length < 1024 ∧
      send_error code version conn =
        cstr version ++ bytes " " ++ fmt_int code ++ bytes " " ++ name ++ bytes "\r\n" ++
        bytes "Content-Length: " ++ fmt_int body.length ++ bytes "\r\n" ++
        bytes "Connection: " ++ (if conn.keep_alive then bytes "keep-alive" else bytes "close") ++
        bytes "\r\n" ++ bytes "\r\n" ++ body := by
  have hlen := error_page_length_le code hlo hhi
  refine ⟨status_name code, error_page code, rfl, rfl, by omega, ?_⟩
  unfold send_error
  rw [List.take_of_length_le (by omega)]
  rfl

/-- Witness for C10: the 404 page on a connection without keep-alive. -/
theorem send_error_bytes_witness :
    (-2147483648 : Int) ≤ 404 ∧ (404 : Int) ≤ 2147483647 ∧
    ∃ name body : List Nat,
      name = (if (404 : Int) = 400 then bytes "Bad Request"
        else if (404 : Int) = 403 then bytes "Forbidden"
        else if (404 : Int) = 404 then bytes "Not Found"
        else if (404 : Int) = 405 then bytes "Method Not Allowed"
        else if (404 : Int) = 505 then bytes "HTTP Version Not Supported"
        else bytes "Internal Server Error") ∧
      body = bytes "<html><head><title>" ++ fmt_int 404 ++ bytes " " ++ name ++
        bytes "</title></head><body><h1>" ++ fmt_int 404 ++ bytes " " ++ name ++
        bytes "</h1></body></html>" ∧
      body.length < 1024 ∧
      send_error 404 (bytes "HTTP/1.0") ⟨false, 0⟩ =
        cstr (bytes "HTTP/1.0") ++ bytes " " ++ fmt_int 404 ++ bytes " " ++ name ++ bytes "\r\n" ++
        bytes "Content-Length: " ++ fmt_int body.length ++ bytes "\r\n" ++
        bytes "Connection: " ++
        (if (⟨false, 0⟩ : connection_t).keep_alive then bytes "keep-alive" else bytes "close") ++
        bytes "\r\n" ++ bytes "\r\n" ++ body :=
  ⟨by decide, by decide, send_error_bytes 404 (bytes "HTTP/1.0") ⟨false, 0⟩ (by decide) (by decide)⟩

/-! ### The receive buffer -/

/-- C12: in every state `client_func` reaches the buffer has its 8192 bytes, the
live length is at most 8191, and the terminating zero stands at index
`buffer_len`, inside the buffer. In such a state `recv` is asked for
`8191 - buffer_len` bytes, so a read keeps the bound, and a pass that handles a
frame found `total_size ≤ buffer_len` and leaves `buffer_len - total_size` live
bytes, without wrapping. -/
theorem buffer_len_invariant (st : worker_state) (h : reachable st) :
    st.buffer.length = BUFFER_SIZE ∧ st.buffer_len ≤ BUFFER_SIZE - 1 ∧
    st.buffer[st.buffer_len]? = some 0 ∧
    recv_len st = BUFFER_SIZE - 1 - st.buffer_len ∧
    ∀ env now events st1, drain_iter env now st = .handled events st1 →
      ∃ eoh, find_eoh st.buffer st.buffer_len = .found eoh ∧
        total_size st.buffer eoh ≤ st.buffer_len ∧
        st1.buffer_len = st.buffer_len - total_size st.buffer eoh := by
  have hok := reachable_ok st h
  refine ⟨hok.1, hok.2.1, hok.2.2, recv_len_of_ok st hok, ?_⟩
  intro env now events st1 hpass
  obtain ⟨eoh, conn, heoh, _, hle, hst1⟩ := drain_iter_handled env now st events st1 hpass
  exact ⟨eoh, heoh, hle, by rw [hst1, cleanup_buffer_len]⟩

/-- Witness for C12: the state after the first `recv` returned one request. -/
theorem buffer_len_invariant_witness :
    reachable (store_recv (initial_state 0) (bytes "GET / HTTP/1.1\r\n\r\n")) ∧
    (store_recv (initial_state 0) (bytes "GET / HTTP/1.1\r\n\r\n")).buffer.length =
      BUFFER_SIZE ∧
    (store_recv (initial_state 0) (bytes "GET / HTTP/1.1\r\n\r\n")).buffer_len ≤
      BUFFER_SIZE - 1 ∧
    (store_recv (initial_state 0) (bytes "GET / HTTP/1.1\r\n\r\n")).buffer[
      (store_recv (initial_state 0) (bytes "GET / HTTP/1.1\r\n\r\n")).buffer_len]? = some 0 ∧
    recv_len (store_recv (initial_state 0) (bytes "GET / HTTP/1.1\r\n\r\n")) =
      BUFFER_SIZE - 1 -
        (store_recv (initial_state 0) (bytes "GET / HTTP/1.1\r\n\r\n")).buffer_len ∧
    ∀ env now events st1,
      drain_iter env now (store_recv (initial_state 0) (bytes "GET / HTTP/1.1\r\n\r\n")) =
        .handled events st1 →
      ∃ eoh,
        find_eoh (store_recv (initial_state 0) (bytes "GET / HTTP/1.1\r\n\r\n")).buffer
          (store_recv (initial_state 0) (bytes "GET / HTTP/1.1\r\n\r\n")).buffer_len =
          .found eoh ∧
        total_size (store_recv (initial_state 0) (bytes "GET / HTTP/1.1\r\n\r\n")).buffer eoh ≤
          (store_recv (initial_state 0) (bytes "GET / HTTP/1.1\r\n\r\n")).buffer_len ∧
        st1.buffer_len =
          (store_recv (initial_state 0) (bytes "GET / HTTP/1.1\r\n\r\n")).buffer_len -
            total_size (store_recv (initial_state 0) (bytes "GET / HTTP/1.1\r\n\r\n")).buffer eoh :=
  ⟨reachable.read _ _ (reachable.start 0) (by decide) (by decide!),
   buffer_len_invariant _
     (reachable.read _ _ (reachable.start 0) (by decide) (by decide!))⟩

/-- C19: when a pass handles a frame of `total_size` bytes in a buffer with `n`
live bytes, the live length afterwards is `n - total_size`, the live bytes are
the old bytes at offsets `total_size .. n - 1` in their order, and the byte
behind them is the terminating zero. -/
theorem cleanup_keeps_remainder (env : Env) (now : Int) (st : worker_state)
    (events : List Event) (st1 : worker_state) (hok : buffer_ok st)
    (hpass : drain_iter env now st = .handled events st1) :
    ∃ eoh, find_eoh st.buffer st.buffer_len = .found eoh ∧
      total_size st.buffer eoh ≤ st.buffer_len ∧
      st1.buffer_len = st.buffer_len - total_size st.buffer eoh ∧
      st1.buffer.take st1.buffer_len =
        (st.buffer.drop (total_size st.buffer eoh)).take
          (st.buffer_len - total_size st.buffer eoh) ∧
      (∀ i, i < st1.buffer_len → st1.buffer[i]? = st.buffer[total_size st.buffer eoh + i]?) ∧
      st1.buffer[st1.buffer_len]? = some 0 ∧
      st1.buffer.length = BUFFER_SIZE := by
  obtain ⟨eoh, conn, heoh, _, hle, hst1⟩ := drain_iter_handled env now st events st1 hpass
  have hlen : st.buffer_len ≤ st.buffer.length := by
    have h1 := hok.1
    have h2 := hok.2.1
    unfold BUFFER_SIZE at h1 h2
    omega
  have hlive := cleanup_live st (total_size st.buffer eoh) conn hlen
  have hok1 := cleanup_ok st (total_size st.buffer eoh) conn hok
  rw [← hst1] at hlive hok1
  refine ⟨eoh, heoh, hle, by rw [hst1, cleanup_buffer_len], ?_, ?_, hok1.2.2, hok1.1⟩
  · exact hlive
  · intro i hi
    have h1 : (st1.buffer.take st1.buffer_len)[i]? = st1.buffer[i]? :=
      List.getElem?_take_of_lt hi
    rw [← h1, hlive]
    have hi' : i < st.buffer_len - total_size st.buffer eoh := by
      rw [hst1, cleanup_buffer_len] at hi
      exact hi
    rw [List.getElem?_take_of_lt hi', List.getElem?_drop]

/-- Witness for C19: `GET / HTTP/2.0` followed by the three bytes `GET` of the
next request; the pass leaves exactly these three bytes. -/
theorem cleanup_keeps_remainder_witness :
    buffer_ok (state_of (bytes "GET / HTTP/2.0\r\n\r\nGET") false) ∧
    ∃ events st1,
      drain_iter env_empty 7 (state_of (bytes "GET / HTTP/2.0\r\n\r\nGET") false) =
        .handled events st1 ∧
      st1.buffer.take st1.buffer_len = bytes "GET" ∧
      ∃ eoh,
        find_eoh (state_of (bytes "GET / HTTP/2.0\r\n\r\nGET") false).buffer
          (state_of (bytes "GET / HTTP/2.0\r\n\r\nGET") false).buffer_len = .found eoh ∧
        total_size (state_of (bytes "GET / HTTP/2.0\r\n\r\nGET") false).buffer eoh ≤
          (state_of (bytes "GET / HTTP/2.0\r\n\r\nGET") false).buffer_len ∧
        st1.buffer_len = (state_of (bytes "GET / HTTP/2.0\r\n\r\nGET") false).buffer_len -
          total_size (state_of (bytes "GET / HTTP/2.0\r\n\r\nGET") false).buffer eoh ∧
        st1.buffer.take st1.buffer_len =
          ((state_of (bytes "GET / HTTP/2.0\r\n\r\nGET") false).buffer.drop
            (total_size (state_of (bytes "GET / HTTP/2.0\r\n\r\nGET") false).buffer eoh)).take
            ((state_of (bytes "GET / HTTP/2.0\r\n\r\nGET") false).buffer_len -
              total_size (state_of (bytes "GET / HTTP/2.0\r\n\r\nGET") false).buffer eoh) ∧
        (∀ i, i < st1.buffer_len → st1.buffer[i]? =
          (state_of (bytes "GET / HTTP/2.0\r\n\r\nGET") false).buffer[
            total_size (state_of (bytes "GET / HTTP/2.0\r\n\r\nGET") false).buffer eoh + i]?) ∧
        st1.buffer[st1.buffer_len]? = some 0 ∧
        st1.buffer.length = BUFFER_SIZE := by
  have hok := state_of_ok (bytes "GET / HTTP/2.0\r\n\r\nGET") false (by decide)
  obtain ⟨events, conn, hpass⟩ := drain_iter_of_complete_frame env_empty 7
    (state_of (bytes "GET / HTTP/2.0\r\n\r\nGET") false) 18
    ⟨by decide, by decide, by decide, by decide⟩
  have hmain := cleanup_keeps_remainder env_empty 7 _ events _ hok hpass
  refine ⟨hok, events, _, hpass, ?_, hmain⟩
  rw [cleanup_live _ _ _ (by decide!)]
  decide!

/-! ### Overlong requests and short reads -/

/-- C13 (defect): the first `recv` returns 8191 bytes `a`, which fill the buffer
without CR LF CR LF. The inner loop finds no frame, the test
`buffer_len > sizeof(buffer) - 1` is false for 8191, and nothing is discarded.
In the next iteration `recv` is asked for 0 bytes and returns 0, which the
worker takes for the end of the stream: the socket is closed, and the request
`GET / HTTP/1.1` the peer has sent is neither read nor answered. -/
theorem full_buffer_closes_connection :
    run_worker [input_of (.data (List.replicate 8191 97)) env_empty] (initial_state 0) =
      ([.recv 8191], .waiting 8191 false) ∧
    run_worker
      [input_of (.data (List.replicate 8191 97)) env_empty,
       input_of (.data (bytes "GET / HTTP/1.1\r\n\r\n")) env_empty]
      (initial_state 0) = ([.recv 8191, .recv 0, .close], .closed) := by
  refine ⟨by decide!, by decide!⟩

/-- C14 (defect): with one live byte (`G`) or two (`GE`) in a fresh buffer the
bound `buffer_len - 3` of the scan wraps to a huge value; the scan runs through
the whole array and reads behind its end, so the pass does not report that
more bytes are needed. With three live bytes it does. -/
theorem short_buffer_scan_leaves_array :
    drain_iter env_empty 0 (state_of (bytes "G") false) = .out_of_bounds ∧
    drain_iter env_empty 0 (state_of (bytes "GE") false) = .out_of_bounds ∧
    drain_iter env_empty 0 (state_of (bytes "GET") false) = .need_more ∧
    run_worker [input_of (.data (bytes "G")) env_empty] (initial_state 0) =
      ([.recv 8191], .undefined) := by
  refine ⟨by decide!, by decide!, by decide!, by decide!⟩

/-- C20 (defect): the first `recv` delivers two frames, neither with a
`Connection` header. After the response to the first frame `keep_alive` is
false and the `break` leaves the loop `while (buffer_len > 0)` only: the socket
is not closed, the 19 bytes of the second frame stay live, and the worker calls
`recv` again. When that call brings one more byte, the second frame is parsed
and answered. -/
theorem break_leaves_inner_loop_only :
    run_worker
      [input_of (.data (bytes "GET /a HTTP/1.1\r\n\r\nGET /b HTTP/1.1\r\n\r\n")) env_empty]
      (initial_state 0) =
      ([.recv 8191, .sys (.stat (bytes "./www/a")),
        .sys (.send (send_error 404 (bytes "HTTP/1.1") ⟨false, 0⟩))],
       .waiting 19 false) ∧
    run_worker
      [input_of (.data (bytes "GET /a HTTP/1.1\r\n\r\nGET /b HTTP/1.1\r\n\r\n")) env_empty,
       input_of (.data (bytes "\n")) env_empty]
      (initial_state 0) =
      ([.recv 8191, .sys (.stat (bytes "./www/a")),
        .sys (.send (send_error 404 (bytes "HTTP/1.1") ⟨false, 0⟩)),
        .recv 8172, .sys (.stat (bytes "./www/b")),
        .sys (.send (send_error 404 (bytes "HTTP/1.1") ⟨false, 0⟩))],
       .waiting 1 false) := by
  refine ⟨by decide!, by decide!⟩

/-- C16 (defect): `GET /pipe HTTP/1.1` where `./www/pipe` is neither a directory
nor a regular file: the chain `if (S_ISDIR ...) else if (S_ISREG ...)` has no
last branch, so the only system call of the pass is `stat`, nothing is written
to the socket, and the frame is removed from the buffer. -/
theorem other_entry_type_gets_no_response :
    observe (drain_iter env_fifo 0 (state_of (bytes "GET /pipe HTTP/1.1\r\n\r\n") false)) =
      some ([.stat (bytes "./www/pipe")], [], false) := by
  decide!

/-- C18: an iteration of the worker that starts with the stop flag clear. With
`keep_alive` set: if the remaining budget is at most 0 the loop is left and the
only call is `close`; if it is positive and `select`, called with the budget as
timeout, times out, the calls are that `select` and `close`, so nothing is
read from or written to the socket; the budget is `10 - (now - last_activity)`
whenever that difference and the budget fit in an `int`. With `keep_alive`
clear the first call of the iteration is `recv`. -/
theorem idle_timeout (inp : iter_input) (st : worker_state)
    (hstop : inp.should_stop = false) :
    (st.conn.keep_alive = true →
      (remaining_budget inp.now st.conn.last_activity ≤ 0 →
        worker_iter inp st = .exit [.close]) ∧
      (0 < remaining_budget inp.now st.conn.last_activity → inp.select = .timeout →
        worker_iter inp st =
          .exit [.select (remaining_budget inp.now st.conn.last_activity), .close]) ∧
      (-2147483637 ≤ inp.now - st.conn.last_activity →
        inp.now - st.conn.last_activity ≤ 2147483647 →
        remaining_budget inp.now st.conn.last_activity =
          10 - (inp.now - st.conn.last_activity))) ∧
    (st.conn.keep_alive = false →
      (trace_of (worker_iter inp st)).head? = some (.recv (recv_len st))) := by
  refine ⟨fun hk => ⟨fun hle => ?_, fun hpos hsel => ?_, fun h1 h2 => ?_⟩, fun hk => ?_⟩
  · simp [worker_iter, wait_input, hstop, hk, hle]
  · simp [worker_iter, wait_input, hstop, hk, not_le.mpr hpos, hsel]
  · unfold remaining_budget long_to_int
    have e1 : ((inp.now - st.conn.last_activity + 2 ^ 31) % 2 ^ 32 : Int) =
        inp.now - st.conn.last_activity + 2 ^ 31 := by
      apply Int.emod_eq_of_lt <;> omega
    rw [e1]
    have e2 : ((10 - (inp.now - st.conn.last_activity + 2 ^ 31 - 2 ^ 31) + 2 ^ 31) % 2 ^ 32 : Int)
        = 10 - (inp.now - st.conn.last_activity + 2 ^ 31 - 2 ^ 31) + 2 ^ 31 := by
      apply Int.emod_eq_of_lt <;> omega
    rw [e2]
    omega
  · simp only [worker_iter, wait_input, hstop, hk, Bool.false_eq_true, if_false]
    cases inp.recv with
    | data got =>
      by_cases h0 : got.take (recv_len st) = []
      · simp [h0, trace_of]
      · simp only [h0, if_false]
        cases drain inp.env inp.clock (store_recv st (got.take (recv_len st))) <;>
          simp [trace_of]
    | _ => simp [trace_of]

theorem idle_timeout_witness :
    worker_iter
      { should_stop := false, now := 25, select := .ready, recv := .closed,
        clock := fun _ => 25, env := env_empty }
      { initial_state 10 with conn := ⟨true, 10⟩ } = .exit [.close] :=
  ((idle_timeout _ _ rfl).1 rfl).1 (by decide)

/-! ### The status line -/

/-- C11 (amended): for a complete frame whose request line is `method SP target
SP version CR LF`, every byte string the pass hands to `dprintf` begins with
the first 15 bytes of `version`, up to the first zero byte among them, followed
by a space, one of the status codes 200, 400, 403, 404, 405, 505, a space, the
reason phrase of that code, and CR LF. -/
theorem response_starts_with_version (env : Env) (now : Int) (st : worker_state) (eoh : Nat)
    (method target version : List Nat) (hframe : complete_frame st eoh)
    (hline : request_line st.buffer eoh method target version) (d : List Nat)
    (hd : d ∈ sent (events_of (drain_iter env now st))) :
    status_head (version.take 15) d := by
  obtain ⟨request, hreq, _, _, hvers⟩ :=
    parse_request_of_line st.buffer eoh method target version hframe.eoh_ge
      hframe.eoh_first.1 hline
  rw [drain_iter_of_frame env now st eoh hframe, hreq] at hd
  exact (status_head_congr _ _ _ hvers).mp (sent_handle_request env request _ d hd)

/-- Witness for C11 (amended): `GET / HTTP/1.1` on a file system without entries;
the response is the 404 page. -/
theorem response_starts_with_version_witness :
    status_head ((bytes "HTTP/1.1").take 15) (send_error 404 (bytes "HTTP/1.1") ⟨false, 7⟩) :=
  response_starts_with_version env_empty 7 (state_of (bytes "GET / HTTP/1.1\r\n\r\n") false) 18
    (bytes "GET") (bytes "/") (bytes "HTTP/1.1")
    ⟨by decide, by decide, by decide, by decide⟩
    ⟨by decide, by decide, by decide, by decide, by decide⟩ _ (by decide!)

/-- Counterexample to C11: the version text of the request line is
`HTTP/1.1-extended-draft` (23 bytes). The pass answers 505, and the response
begins with `HTTP/1.1-extend`, the first 15 bytes, followed by a space: the
version text as it stood in the request line is not what the response begins
with. -/
theorem long_version_is_cut :
    complete_frame (state_of (bytes "GET / HTTP/1.1-extended-draft\r\n\r\n") false) 33 ∧
    request_line (state_of (bytes "GET / HTTP/1.1-extended-draft\r\n\r\n") false).buffer 33
      (bytes "GET") (bytes "/") (bytes "HTTP/1.1-extended-draft") ∧
    sent (events_of (drain_iter env_empty 7
        (state_of (bytes "GET / HTTP/1.1-extended-draft\r\n\r\n") false))) =
      [send_error 505 (bytes "HTTP/1.1-extend") ⟨false, 7⟩] ∧
    (bytes "HTTP/1.1-extend 505 ") <+: send_error 505 (bytes "HTTP/1.1-extend") ⟨false, 7⟩ ∧
    ¬ (bytes "HTTP/1.1-extended-draft") <+:
      send_error 505 (bytes "HTTP/1.1-extend") ⟨false, 7⟩ := by
  refine ⟨⟨by decide, by decide, by decide, by decide⟩,
    ⟨by decide, by decide, by decide, by decide, by decide⟩, by decide!, by decide!, by decide!⟩

/-! ### Directories and index files -/

/-- C17 (amended): a complete `GET` request with version `HTTP/1.0` or `HTTP/1.1`
whose resolved path `dir` (the document root followed by the parsed target,
which contains no `..`) is a directory. The index paths are `dir`, a slash
unless `dir` ends with one, and `index.html` or `index.htm`. If `index.html`
is a regular file that can be opened and the header is written, that file is
served: the calls are `stat`, `open`, the 200 header with media type
`text/html` and, unless the file is empty, `sendfile`. If `index.html` is not
a regular file and `index.htm` is one that can be opened and the header is
written, `index.htm` is served in the same way. If neither is a regular file,
the only response is one 404 error response. -/
theorem directory_index_probing (env : Env) (now : Int) (st : worker_state) (eoh : Nat)
    (method target version : List Nat) (hframe : complete_frame st eoh)
    (hline : request_line st.buffer eoh method target version)
    (hget : cstr method = bytes "GET")
    (hver : cstr version = bytes "HTTP/1.0" ∨ cstr version = bytes "HTTP/1.1")
    (hdd : ¬ bytes ".." <:+: cstr (target.take 511))
    (hdir : env.stat (DOCUMENT_ROOT ++ cstr (target.take 511)) = .directory) :
    (((DOCUMENT_ROOT ++ cstr (target.take 511)).getLast? = some 47 →
        index_sep (DOCUMENT_ROOT ++ cstr (target.take 511)) = []) ∧
      ((DOCUMENT_ROOT ++ cstr (target.take 511)).getLast? ≠ some 47 →
        index_sep (DOCUMENT_ROOT ++ cstr (target.take 511)) = [47])) ∧
    ∃ request, parse_request st.buffer eoh = some request ∧
      (∀ n,
        env.stat (DOCUMENT_ROOT ++ cstr (target.take 511) ++
          index_sep (DOCUMENT_ROOT ++ cstr (target.take 511)) ++ bytes "index.html") =
            .regular n →
        env.open_file (DOCUMENT_ROOT ++ cstr (target.take 511) ++
          index_sep (DOCUMENT_ROOT ++ cstr (target.take 511)) ++ bytes "index.html") = .ok →
        env.dprintf_fails
          (file_header version n (bytes "text/html") (conn_after request now)) = false →
        events_of (drain_iter env now st) =
          [.stat (DOCUMENT_ROOT ++ cstr (target.take 511)),
           .stat (DOCUMENT_ROOT ++ cstr (target.take 511) ++
             index_sep (DOCUMENT_ROOT ++ cstr (target.take 511)) ++ bytes "index.html"),
           .open_file (DOCUMENT_ROOT ++ cstr (target.take 511) ++
             index_sep (DOCUMENT_ROOT ++ cstr (target.take 511)) ++ bytes "index.html"),
           .send (file_header version n (bytes "text/html") (conn_after request now))] ++
            sendfile_loop (DOCUMENT_ROOT ++ cstr (target.take 511) ++
              index_sep (DOCUMENT_ROOT ++ cstr (target.take 511)) ++ bytes "index.html") n) ∧
      ((∀ n, env.stat (DOCUMENT_ROOT ++ cstr (target.take 511) ++
          index_sep (DOCUMENT_ROOT ++ cstr (target.take 511)) ++ bytes "index.html") ≠
            .regular n) →
        (∀ n,
          env.stat (DOCUMENT_ROOT ++ cstr (target.take 511) ++
            index_sep (DOCUMENT_ROOT ++ cstr (target.take 511)) ++ bytes "index.htm") =
              .regular n →
          env.open_file (DOCUMENT_ROOT ++ cstr (target.take 511) ++
            index_sep (DOCUMENT_ROOT ++ cstr (target.take 511)) ++ bytes "index.htm") = .ok →
          env.dprintf_fails
            (file_header version n (bytes "text/html") (conn_after request now)) = false →
          events_of (drain_iter env now st) =
            [.stat (DOCUMENT_ROOT ++ cstr (target.take 511)),
             .stat (DOCUMENT_ROOT ++ cstr (target.take 511) ++
               index_sep (DOCUMENT_ROOT ++ cstr (target.take 511)) ++ bytes "index.html"),
             .stat (DOCUMENT_ROOT ++ cstr (target.take 511) ++
               index_sep (DOCUMENT_ROOT ++ cstr (target.take 511)) ++ bytes "index.htm"),
             .open_file (DOCUMENT_ROOT ++ cstr (target.take 511) ++
               index_sep (DOCUMENT_ROOT ++ cstr (target.take 511)) ++ bytes "index.htm"),
             .send (file_header version n (bytes "text/html") (conn_after request now))] ++
              sendfile_loop (DOCUMENT_ROOT ++ cstr (target.take 511) ++
                index_sep (DOCUMENT_ROOT ++ cstr (target.take 511)) ++ bytes "index.htm") n) ∧
        ((∀ n, env.stat (DOCUMENT_ROOT ++ cstr (target.take 511) ++
            index_sep (DOCUMENT_ROOT ++ cstr (target.take 511)) ++ bytes "index.htm") ≠
              .regular n) →
          events_of (drain_iter env now st) =
            [.stat (DOCUMENT_ROOT ++ cstr (target.take 511)),
             .stat (DOCUMENT_ROOT ++ cstr (target.take 511) ++
               index_sep (DOCUMENT_ROOT ++ cstr (target.take 511)) ++ bytes "index.html"),
             .stat (DOCUMENT_ROOT ++ cstr (target.take 511) ++
               index_sep (DOCUMENT_ROOT ++ cstr (target.take 511)) ++ bytes "index.htm"),
             .send (send_error 404 version (conn_after request now))])) := by
  refine ⟨⟨fun h => by unfold index_sep; exact if_pos h,
    fun h => by unfold index_sep; exact if_neg h⟩, ?_⟩
  obtain ⟨request, hreq, hmeth, hpath, hvers⟩ :=
    parse_request_of_line st.buffer eoh method target version hframe.eoh_ge
      hframe.eoh_first.1 hline
  refine ⟨request, hreq, ?_⟩
  have hv15 : cstr request.version = cstr version := by
    rw [hvers]
    rcases hver with h | h
    · rw [h]; exact (cstr_take_eq_iff _ _ 15 (by decide)).mpr h
    · rw [h]; exact (cstr_take_eq_iff _ _ 15 (by decide)).mpr h
  have hlen : strlen request.path ≤ 511 := by
    unfold strlen
    rw [hpath]
    exact le_trans (cstr_length_le _) (by rw [List.length_take]; omega)
  have hfull : (DOCUMENT_ROOT ++ cstr (target.take 511)).length ≤ 516 := by
    have hroot : DOCUMENT_ROOT.length = 5 := by decide
    rw [List.length_append, hroot]
    unfold strlen at hlen
    rw [hpath] at hlen
    omega
  have hzero : 0 ∉ DOCUMENT_ROOT ++ cstr (target.take 511) ++
      index_sep (DOCUMENT_ROOT ++ cstr (target.take 511)) := by
    have h1 : (0 : Nat) ∉ DOCUMENT_ROOT := by decide
    have h2 := cstr_no_zero (target.take 511)
    have h3 : (0 : Nat) ∉ index_sep (DOCUMENT_ROOT ++ cstr (target.take 511)) := by
      unfold index_sep
      split <;> simp
    simp [h1, h2, h3]
  have hmime1 := get_mime_type_index _ (bytes "index.html") (bytes ".html") hzero
    (by decide) (by decide) (by decide)
  have hmime2 := get_mime_type_index _ (bytes "index.htm") (bytes ".htm") hzero
    (by decide) (by decide) (by decide)
  have hhead : ∀ n, file_header request.version n (bytes "text/html") (conn_after request now) =
      file_header version n (bytes "text/html") (conn_after request now) := by
    intro n
    unfold file_header
    rw [hv15]
  have hevents : events_of (drain_iter env now st) =
      .stat (DOCUMENT_ROOT ++ cstr (target.take 511)) ::
        serve_directory env (DOCUMENT_ROOT ++ cstr (target.take 511)) request
          (conn_after request now) := by
    rw [drain_iter_of_frame env now st eoh hframe, hreq]
    simp only [events_of]
    rw [handle_request_resolved env request _
      (by rw [hmeth]; exact (cstr_take_eq_iff _ _ 15 (by decide)).mpr hget)
      (by rw [hv15]; exact hver) hlen (by rw [hpath]; exact hdd), hpath, hdir]
  rw [hevents, serve_directory_eq _ _ _ _ hfull]
  refine ⟨fun n hstat hopen hsend => ?_, fun hno => ⟨fun n hstat hopen hsend => ?_, fun hno2 => ?_⟩⟩
  · rw [serve_file_ok env _ request _ n _ hstat hmime1 hopen (by rw [hhead]; exact hsend), hhead]
    rfl
  · rw [serve_file_not_regular env _ request _ hno,
      serve_file_ok env _ request _ n _ hstat hmime2 hopen (by rw [hhead]; exact hsend), hhead]
    rfl
  · rw [serve_file_not_regular env _ request _ hno,
      serve_file_not_regular env _ request _ hno2, send_error_congr 404 _ _ _ hv15]
    rfl

/-- Witness for C17 (amended): `GET / HTTP/1.1` where `./www/` is a directory
holding `index.html`, once with 12 bytes and once empty; for the empty file no
`sendfile` call is made. -/
theorem directory_index_probing_witness :
    events_of (drain_iter env_index 7 (state_of (bytes "GET / HTTP/1.1\r\n\r\n") false)) =
      [.stat (bytes "./www/"), .stat (bytes "./www/index.html"),
       .open_file (bytes "./www/index.html"),
       .send (file_header (bytes "HTTP/1.1") 12 (bytes "text/html") ⟨false, 7⟩),
       .sendfile (bytes "./www/index.html") 12] ∧
    events_of (drain_iter env_index_empty 7
        (state_of (bytes "GET / HTTP/1.1\r\n\r\n") false)) =
      [.stat (bytes "./www/"), .stat (bytes "./www/index.html"),
       .open_file (bytes "./www/index.html"),
       .send (file_header (bytes "HTTP/1.1") 0 (bytes "text/html") ⟨false, 7⟩)] := by
  obtain ⟨_, request, hreq, h, _⟩ :=
    directory_index_probing env_index 7 (state_of (bytes "GET / HTTP/1.1\r\n\r\n") false) 18
      (bytes "GET") (bytes "/") (bytes "HTTP/1.1")
      ⟨by decide, by decide, by decide, by decide⟩
      ⟨by decide, by decide, by decide, by decide, by decide⟩ (by decide)
      (Or.inr (by decide)) (by decide) (by decide)
  obtain ⟨_, request0, hreq0, h0, _⟩ :=
    directory_index_probing env_index_empty 7
      (state_of (bytes "GET / HTTP/1.1\r\n\r\n") false) 18
      (bytes "GET") (bytes "/") (bytes "HTTP/1.1")
      ⟨by decide, by decide, by decide, by decide⟩
      ⟨by decide, by decide, by decide, by decide, by decide⟩ (by decide)
      (Or.inr (by decide)) (by decide) (by decide)
  have hconn : conn_after request 7 = ⟨false, 7⟩ := by
    have := parse_request_connection _ _ _ hreq
    unfold conn_after
    rw [this]
    decide!
  have hconn0 : conn_after request0 7 = ⟨false, 7⟩ := by
    have := parse_request_connection _ _ _ hreq0
    unfold conn_after
    rw [this]
    decide!
  refine ⟨?_, ?_⟩
  · rw [h 12 (by decide) (by decide) rfl, hconn]
    decide
  · rw [h0 0 (by decide) (by decide) rfl, hconn0]
    decide

/-- Counterexample to C17: `GET / HTTP/1.1` where `./www/` is a directory and
`./www/index.html` a regular file that the server may not open. The file is
not served: the pass writes a 403 error response, goes on to `index.htm`, which
does not exist, and writes a 404 error response as well. -/
theorem index_file_not_served :
    env_locked.stat (bytes "./www/") = .directory ∧
    env_locked.stat (bytes "./www/index.html") = .regular 12 ∧
    events_of (drain_iter env_locked 7 (state_of (bytes "GET / HTTP/1.1\r\n\r\n") false)) =
      [.stat (bytes "./www/"), .stat (bytes "./www/index.html"),
       .open_file (bytes "./www/index.html"),
       .send (send_error 403 (bytes "HTTP/1.1") ⟨false, 7⟩),
       .stat (bytes "./www/index.htm"),
       .send (send_error 404 (bytes "HTTP/1.1") ⟨false, 7⟩)] := by
  refine ⟨by decide, by decide, by decide!⟩

/-! ### Pipelined requests -/

/-- C15 (amended): the live bytes of a buffer that satisfies the buffer
invariant are two `GET` frames `f1` and `f2`, each ending with its header
region, for each of which the worker extracts the body length 0 where the frame
stands, and the rule for `keep_alive` gives true on `f1`. The first pass makes
the system calls of the response to `f1` and leaves exactly `f2` live; the
second pass makes those of the response to `f2`; the run of the loop
`while (buffer_len > 0)` ends after these two passes with the calls of the
first response followed by those of the second, with no live bytes left, and
with `keep_alive` as the rule gives it on `f2`. -/
theorem pipelined_requests_in_order (env : Env) (clock : Nat → Int) (st : worker_state)
    (f1 f2 t1 v1 t2 v2 : List Nat) (hok : buffer_ok st)
    (hlive : st.buffer.take st.buffer_len = f1 ++ f2)
    (h1 : get_frame f1 t1 v1) (h2 : get_frame f2 t2 v2)
    (hk1 : connection_flag f1 = true)
    (hc1 : content_length st.buffer f1.length = 0)
    (hc2 : content_length (st.buffer.drop f1.length) f2.length = 0) :
    ∃ st1 st2,
      drain_iter env (clock 0) st = .handled (response_to env (clock 0) f1) st1 ∧
      st1.buffer.take st1.buffer_len = f2 ∧
      drain_iter env (clock 1) st1 = .handled (response_to env (clock 1) f2) st2 ∧
      drain env clock st =
        .done (response_to env (clock 0) f1 ++ response_to env (clock 1) f2) st2 ∧
      st2.buffer_len = 0 ∧ st2.conn.keep_alive = connection_flag f2 := by
  have hB : BUFFER_SIZE = 8192 := rfl
  obtain ⟨hlen, hle, hterm⟩ := hok
  have hsum : f1.length + f2.length = st.buffer_len := by
    have := congrArg List.length hlive
    rw [List.length_take, List.length_append, hlen] at this
    omega
  have hlt : st.buffer_len < BUFFER_SIZE := by omega
  have hbuf12 : st.buffer = (f1 ++ f2) ++ 0 :: st.buffer.drop (f1.length + f2.length + 1) := by
    have := split_at_zero st.buffer (f1 ++ f2)
      (by rw [List.length_append, hsum]; exact hlive)
      (by rw [List.length_append, hsum]; exact hterm)
    rw [List.length_append] at this
    exact this
  have hbuf : st.buffer = f1 ++ (f2 ++ 0 :: st.buffer.drop (f1.length + f2.length + 1)) := by
    rw [← List.append_assoc]
    exact hbuf12
  have hge1 := h1.len_ge
  have hge2 := h2.len_ge
  have hdrop1 : st.buffer.drop f1.length =
      f2 ++ 0 :: st.buffer.drop (f1.length + f2.length + 1) := by
    nth_rewrite 1 [hbuf]
    rw [List.drop_left]
  have halone1 : content_length (state_of f1 false).buffer f1.length = 0 := by
    show content_length (buffer_of f1) f1.length = 0
    rw [buffer_of_zero f1 (by omega)]
    refine content_length_alone f1 (f2 ++ 0 :: st.buffer.drop (f1.length + f2.length + 1)) _
      (get_frame_last f1 t1 v1 h1) ?_
    rw [← hbuf]
    exact hc1
  have halone2 : content_length (state_of f2 false).buffer f2.length = 0 := by
    show content_length (buffer_of f2) f2.length = 0
    rw [buffer_of_zero f2 (by omega), content_length_behind_zero f2 _
      (st.buffer.drop (f1.length + f2.length + 1)), ← hdrop1]
    exact hc2
  have hpass1 := pass_of_get_frame_response env (clock 0) st f1 t1 v1 h1 hc1 halone1
    ⟨_, hbuf.symm⟩ (by omega) hlt
  rw [hk1] at hpass1
  have hlive1 : (cleanup st f1.length ⟨true, clock 0⟩).buffer.take
      (cleanup st f1.length ⟨true, clock 0⟩).buffer_len = f2 := by
    rw [cleanup_live _ _ _ (by omega)]
    have e : st.buffer_len - f1.length = f2.length := by omega
    rw [e, hdrop1, List.take_left' rfl]
  have hlen1 : (cleanup st f1.length ⟨true, clock 0⟩).buffer_len = f2.length := by
    rw [cleanup_buffer_len]
    omega
  have hsplit1 : (cleanup st f1.length ⟨true, clock 0⟩).buffer =
      f2 ++ 0 :: (cleanup st f1.length ⟨true, clock 0⟩).buffer.drop (f2.length + 1) := by
    refine split_at_zero _ f2 (by rw [← hlen1]; exact hlive1) ?_
    rw [← hlen1]
    exact cleanup_terminator st f1.length ⟨true, clock 0⟩ (by omega)
  have hcl2 : content_length (cleanup st f1.length ⟨true, clock 0⟩).buffer f2.length = 0 := by
    rw [hsplit1, content_length_behind_zero f2 _
      (st.buffer.drop (f1.length + f2.length + 1)), ← hdrop1]
    exact hc2
  have hpass2 := pass_of_get_frame_response env (clock 1) (cleanup st f1.length ⟨true, clock 0⟩)
    f2 t2 v2 h2 hcl2 halone2 (by rw [← hlive1]; exact List.take_prefix _ _) (by omega)
    (by omega)
  refine ⟨_, _, hpass1, hlive1, hpass2, ?_, ?_, rfl⟩
  · obtain ⟨n, hn⟩ : ∃ n, st.buffer_len + 1 = n + 2 := ⟨st.buffer_len - 1, by omega⟩
    have hpos : st.buffer_len > 0 := by omega
    have hpos1 : (cleanup st f1.length ⟨true, clock 0⟩).buffer_len > 0 := by omega
    unfold drain
    rw [hn, drain_loop, if_pos hpos, hpass1]
    simp only
    rw [if_pos (show (cleanup st f1.length ⟨true, clock 0⟩).conn.keep_alive = true from rfl),
      drain_loop, if_pos hpos1, hpass2]
    simp only
    by_cases hk2 : connection_flag f2 = true
    · rw [if_pos (show (cleanup (cleanup st f1.length ⟨true, clock 0⟩) f2.length
          ⟨connection_flag f2, clock 1⟩).conn.keep_alive = true from hk2),
        drain_loop_empty _ _ _ _ _ (by rw [cleanup_buffer_len]; omega)]
      simp
    · rw [if_neg (show ¬ (cleanup (cleanup st f1.length ⟨true, clock 0⟩) f2.length
          ⟨connection_flag f2, clock 1⟩).conn.keep_alive = true from hk2)]
  · rw [cleanup_buffer_len]
    omega

/-- Witness for C15 (amended): `GET /a` with the header lines `Content-Length: 0`
and `Connection: keep-alive`, followed by `GET /b` with `Connection: keep-alive`,
on a file system without entries. -/
theorem pipelined_requests_in_order_witness :
    content_length
      (state_of
        (bytes "GET /a HTTP/1.1\r\nContent-Length: 0\r\nConnection: keep-alive\r\n\r\n" ++
          bytes "GET /b HTTP/1.1\r\nConnection: keep-alive\r\n\r\n") false).buffer
      (bytes "GET /a HTTP/1.1\r\nContent-Length: 0\r\nConnection: keep-alive\r\n\r\n").length =
      0 ∧
    connection_flag
      (bytes "GET /a HTTP/1.1\r\nContent-Length: 0\r\nConnection: keep-alive\r\n\r\n") = true ∧
    ∃ st1 st2,
      drain_iter env_empty 7
          (state_of
            (bytes "GET /a HTTP/1.1\r\nContent-Length: 0\r\nConnection: keep-alive\r\n\r\n" ++
              bytes "GET /b HTTP/1.1\r\nConnection: keep-alive\r\n\r\n") false) =
        .handled
          (response_to env_empty 7
            (bytes "GET /a HTTP/1.1\r\nContent-Length: 0\r\nConnection: keep-alive\r\n\r\n"))
          st1 ∧
      st1.buffer.take st1.buffer_len =
        bytes "GET /b HTTP/1.1\r\nConnection: keep-alive\r\n\r\n" ∧
      drain_iter env_empty 7 st1 =
        .handled
          (response_to env_empty 7 (bytes "GET /b HTTP/1.1\r\nConnection: keep-alive\r\n\r\n"))
          st2 ∧
      drain env_empty (fun _ => 7)
          (state_of
            (bytes "GET /a HTTP/1.1\r\nContent-Length: 0\r\nConnection: keep-alive\r\n\r\n" ++
              bytes "GET /b HTTP/1.1\r\nConnection: keep-alive\r\n\r\n") false) =
        .done
          (response_to env_empty 7
              (bytes
                "GET /a HTTP/1.1\r\nContent-Length: 0\r\nConnection: keep-alive\r\n\r\n") ++
            response_to env_empty 7 (bytes "GET /b HTTP/1.1\r\nConnection: keep-alive\r\n\r\n"))
          st2 ∧
      st2.buffer_len = 0 ∧
      st2.conn.keep_alive =
        connection_flag (bytes "GET /b HTTP/1.1\r\nConnection: keep-alive\r\n\r\n") :=
  ⟨by decide, by decide,
    pipelined_requests_in_order env_empty (fun _ => 7) _ _ _
      (bytes "/a") (bytes "HTTP/1.1") (bytes "/b") (bytes "HTTP/1.1")
      (state_of_ok _ _ (by decide)) (List.take_left' rfl)
      ⟨by decide, by decide, ⟨by decide, by decide, by decide, by decide, by decide⟩⟩
      ⟨by decide, by decide, ⟨by decide, by decide, by decide, by decide, by decide⟩⟩
      (by decide) (by decide) (by decide)⟩

/-- Counterexample to C15: both frames carry the header line
`Connection: keep-alive`, but in the first one the header `X-Connection-Id: 7`
comes before it. The worker takes `7` for the value of `Connection`, clears
`keep_alive`, and leaves the loop after the response to the first frame: the
second frame is not answered in this run and its bytes stay in the buffer. -/
theorem second_frame_left_unanswered :
    spec_keep_alive
      (bytes "GET /a HTTP/1.1\r\nX-Connection-Id: 7\r\nConnection: keep-alive\r\n\r\n") = true ∧
    connection_flag
      (bytes "GET /a HTTP/1.1\r\nX-Connection-Id: 7\r\nConnection: keep-alive\r\n\r\n") = false ∧
    spec_keep_alive (bytes "GET /b HTTP/1.1\r\nConnection: keep-alive\r\n\r\n") = true ∧
    outcome_of (drain env_empty (fun _ => 7)
      (state_of
        (bytes "GET /a HTTP/1.1\r\nX-Connection-Id: 7\r\nConnection: keep-alive\r\n\r\n" ++
          bytes "GET /b HTTP/1.1\r\nConnection: keep-alive\r\n\r\n") false)) =
      some ([.stat (bytes "./www/a"), .send (send_error 404 (bytes "HTTP/1.1") ⟨false, 7⟩)],
        bytes "GET /b HTTP/1.1\r\nConnection: keep-alive\r\n\r\n", false) := by
  refine ⟨by decide!, by decide!, by decide!, by decide!⟩

/-! ### Parse failures, the scan bound, and double responses -/

/-- C21 (defect): a frame without any space (`GET` and the blank line) fails
request-line parsing. When it arrives on a connection on which an earlier
request set `keep_alive`, the flag stays set: the inner loop goes on and the
frame `GET /b` behind it is answered in the same run, and the socket is not
closed. When it arrives on a fresh connection (`keep_alive` clear) the inner
loop is left, but the socket is not closed either: the 19 bytes of `GET /b`
stay live, `recv` is called again, and the frame is answered after that call
returned one more byte. -/
theorem parse_failure_keeps_connection :
    run_worker
      [input_of (.data (bytes "GET /a HTTP/1.1\r\nConnection: keep-alive\r\n\r\n")) env_empty,
       input_of (.data (bytes "GET\r\n\r\nGET /b HTTP/1.1\r\n\r\n")) env_empty]
      (initial_state 0) =
      ([.recv 8191, .sys (.stat (bytes "./www/a")),
        .sys (.send (send_error 404 (bytes "HTTP/1.1") ⟨true, 0⟩)),
        .select 10, .recv 8191, .sys (.stat (bytes "./www/b")),
        .sys (.send (send_error 404 (bytes "HTTP/1.1") ⟨false, 0⟩))],
       .waiting 0 false) ∧
    run_worker [input_of (.data (bytes "GET\r\n\r\nGET /b HTTP/1.1\r\n\r\n")) env_empty]
      (initial_state 0) = ([.recv 8191], .waiting 19 false) ∧
    run_worker
      [input_of (.data (bytes "GET\r\n\r\nGET /b HTTP/1.1\r\n\r\n")) env_empty,
       input_of (.data (bytes "\n")) env_empty]
      (initial_state 0) =
      ([.recv 8191, .recv 8172, .sys (.stat (bytes "./www/b")),
        .sys (.send (send_error 404 (bytes "HTTP/1.1") ⟨false, 0⟩))],
       .waiting 1 false) := by
  refine ⟨by decide!, by decide!, by decide!⟩

/-- C22 (defect): with one live byte (`G`) or two (`GE`) in a fresh buffer the
scan goes through the whole array and reads behind its 8192 bytes. In the
state the worker is in after it answered `GET / HTTP/1.1` and moved the byte
`G` that followed the request to the front, one byte is live and the scan reads
up to index 17, where the CR LF CR LF of the request just answered still
stands. With three live bytes the scan reads nothing. -/
theorem scan_reads_past_live_bytes :
    find_eoh (state_of (bytes "G") false).buffer 1 = .out_of_bounds ∧
    BUFFER_SIZE < find_eoh_extent (state_of (bytes "G") false).buffer 1 ∧
    find_eoh (state_of (bytes "GE") false).buffer 2 = .out_of_bounds ∧
    BUFFER_SIZE < find_eoh_extent (state_of (bytes "GE") false).buffer 2 ∧
    observe (drain_iter env_empty 0 (state_of (bytes "GET / HTTP/1.1\r\n\r\nG") false)) =
      some ([.stat (bytes "./www/"), .send (send_error 404 (bytes "HTTP/1.1") ⟨false, 0⟩)],
        bytes "G", false) ∧
    (cleanup (state_of (bytes "GET / HTTP/1.1\r\n\r\nG") false) 18 ⟨false, 0⟩).buffer_len = 1 ∧
    find_eoh_extent
      (cleanup (state_of (bytes "GET / HTTP/1.1\r\n\r\nG") false) 18 ⟨false, 0⟩).buffer 1 = 18 ∧
    find_eoh
      (cleanup (state_of (bytes "GET / HTTP/1.1\r\n\r\nG") false) 18 ⟨false, 0⟩).buffer 1 =
      .found 18 ∧
    find_eoh_extent (state_of (bytes "GET") false).buffer 3 = 0 := by
  have h1 := find_eoh_extent_of_out_of_bounds (state_of (bytes "G") false).buffer 1 (by decide!)
  have h2 := find_eoh_extent_of_out_of_bounds (state_of (bytes "GE") false).buffer 2 (by decide!)
  rw [show (state_of (bytes "G") false).buffer.length = BUFFER_SIZE from
    buffer_of_length _ (by decide)] at h1
  rw [show (state_of (bytes "GE") false).buffer.length = BUFFER_SIZE from
    buffer_of_length _ (by decide)] at h2
  refine ⟨by decide!, h1, by decide!, h2, by decide!, by decide!, by decide!, by decide!,
    by decide!⟩

/-- C23 (defect): `GET / HTTP/1.1` where `./www/` is a directory and both index
files are regular files, `index.html` one the server may not open. If
`index.htm` can be opened, the pass writes the 403 error response of
`serve_file` for `index.html` and then the 200 response for `index.htm`: two
responses. If `index.htm` cannot be opened either, it writes 403, 403 and the
final 404: three responses. -/
theorem directory_request_answered_twice :
    events_of (drain_iter (env_two_index .ok) 7
        (state_of (bytes "GET / HTTP/1.1\r\n\r\n") false)) =
      [.stat (bytes "./www/"), .stat (bytes "./www/index.html"),
       .open_file (bytes "./www/index.html"),
       .send (send_error 403 (bytes "HTTP/1.1") ⟨false, 7⟩),
       .stat (bytes "./www/index.htm"), .open_file (bytes "./www/index.htm"),
       .send (file_header (bytes "HTTP/1.1") 9 (bytes "text/html") ⟨false, 7⟩),
       .sendfile (bytes "./www/index.htm") 9] ∧
    (sent (events_of (drain_iter (env_two_index .ok) 7
        (state_of (bytes "GET / HTTP/1.1\r\n\r\n") false)))).length = 2 ∧
    events_of (drain_iter (env_two_index .eacces) 7
        (state_of (bytes "GET / HTTP/1.1\r\n\r\n") false)) =
      [.stat (bytes "./www/"), .stat (bytes "./www/index.html"),
       .open_file (bytes "./www/index.html"),
       .send (send_error 403 (bytes "HTTP/1.1") ⟨false, 7⟩),
       .stat (bytes "./www/index.htm"), .open_file (bytes "./www/index.htm"),
       .send (send_error 403 (bytes "HTTP/1.1") ⟨false, 7⟩),
       .send (send_error 404 (bytes "HTTP/1.1") ⟨false, 7⟩)] ∧
    (sent (events_of (drain_iter (env_two_index .eacces) 7
        (state_of (bytes "GET / HTTP/1.1\r\n\r\n") false)))).length = 3 := by
  refine ⟨by decide!, by decide!, by decide!, by decide!⟩

end HttpServer
